import Mathlib

/-!
# Smart_ptrs: shared ownership with self observation

Shallow embedding of `smart-ptrs/shared-from-this/sw_fwd.h`,
`smart-ptrs/shared-from-this/shared.h` and `smart-ptrs/weak/weak.h`.

Modelling conventions

* A payload pointer `T*` is a natural number, `0` being `nullptr`.
* A control-block pointer `ControlBlockBase*` is `Option Nat`: `none` is
  `nullptr`, `some b` is the address `b` of a block.
* The free store is a `Heap`: the live control blocks, the `weak_this_` member of
  every live self-observing payload, and a log of the destruction events that
  have happened so far, oldest first.
* The counters `strong_` and `weak_` are C++ `int`s.  Signed overflow is undefined
  behaviour, so they are mathematical integers here and the model covers the
  executions in which no counter leaves the range of `int`.
* An operation that touches a control block which is not live (a dangling
  pointer) has undefined behaviour: the model returns `none` (or `Res.ub`).
* A payload is an object whose destructor does nothing to smart pointers except
  for destroying its `EnableSharedFromThis::weak_this_` member, when it has one.
  A payload that holds a `SharedPtr` member enters only as the place where the
  source of an assignment lives (`SharedRef.member`): once that payload has been
  destroyed the source is read after its lifetime, the assignment is undefined
  and the model follows it no further.
* A member function whose body is ill-formed for a class of template arguments
  has no instance for them and so no result: the model returns `none`.
-/

namespace SFT

/-- Payload address, the C++ `T*`; `0` is `nullptr`. -/
abbrev Ptr := Nat

/-- Destruction events recorded in the heap log. -/
inductive Event where
  /-- The statement `delete tmp` of `ControlBlockPointerImpl::ZeroStrong`, `tmp` not null. -/
  | deletePayload (p : Ptr)
  /-- The statement `GetRawPtr()->~T()` of `ControlBlockEmplaceImpl::ZeroStrong`. -/
  | destroyInPlace (p : Ptr)
  /-- The statement `delete this` of `ZeroWeak`. -/
  | deleteBlock (b : Nat)
  deriving DecidableEq, Repr

/-- The two classes derived from `ControlBlockBase`, with their own data member. -/
inductive BlockImpl where
  /-- Class `ControlBlockPointerImpl<T>` with its member `ptr_`. -/
  | pointer (ptr_ : Ptr)
  /-- Class `ControlBlockEmplaceImpl<T>`; `holder_` is the address `GetRawPtr()` returns. -/
  | emplace (holder_ : Ptr)
  deriving DecidableEq, Repr

/-- Class `ControlBlockBase`: `int strong_ = 1; int weak_ = 0;` and the dynamic type. -/
structure ControlBlockBase where
  strong_ : Int
  weak_ : Int
  impl : BlockImpl
  deriving DecidableEq, Repr

/-- Class `WeakPtr<T>`: `T* ptr_; ControlBlockBase* block_;`. -/
structure WeakPtr where
  ptr_ : Ptr
  block_ : Option Nat
  deriving DecidableEq, Repr

/-- Class `SharedPtr<T>`: `T* ptr_; ControlBlockBase* block_;`. -/
structure SharedPtr where
  ptr_ : Ptr
  block_ : Option Nat
  deriving DecidableEq, Repr

/-- The free store. -/
structure Heap where
  /-- Live control blocks by address. -/
  blocks : Nat → Option ControlBlockBase
  /-- Member `weak_this_` of the live self-observing payload at an address. -/
  weak_this_ : Ptr → Option WeakPtr
  /-- Destruction events so far, oldest first. -/
  log : List Event

/-- Heap without any object. -/
def Heap.empty : Heap :=
  { blocks := fun _ => none, weak_this_ := fun _ => none, log := [] }

/-- Store (or remove, with `none`) the control block at address `b`. -/
def Heap.setBlock (hp : Heap) (b : Nat) (cb : Option ControlBlockBase) : Heap :=
  { hp with blocks := fun i => if i = b then cb else hp.blocks i }

/-- Store (or remove) the `weak_this_` member of the payload at address `p`. -/
def Heap.setWeakThis (hp : Heap) (p : Ptr) (w : Option WeakPtr) : Heap :=
  { hp with weak_this_ := fun i => if i = p then w else hp.weak_this_ i }

/-- Append an event to the log. -/
def Heap.emit (hp : Heap) (e : Event) : Heap :=
  { hp with log := hp.log ++ [e] }

/-- How often the log records the destruction of the payload at address `p`. -/
def payloadEvents (p : Ptr) (log : List Event) : Nat :=
  log.count (Event.deletePayload p) + log.count (Event.destroyInPlace p)

/-- Outcome of an operation that may throw `BadWeakPtr`. -/
inductive Res (α : Type) where
  /-- Normal return with a value and the heap afterwards. -/
  | ok (a : α) (hp : Heap)
  /-- The exception `BadWeakPtr` left the operation; the heap after unwinding. -/
  | badWeakPtr (hp : Heap)
  /-- Undefined behaviour. -/
  | ub

/-- Value returned, when the operation returned normally. -/
def Res.val? {α : Type} : Res α → Option α
  | .ok a _ => some a
  | _ => none

/-- Heap after the operation, when it returned or threw. -/
def Res.heap? {α : Type} : Res α → Option Heap
  | .ok _ hp => some hp
  | .badWeakPtr hp => some hp
  | .ub => none

/-- Whether the operation threw `BadWeakPtr`. -/
def Res.threw {α : Type} : Res α → Bool
  | .badWeakPtr _ => true
  | _ => false

/-- Conversion of an `int` to `size_t` (64 bit): the identity on non-negative
values, `2^64 + i` on negative ones.  On the whole range of `int` this is
reduction modulo `2^64`. -/
def toSizeT (i : Int) : Nat :=
  if 0 ≤ i then i.toNat else (i + 2 ^ 64).toNat

/-! ## `ControlBlockBase` (shared-from-this/sw_fwd.h) -/

/-- Source `ControlBlockBase::IncrementStrong`: `++strong_`. -/
def IncrementStrong (b : Nat) (hp : Heap) : Option Heap :=
  match hp.blocks b with
  | none => none
  | some cb => some (hp.setBlock b (some { cb with strong_ := cb.strong_ + 1 }))

/-- Source `ControlBlockBase::IncrementWeak`: `++weak_`. -/
def IncrementWeak (b : Nat) (hp : Heap) : Option Heap :=
  match hp.blocks b with
  | none => none
  | some cb => some (hp.setBlock b (some { cb with weak_ := cb.weak_ + 1 }))

/-- Source `ControlBlockBase::GetStrong`. -/
def GetStrong (b : Nat) (hp : Heap) : Option Int :=
  (hp.blocks b).map fun cb => cb.strong_

/-- Source `ControlBlockBase::GetWeak`. -/
def GetWeak (b : Nat) (hp : Heap) : Option Int :=
  (hp.blocks b).map fun cb => cb.weak_

/-- Source `ControlBlockBase::ExistsStrong`: `strong_ > 0`. -/
def ExistsStrong (b : Nat) (hp : Heap) : Option Bool :=
  (hp.blocks b).map fun cb => decide (cb.strong_ > 0)

/-- Source `ControlBlockBase::Put`: `strong_ = 1`. -/
def Put (b : Nat) (hp : Heap) : Option Heap :=
  match hp.blocks b with
  | none => none
  | some cb => some (hp.setBlock b (some { cb with strong_ := 1 }))

/-- Source `ZeroWeak` of both derived classes: `delete this`.  The destructors of the
derived classes are defaulted, so nothing else happens. -/
def ZeroWeak (b : Nat) (hp : Heap) : Option Heap :=
  match hp.blocks b with
  | none => none
  | some _ => some ((hp.setBlock b none).emit (Event.deleteBlock b))

/-- Source `ControlBlockBase::DecrementWeak`: `--weak_; if (weak_ + strong_ == 0) ZeroWeak();`. -/
def DecrementWeak (b : Nat) (hp : Heap) : Option Heap :=
  match hp.blocks b with
  | none => none
  | some cb =>
    let cb1 : ControlBlockBase := { cb with weak_ := cb.weak_ - 1 }
    let hp1 := hp.setBlock b (some cb1)
    if cb1.weak_ + cb1.strong_ = 0 then ZeroWeak b hp1 else some hp1

/-! ## `WeakPtr` (weak/weak.h) -/

/-- Source `WeakPtr::WeakPtr()`. -/
def WeakPtr.default : WeakPtr := { ptr_ := 0, block_ := none }

/-- Source `WeakPtr::WeakPtr(const WeakPtr&)` and the converting copy constructor. -/
def WeakPtr.copy (other : WeakPtr) (hp : Heap) : Option (WeakPtr × Heap) :=
  match other.block_ with
  | some b => (IncrementWeak b hp).map fun hp1 => ({ ptr_ := other.ptr_, block_ := some b }, hp1)
  | none => some ({ ptr_ := other.ptr_, block_ := none }, hp)

/-- Source `WeakPtr::WeakPtr(const SharedPtr<Y>&)`. -/
def WeakPtr.fromShared (other : SharedPtr) (hp : Heap) : Option (WeakPtr × Heap) :=
  match other.block_ with
  | some b => (IncrementWeak b hp).map fun hp1 => ({ ptr_ := other.ptr_, block_ := some b }, hp1)
  | none => some ({ ptr_ := other.ptr_, block_ := none }, hp)

/-- Source `WeakPtr::WeakPtr(WeakPtr<Y>&&)`: the new handle and the emptied source. -/
def WeakPtr.move (other : WeakPtr) : WeakPtr × WeakPtr :=
  ({ ptr_ := other.ptr_, block_ := other.block_ }, { ptr_ := 0, block_ := none })

/-- Source `WeakPtr::~WeakPtr`: `if (block_) block_->DecrementWeak();`. -/
def WeakPtr.destroy (self : WeakPtr) (hp : Heap) : Option Heap :=
  match self.block_ with
  | some b => DecrementWeak b hp
  | none => some hp

/-- Source `WeakPtr::Reset`: `if (block_) { block_->DecrementWeak(); block_ = nullptr; }`.
The member `ptr_` keeps its value. -/
def WeakPtr.Reset (self : WeakPtr) (hp : Heap) : Option (WeakPtr × Heap) :=
  match self.block_ with
  | some b => (DecrementWeak b hp).map fun hp1 => ({ self with block_ := none }, hp1)
  | none => some (self, hp)

/-- Source `WeakPtr::operator=(const WeakPtr<Y>&)`: no test for self-assignment;
`Reset(); ptr_ = other.ptr_; block_ = other.block_; if (block_) IncrementWeak();`.
Also the body of `operator=(WeakPtr&)` when `this != &other`.  The argument is a
different object from `self`. -/
def WeakPtr.assign (self other : WeakPtr) (hp : Heap) : Option (WeakPtr × Heap) :=
  match self.Reset hp with
  | none => none
  | some (_, hp1) =>
    match other.block_ with
    | some b =>
      (IncrementWeak b hp1).map fun hp2 => ({ ptr_ := other.ptr_, block_ := some b }, hp2)
    | none => some ({ ptr_ := other.ptr_, block_ := none }, hp1)

/-- Source `WeakPtr::operator=(const SharedPtr<T>&)`: guarded by `this->ptr_ != other.ptr_`. -/
def WeakPtr.assignShared (self : WeakPtr) (other : SharedPtr) (hp : Heap) :
    Option (WeakPtr × Heap) :=
  if self.ptr_ ≠ other.ptr_ then
    match self.Reset hp with
    | none => none
    | some (_, hp1) =>
      match other.block_ with
      | some b =>
        (IncrementWeak b hp1).map fun hp2 => ({ ptr_ := other.ptr_, block_ := some b }, hp2)
      | none => some ({ ptr_ := other.ptr_, block_ := none }, hp1)
  else some (self, hp)

/-- Source `WeakPtr::Swap`. -/
def WeakPtr.Swap (self other : WeakPtr) : WeakPtr × WeakPtr := (other, self)

/-- Source `WeakPtr::UseCount`: `block_ ? block_->GetStrong() : 0`, as a `size_t`. -/
def WeakPtr.UseCount (self : WeakPtr) (hp : Heap) : Option Nat :=
  match self.block_ with
  | some b => (GetStrong b hp).map toSizeT
  | none => some 0

/-- Source `WeakPtr::Expired`: `!UseCount()`. -/
def WeakPtr.Expired (self : WeakPtr) (hp : Heap) : Option Bool :=
  (self.UseCount hp).map fun n => decide (n = 0)

/-! ## Payload destruction and the strong count -/

/-- Destructor of the payload at address `p`: a self-observing payload destroys
its member `weak_this_`; any other payload touches no smart pointer. -/
def destroyPayload (p : Ptr) (hp : Heap) : Option Heap :=
  match hp.weak_this_ p with
  | none => some hp
  | some w => w.destroy (hp.setWeakThis p none)

/-- Source `ZeroStrong`.  `ControlBlockPointerImpl`: `auto tmp = ptr_; ptr_ = nullptr; delete tmp;`
(`delete` of a null pointer does nothing).  `ControlBlockEmplaceImpl`:
`GetRawPtr()->~T();`.  The event is logged when the destructor is entered. -/
def ZeroStrong (b : Nat) (hp : Heap) : Option Heap :=
  match hp.blocks b with
  | none => none
  | some cb =>
    match cb.impl with
    | .pointer tmp =>
      let hp1 := hp.setBlock b (some { cb with impl := .pointer 0 })
      if tmp = 0 then some hp1 else destroyPayload tmp (hp1.emit (Event.deletePayload tmp))
    | .emplace q => destroyPayload q (hp.emit (Event.destroyInPlace q))

/-- Source `ControlBlockBase::DecrementStrong`:
`--strong_; if (strong_ == 0 && weak_ != 0) ZeroStrong();
 else if (weak_ == 0 && strong_ == 0) { ZeroStrong(); ZeroWeak(); }`. -/
def DecrementStrong (b : Nat) (hp : Heap) : Option Heap :=
  match hp.blocks b with
  | none => none
  | some cb =>
    let cb1 : ControlBlockBase := { cb with strong_ := cb.strong_ - 1 }
    let hp1 := hp.setBlock b (some cb1)
    if cb1.strong_ = 0 ∧ cb1.weak_ ≠ 0 then ZeroStrong b hp1
    else if cb1.weak_ = 0 ∧ cb1.strong_ = 0 then
      match ZeroStrong b hp1 with
      | none => none
      | some hp2 => ZeroWeak b hp2
    else some hp1

/-! ## `SharedPtr` (shared-from-this/shared.h) -/

/-- Source `SharedPtr::SharedPtr()` and `SharedPtr(std::nullptr_t)`. -/
def SharedPtr.default : SharedPtr := { ptr_ := 0, block_ := none }

/-- Source `SharedPtr::Get`. -/
def SharedPtr.Get (self : SharedPtr) : Ptr := self.ptr_

/-- Source `SharedPtr::operator bool`: `ptr_ != nullptr`. -/
def SharedPtr.toBool (self : SharedPtr) : Bool := decide (self.ptr_ ≠ 0)

/-- Source `SharedPtr::UseCount`: `block_ ? block_->GetStrong() : 0`, as a `size_t`. -/
def SharedPtr.UseCount (self : SharedPtr) (hp : Heap) : Option Nat :=
  match self.block_ with
  | some b => (GetStrong b hp).map toSizeT
  | none => some 0

/-- The statement `ptr->weak_this_ = WeakPtr(*this);` of the constructors, instantiated
when `T*` converts to `ESFTBase*`.  `WeakPtr` names the class template here, so its
argument has to be deduced from `*this`, a `SharedPtr<T>`; the only constructor of
weak/weak.h that takes a `SharedPtr` is `template <typename Y> WeakPtr(const SharedPtr<Y>&)`,
from which `T` cannot be deduced.  The statement is ill-formed, a constructor that contains
it has no instance, and so it has no result: `none`. -/
def linkWeakThis (_self : SharedPtr) (_hp : Heap) : Option Heap := none

/-- The spec's words for the back-link, "store a non-owning weak link inside the payload,
populate it lazily on first wrap, never let it contribute to the strong count": a temporary
`WeakPtr` is built from the handle, assigned to the member `weak_this_` of the payload, and
destroyed. -/
def intendedLink (self : SharedPtr) (hp : Heap) : Option Heap :=
  match WeakPtr.fromShared self hp with
  | none => none
  | some (tmp, hp1) =>
    match hp1.weak_this_ self.ptr_ with
    | none => none
    | some wt =>
      match wt.assign tmp hp1 with
      | none => none
      | some (wt1, hp2) => tmp.destroy (hp2.setWeakThis self.ptr_ (some wt1))

/-- Source `SharedPtr::SharedPtr(T* ptr, ControlBlockBase* block)`; `esft` says whether
`T*` converts to `ESFTBase*`, in which case the constructor has no instance. -/
def SharedPtr.fromBlock (ptr : Ptr) (block : Nat) (esft : Bool) (hp : Heap) :
    Option (SharedPtr × Heap) :=
  let self : SharedPtr := { ptr_ := ptr, block_ := some block }
  if esft then (linkWeakThis self hp).map fun hp1 => (self, hp1) else some (self, hp)

/-- Source `SharedPtr::SharedPtr(T* ptr)` (and the `U*` overload): `a` is the address
returned by `new ControlBlockPointerImpl<T>(ptr)`, which is not the address of a
live block; the new block starts with `strong_ = 1`, `weak_ = 0`.  For a self-observing
`T` (`esft`) the constructor has no instance. -/
def SharedPtr.fromRaw (ptr : Ptr) (a : Nat) (esft : Bool) (hp : Heap) :
    Option (SharedPtr × Heap) :=
  match hp.blocks a with
  | some _ => none
  | none =>
    let hp1 := hp.setBlock a (some { strong_ := 1, weak_ := 0, impl := .pointer ptr })
    let self : SharedPtr := { ptr_ := ptr, block_ := some a }
    if esft then (linkWeakThis self hp1).map fun hp2 => (self, hp2) else some (self, hp1)

/-- The expression `new T` run by the client before wrapping: a self-observing
payload starts with a default-constructed `weak_this_`. -/
def newPayload (p : Ptr) (esft : Bool) (hp : Heap) : Heap :=
  hp.setWeakThis p (if esft then some WeakPtr.default else none)

/-- Source `MakeShared<T>`: `new ControlBlockEmplaceImpl<T>(args...)` at address `a`,
whose `holder_` lies at the non-null address `q` and receives the new payload,
then `SharedPtr<T>(block->GetRawPtr(), block)`. -/
def MakeShared (q : Ptr) (a : Nat) (esft : Bool) (hp : Heap) : Option (SharedPtr × Heap) :=
  match hp.blocks a with
  | some _ => none
  | none =>
    if q = 0 then none
    else
      let hp1 := hp.setBlock a (some { strong_ := 1, weak_ := 0, impl := .emplace q })
      SharedPtr.fromBlock q a esft (newPayload q esft hp1)

/-- Source `SharedPtr::SharedPtr(const SharedPtr&)` and `SharedPtr(SharedPtr<U>&)`. -/
def SharedPtr.copy (other : SharedPtr) (hp : Heap) : Option (SharedPtr × Heap) :=
  match other.block_ with
  | some b => (IncrementStrong b hp).map fun hp1 => ({ ptr_ := other.ptr_, block_ := some b }, hp1)
  | none => some ({ ptr_ := other.ptr_, block_ := none }, hp)

/-- Source `SharedPtr::SharedPtr(SharedPtr&&)`: the new handle and the source afterwards. -/
def SharedPtr.move (other : SharedPtr) : SharedPtr × SharedPtr :=
  ({ ptr_ := other.ptr_, block_ := other.block_ }, { ptr_ := 0, block_ := none })

/-- Aliasing constructor `SharedPtr(const SharedPtr<Y>& other, T* ptr)`. -/
def SharedPtr.alias (other : SharedPtr) (ptr : Ptr) (hp : Heap) : Option (SharedPtr × Heap) :=
  match other.block_ with
  | some b => (IncrementStrong b hp).map fun hp1 => ({ ptr_ := ptr, block_ := some b }, hp1)
  | none => some ({ ptr_ := ptr, block_ := none }, hp)

/-- Source `SharedPtr::SharedPtr(const WeakPtr<T>& other)`:
`if (block_ && !block_->ExistsStrong()) throw BadWeakPtr();
 if (block_) block_->IncrementStrong();`. -/
def SharedPtr.fromWeak (other : WeakPtr) (hp : Heap) : Res SharedPtr :=
  match other.block_ with
  | some b =>
    match ExistsStrong b hp with
    | none => Res.ub
    | some false => Res.badWeakPtr hp
    | some true =>
      match IncrementStrong b hp with
      | none => Res.ub
      | some hp1 => Res.ok { ptr_ := other.ptr_, block_ := some b } hp1
  | none => Res.ok { ptr_ := other.ptr_, block_ := none } hp

/-- Source `SharedPtr::Reset()`:
`if (block_ && ptr_) { if (block_->GetStrong() == 1) { block_->DecrementStrong();
 ptr_ = nullptr; block_ = nullptr; } else { block_->DecrementStrong(); } }`. -/
def SharedPtr.Reset (self : SharedPtr) (hp : Heap) : Option (SharedPtr × Heap) :=
  match self.block_ with
  | some b =>
    if self.ptr_ ≠ 0 then
      match GetStrong b hp with
      | none => none
      | some s =>
        if s = 1 then
          (DecrementStrong b hp).map fun hp1 => ({ ptr_ := 0, block_ := none }, hp1)
        else (DecrementStrong b hp).map fun hp1 => (self, hp1)
    else some (self, hp)
  | none => some (self, hp)

/-- Source `SharedPtr::~SharedPtr`: `Reset();`. -/
def SharedPtr.destroy (self : SharedPtr) (hp : Heap) : Option Heap :=
  (self.Reset hp).map fun r => r.2

/-- The handle object that an assignment operator receives by reference, with the
place where it lives and the value it holds when the operator is entered. -/
inductive SharedRef where
  /-- A handle outside every payload, such as a variable of the client. -/
  | client (v : SharedPtr)
  /-- A data member of the payload at address `p`, such as `d->next`. -/
  | member (p : Ptr) (v : SharedPtr)
  deriving DecidableEq, Repr

/-- The members `ptr_` and `block_` of the referenced handle, read in the heap `hp1` by
an operator that was entered in the heap `hp`.  A handle that lives in a payload whose
destructor has run in between is read after its lifetime: undefined, `none`. -/
def SharedRef.read (r : SharedRef) (hp hp1 : Heap) : Option SharedPtr :=
  match r with
  | .client v => some v
  | .member p v => if payloadEvents p hp1.log = payloadEvents p hp.log then some v else none

/-- Source `SharedPtr::operator=(const SharedPtr&)` for `this != &other`:
`Reset(); ptr_ = other.ptr_; block_ = other.block_; if (block_) IncrementStrong();`.
The members of `other` are read after `Reset()` has run. -/
def SharedPtr.copyAssign (self : SharedPtr) (other : SharedRef) (hp : Heap) :
    Option (SharedPtr × Heap) :=
  match self.Reset hp with
  | none => none
  | some (_, hp1) =>
    match other.read hp hp1 with
    | none => none
    | some o =>
      match o.block_ with
      | some b =>
        (IncrementStrong b hp1).map fun hp2 => ({ ptr_ := o.ptr_, block_ := some b }, hp2)
      | none => some ({ ptr_ := o.ptr_, block_ := none }, hp1)

/-- Source `SharedPtr::operator=(SharedPtr&&)` for `this != &other`:
`this->Reset(); ptr_ = other.ptr_; block_ = other.block_; other.ptr_ = nullptr;
 other.block_ = nullptr;`.  The members of `other` are read after `Reset()` has run.
Returns the destination, the value left in the source, and the heap. -/
def SharedPtr.moveAssign (self : SharedPtr) (other : SharedRef) (hp : Heap) :
    Option (SharedPtr × SharedPtr × Heap) :=
  match self.Reset hp with
  | none => none
  | some (_, hp1) =>
    match other.read hp hp1 with
    | none => none
    | some o =>
      some ({ ptr_ := o.ptr_, block_ := o.block_ }, { ptr_ := 0, block_ := none }, hp1)

/-- Source `SharedPtr::Reset(T* ptr)`; `a` is the address returned by `new`. -/
def SharedPtr.ResetPtr (self : SharedPtr) (ptr : Ptr) (a : Nat) (hp : Heap) :
    Option (SharedPtr × Heap) :=
  if self.ptr_ ≠ ptr then
    match self.Reset hp with
    | none => none
    | some (self1, hp1) =>
      match hp1.blocks a with
      | some _ => none
      | none =>
        let hp2 := hp1.setBlock a (some { strong_ := 1, weak_ := 0, impl := .pointer ptr })
        if self1.ptr_ ≠ 0 then
          (Put a hp2).map fun hp3 => ({ ptr_ := ptr, block_ := some a }, hp3)
        else some ({ ptr_ := ptr, block_ := some a }, hp2)
  else some (self, hp)

/-- Source `SharedPtr::Swap`. -/
def SharedPtr.Swap (self other : SharedPtr) : SharedPtr × SharedPtr := (other, self)

/-- Source `WeakPtr::Lock`:
`if (Expired()) return SharedPtr<T>(); else return SharedPtr<T>(WeakPtr<T>(*this));`.
The temporary `WeakPtr` is destroyed at the end of the full expression, also
when the constructor throws. -/
def WeakPtr.Lock (self : WeakPtr) (hp : Heap) : Res SharedPtr :=
  match self.Expired hp with
  | none => Res.ub
  | some true => Res.ok SharedPtr.default hp
  | some false =>
    match self.copy hp with
    | none => Res.ub
    | some (tmp, hp1) =>
      match SharedPtr.fromWeak tmp hp1 with
      | Res.ub => Res.ub
      | Res.badWeakPtr hp2 =>
        match tmp.destroy hp2 with
        | none => Res.ub
        | some hp3 => Res.badWeakPtr hp3
      | Res.ok r hp2 =>
        match tmp.destroy hp2 with
        | none => Res.ub
        | some hp3 => Res.ok r hp3

/-! ## `EnableSharedFromThis` -/

/-- Source `EnableSharedFromThis::SharedFromThis()` (non-const) on the payload at address
`this_`: `auto e = weak_this_.Lock(); return SharedPtr<T>(e);`, then `e` is destroyed. -/
def SharedFromThis (this_ : Ptr) (hp : Heap) : Res SharedPtr :=
  match hp.weak_this_ this_ with
  | none => Res.ub
  | some wt =>
    match wt.Lock hp with
    | Res.ub => Res.ub
    | Res.badWeakPtr hp1 => Res.badWeakPtr hp1
    | Res.ok e hp1 =>
      match SharedPtr.copy e hp1 with
      | none => Res.ub
      | some (r, hp2) =>
        match e.destroy hp2 with
        | none => Res.ub
        | some hp3 => Res.ok r hp3

/-- Source `EnableSharedFromThis::SharedFromThis() const`:
`auto e = weak_this_.Lock(); if (e) return SharedPtr<const T>(e); else throw BadWeakPtr();`. -/
def SharedFromThisConst (this_ : Ptr) (hp : Heap) : Res SharedPtr :=
  match hp.weak_this_ this_ with
  | none => Res.ub
  | some wt =>
    match wt.Lock hp with
    | Res.ub => Res.ub
    | Res.badWeakPtr hp1 => Res.badWeakPtr hp1
    | Res.ok e hp1 =>
      if e.toBool then
        match SharedPtr.copy e hp1 with
        | none => Res.ub
        | some (r, hp2) =>
          match e.destroy hp2 with
          | none => Res.ub
          | some hp3 => Res.ok r hp3
      else
        match e.destroy hp1 with
        | none => Res.ub
        | some hp2 => Res.badWeakPtr hp2

/-- Source `EnableSharedFromThis::WeakFromThis()` (non-const): `return weak_this_;`, a copy
of `weak_this_` made by `WeakPtr(const WeakPtr&)`. -/
def WeakFromThis (this_ : Ptr) (hp : Heap) : Option (WeakPtr × Heap) :=
  match hp.weak_this_ this_ with
  | none => none
  | some wt => wt.copy hp

/-- Source `EnableSharedFromThis::WeakFromThis() const`: `return weak_this_;` with the return
type `WeakPtr<const T>`.  The conversion goes through
`template <typename Y> WeakPtr(const WeakPtr<Y>& other)`, which reads `other.ptr_` and
`other.block_`, private members of `WeakPtr<T>`, from `WeakPtr<const T>`; weak/weak.h
declares no `WeakPtr` specialization a friend.  The overload is ill-formed when
instantiated and has no result: `none`. -/
def WeakFromThisConst (_this : Ptr) (_hp : Heap) : Option (WeakPtr × Heap) := none

/-! ## Notions used to state the properties -/

/-- Address of the payload a control block manages. -/
def BlockImpl.payload : BlockImpl → Ptr
  | .pointer p => p
  | .emplace q => q

/-- The payload of block `b` is not self-observing, or its `weak_this_` is empty
or observes `b` itself (what the wrapping constructors establish). -/
def LinkOK (hp : Heap) (b : Nat) (cb : ControlBlockBase) : Prop :=
  ∀ w, hp.weak_this_ cb.impl.payload = some w → w.block_ = none ∨ w.block_ = some b

/-- A heap with one group: block `1` owns payload `100`, two strong references. -/
def twoOwners : Heap :=
  { blocks := fun i => if i = 1 then some ⟨2, 0, .pointer 100⟩ else none,
    weak_this_ := fun _ => none, log := [] }

/-- A heap with one group: block `1` owns payload `100`, one strong reference. -/
def oneOwner : Heap :=
  { blocks := fun i => if i = 1 then some ⟨1, 0, .pointer 100⟩ else none,
    weak_this_ := fun _ => none, log := [] }

/-- A heap holding one self-observing payload at `100` that no handle has wrapped. -/
def neverWrapped : Heap := newPayload 100 true Heap.empty

/-- A heap in which the self-observing payload at address `100` is owned through the
control block `1` and its `weak_this_` observes that block, as after
`SharedPtr<T> h; h.Reset(p); p->weak_this_ = h;`. -/
def wrappedSelfObserver : Heap :=
  { blocks := fun i => if i = 1 then some ⟨1, 1, .pointer 100⟩ else none,
    weak_this_ := fun i => if i = 100 then some ⟨100, some 1⟩ else none, log := [] }

/-! ## A world of handles

Programs that own a list of live `SharedPtr` objects and a list of live
`WeakPtr` objects and run the operations of the two classes on them.  The
allocator hands out addresses that were never used before; payload and control
block of one group get the same number. -/

/-- Live handles and the heap. -/
structure World where
  heap : Heap
  shared : List SharedPtr
  weak : List WeakPtr
  /-- Next address `new` returns. -/
  fresh : Nat

/-- No object yet. -/
def World.init : World := { heap := Heap.empty, shared := [], weak := [], fresh := 1 }

/-- Operations of a client program; a number names a live handle by position. -/
inductive Op where
  /-- Source `SharedPtr<T> h(new T);` (`esft`: `T` is self-observing, for which the
  constructors have no instance). -/
  | wrap (esft : Bool)
  /-- Source `SharedPtr<T> h = MakeShared<T>();`. -/
  | makeShared (esft : Bool)
  /-- Source `SharedPtr<T> h(shared[i]);`. -/
  | sharedCopy (i : Nat)
  /-- Source `shared[i] = shared[j];`. -/
  | sharedAssign (i j : Nat)
  /-- End of the lifetime of `shared[i]`. -/
  | sharedDestroy (i : Nat)
  /-- Source `WeakPtr<T> w(shared[i]);`. -/
  | weakFromShared (i : Nat)
  /-- Source `WeakPtr<T> w(weak[k]);`. -/
  | weakCopy (k : Nat)
  /-- Source `weak[k].UseCount();`. -/
  | weakUseCount (k : Nat)
  /-- Source `weak[k].Expired();`. -/
  | weakExpired (k : Nat)
  /-- Source `SharedPtr<T> h = weak[k].Lock();`. -/
  | weakLock (k : Nat)
  /-- Source `weak[k].Reset();`. -/
  | weakReset (k : Nat)
  /-- End of the lifetime of `weak[k]`. -/
  | weakDestroy (k : Nat)
  /-- Source `SharedPtr<T> h(weak[k]);` inside a `try` block. -/
  | promote (k : Nat)
  deriving DecidableEq, Repr

/-- One operation; `none` when a position names no handle or the behaviour is undefined. -/
def step (σ : World) : Op → Option World
  | .wrap esft =>
    (SharedPtr.fromRaw σ.fresh σ.fresh esft (newPayload σ.fresh esft σ.heap)).map fun r =>
      { heap := r.2, shared := σ.shared ++ [r.1], weak := σ.weak, fresh := σ.fresh + 1 }
  | .makeShared esft =>
    (MakeShared σ.fresh σ.fresh esft σ.heap).map fun r =>
      { heap := r.2, shared := σ.shared ++ [r.1], weak := σ.weak, fresh := σ.fresh + 1 }
  | .sharedCopy i =>
    match σ.shared[i]? with
    | none => none
    | some h =>
      (SharedPtr.copy h σ.heap).map fun r =>
        { heap := r.2, shared := σ.shared ++ [r.1], weak := σ.weak, fresh := σ.fresh }
  | .sharedAssign i j =>
    match σ.shared[i]?, σ.shared[j]? with
    | some hi, some hj =>
      if i = j then some σ
      else
        (SharedPtr.copyAssign hi (SharedRef.client hj) σ.heap).map fun r =>
          { heap := r.2, shared := σ.shared.set i r.1, weak := σ.weak, fresh := σ.fresh }
    | _, _ => none
  | .sharedDestroy i =>
    match σ.shared[i]? with
    | none => none
    | some h =>
      (h.destroy σ.heap).map fun hp =>
        { heap := hp, shared := σ.shared.eraseIdx i, weak := σ.weak, fresh := σ.fresh }
  | .weakFromShared i =>
    match σ.shared[i]? with
    | none => none
    | some h =>
      (WeakPtr.fromShared h σ.heap).map fun r =>
        { heap := r.2, shared := σ.shared, weak := σ.weak ++ [r.1], fresh := σ.fresh }
  | .weakCopy k =>
    match σ.weak[k]? with
    | none => none
    | some w =>
      (WeakPtr.copy w σ.heap).map fun r =>
        { heap := r.2, shared := σ.shared, weak := σ.weak ++ [r.1], fresh := σ.fresh }
  | .weakUseCount k =>
    match σ.weak[k]? with
    | none => none
    | some w => (w.UseCount σ.heap).map fun _ => σ
  | .weakExpired k =>
    match σ.weak[k]? with
    | none => none
    | some w => (w.Expired σ.heap).map fun _ => σ
  | .weakLock k =>
    match σ.weak[k]? with
    | none => none
    | some w =>
      match w.Lock σ.heap with
      | Res.ub => none
      | Res.badWeakPtr hp =>
        some { heap := hp, shared := σ.shared, weak := σ.weak, fresh := σ.fresh }
      | Res.ok h hp =>
        some { heap := hp, shared := σ.shared ++ [h], weak := σ.weak, fresh := σ.fresh }
  | .weakReset k =>
    match σ.weak[k]? with
    | none => none
    | some w =>
      (w.Reset σ.heap).map fun r =>
        { heap := r.2, shared := σ.shared, weak := σ.weak.set k r.1, fresh := σ.fresh }
  | .weakDestroy k =>
    match σ.weak[k]? with
    | none => none
    | some w =>
      (w.destroy σ.heap).map fun hp =>
        { heap := hp, shared := σ.shared, weak := σ.weak.eraseIdx k, fresh := σ.fresh }
  | .promote k =>
    match σ.weak[k]? with
    | none => none
    | some w =>
      match SharedPtr.fromWeak w σ.heap with
      | Res.ub => none
      | Res.badWeakPtr hp =>
        some { heap := hp, shared := σ.shared, weak := σ.weak, fresh := σ.fresh }
      | Res.ok h hp =>
        some { heap := hp, shared := σ.shared ++ [h], weak := σ.weak, fresh := σ.fresh }

/-- A program: operations run from left to right. -/
def run (σ : World) : List Op → Option World
  | [] => some σ
  | op :: ops =>
    match step σ op with
    | none => none
    | some σ1 => run σ1 ops

/-- Operations on `WeakPtr` handles that are observers, `Lock`, `Reset` or destruction. -/
def Op.onWeak : Op → Bool
  | .weakUseCount _ => true
  | .weakExpired _ => true
  | .weakLock _ => true
  | .weakReset _ => true
  | .weakDestroy _ => true
  | _ => false

/-- Number of `SharedPtr` handles in the list whose control block is `b`. -/
def cntS (l : List SharedPtr) (b : Nat) : Nat :=
  l.countP fun h => decide (h.block_ = some b)

/-- Number of `WeakPtr` handles in the list whose control block is `b`. -/
def cntW (l : List WeakPtr) (b : Nat) : Nat :=
  l.countP fun w => decide (w.block_ = some b)

/-- In the log, every deallocation of block `b` comes after a destruction of payload `b`. -/
def Ordered (b : Nat) (log : List Event) : Prop :=
  ∀ l1 l2, log = l1 ++ Event.deleteBlock b :: l2 → 0 < payloadEvents b l1

/-- A live block `cb` of group `b` agrees with the handle counts: `nS`, `nW` strong and
weak handles in the program, `nP`, `nD` logged payload destructions and block
deallocations, `wt?` the `weak_this_` member of the payload. -/
def GroupLive (b : Nat) (cb : ControlBlockBase) (wt? : Option WeakPtr)
    (nS nW nP nD : Nat) : Prop :=
  cb.strong_ = nS ∧ 0 < nS + nW ∧ nD = 0 ∧
  (cb.impl = BlockImpl.emplace b ∨ cb.impl = BlockImpl.pointer (if nS = 0 then 0 else b)) ∧
  nP = (if nS = 0 then 1 else 0) ∧
  ((wt? = none ∧ cb.weak_ = nW) ∨
    (wt? = some { ptr_ := b, block_ := some b } ∧ cb.weak_ = nW + 1 ∧ 0 < nS))

/-- State of the group numbered `b`: never allocated, live, or deallocated. -/
def BlockOK (b fresh : Nat) (cb? : Option ControlBlockBase) (wt? : Option WeakPtr)
    (nS nW nP nD : Nat) : Prop :=
  ((b = 0 ∨ fresh ≤ b) ∧ cb? = none ∧ wt? = none ∧ nS = 0 ∧ nW = 0 ∧ nP = 0 ∧ nD = 0) ∨
  (b ≠ 0 ∧ b < fresh ∧ ∃ cb, cb? = some cb ∧ GroupLive b cb wt? nS nW nP nD) ∨
  (b ≠ 0 ∧ b < fresh ∧ cb? = none ∧ wt? = none ∧ nS = 0 ∧ nW = 0 ∧ nP = 1 ∧ nD = 1)

/-- Invariant of the heap against the handle counts `nS`, `nW`. -/
def HeapInv (hp : Heap) (fresh : Nat) (nS nW : Nat → Nat) : Prop :=
  1 ≤ fresh ∧
  (∀ b, BlockOK b fresh (hp.blocks b) (hp.weak_this_ b) (nS b) (nW b)
    (payloadEvents b hp.log) (hp.log.count (Event.deleteBlock b))) ∧
  ∀ b, Ordered b hp.log

/-- Invariant of a world. -/
def Inv (σ : World) : Prop :=
  HeapInv σ.heap σ.fresh (cntS σ.shared) (cntW σ.weak) ∧
  (∀ h ∈ σ.shared, ∀ b, h.block_ = some b → h.ptr_ = b) ∧
  (∀ w ∈ σ.weak, ∀ b, w.block_ = some b → w.ptr_ = b)

/-- Count function with one more handle on `b0`. -/
def bump (n : Nat → Nat) (b0 : Nat) : Nat → Nat :=
  fun b => if b = b0 then n b + 1 else n b

/-- Count function with one handle fewer on `b0`. -/
def drop (n : Nat → Nat) (b0 : Nat) : Nat → Nat :=
  fun b => if b = b0 then n b - 1 else n b

/-- A heap whose group has lost its owners: block `1` with no strong and one weak
reference, payload already destroyed. -/
def expiredGroup : Heap :=
  { blocks := fun i => if i = 1 then some ⟨0, 1, .pointer 0⟩ else none,
    weak_this_ := fun _ => none, log := [Event.deletePayload 100] }

/-- A heap with two groups, one owner each. -/
def twoGroups : Heap :=
  { blocks := fun i =>
      if i = 1 then some ⟨1, 0, .pointer 100⟩
      else if i = 2 then some ⟨1, 0, .pointer 200⟩ else none,
    weak_this_ := fun _ => none, log := [] }

/-- A program with two groups, copies, an assignment, an observer and a destruction. -/
def demoOps : List Op :=
  [Op.wrap false, Op.sharedCopy 0, Op.makeShared false, Op.weakFromShared 0, Op.sharedAssign 2 0,
   Op.weakLock 0, Op.sharedDestroy 1]

/-- The world `demoOps` reaches. -/
def demoWorld : World := (run World.init demoOps).getD World.init

/-- A program that leaves one owner and two observers of one group. -/
def lastOwnerOps : List Op :=
  [Op.wrap false, Op.weakFromShared 0, Op.weakCopy 0]

/-- The world `lastOwnerOps` reaches. -/
def lastOwnerWorld : World := (run World.init lastOwnerOps).getD World.init

/-- A program that creates a group and destroys all its handles. -/
def endedOps : List Op :=
  [Op.makeShared false, Op.weakFromShared 0, Op.sharedCopy 0, Op.sharedDestroy 0,
   Op.sharedDestroy 0, Op.weakDestroy 0]

/-- The world `endedOps` reaches. -/
def endedWorld : World := (run World.init endedOps).getD World.init

/-! ## Notions and data for the later claims -/

/-- Source `SharedPtr::Reset(U* ptr)`, the template overload:
`if (ptr_ != ptr) { Reset(); if (ptr != nullptr) { auto nnew = new ControlBlockPointerImpl<U>(ptr);
 block_ = nnew; if (ptr_) { block_->Put(); } ptr_ = static_cast<U*>(ptr); } }`;
`a` is the address returned by `new`. -/
def SharedPtr.ResetPtrU (self : SharedPtr) (ptr : Ptr) (a : Nat) (hp : Heap) :
    Option (SharedPtr × Heap) :=
  if self.ptr_ ≠ ptr then
    match self.Reset hp with
    | none => none
    | some (self1, hp1) =>
      if ptr ≠ 0 then
        match hp1.blocks a with
        | some _ => none
        | none =>
          let hp2 := hp1.setBlock a (some { strong_ := 1, weak_ := 0, impl := .pointer ptr })
          if self1.ptr_ ≠ 0 then
            (Put a hp2).map fun hp3 => ({ ptr_ := ptr, block_ := some a }, hp3)
          else some ({ ptr_ := ptr, block_ := some a }, hp2)
      else some (self1, hp1)
  else some (self, hp)

/-- The spec's description of `reset(ptr)`, "equivalent to destroying and reconstructing
from the new pointer": the destructor of the handle, then the construction of a handle
from `ptr` with the new block at address `a`, which for a self-observing payload (`esft`)
stores the back-link as the spec words it. -/
def resetByReconstruction (self : SharedPtr) (ptr : Ptr) (a : Nat) (esft : Bool) (hp : Heap) :
    Option (SharedPtr × Heap) :=
  match self.destroy hp with
  | none => none
  | some hp1 =>
    match SharedPtr.fromRaw ptr a false hp1 with
    | none => none
    | some (h, hp2) =>
      if esft then (intendedLink h hp2).map fun hp3 => (h, hp3) else some (h, hp2)

/-- Events logged by `ZeroStrong` on a block of the given dynamic type whose payload holds
no link. -/
def BlockImpl.zeroStrongEvents : BlockImpl → List Event
  | .pointer p => if p = 0 then [] else [Event.deletePayload p]
  | .emplace q => [Event.destroyInPlace q]

/-- Data member of the block after `ZeroStrong`: `ControlBlockPointerImpl` has set its
`ptr_` to null, `ControlBlockEmplaceImpl` is unchanged. -/
def BlockImpl.afterZeroStrong : BlockImpl → BlockImpl
  | .pointer _ => .pointer 0
  | .emplace q => .emplace q

/-- The payload of the block holds no `weak_this_` link to a control block: it is not
self-observing, or its link is empty, or the block has no payload. -/
def Unlinked (hp : Heap) (cb : ControlBlockBase) : Prop :=
  cb.impl = .pointer 0 ∨ hp.weak_this_ cb.impl.payload = none ∨
    ∃ p, hp.weak_this_ cb.impl.payload = some { ptr_ := p, block_ := none }

/-- A heap with one owner and two observers of block `1`, payload `100`. -/
def twoObservers : Heap :=
  { blocks := fun i => if i = 1 then some ⟨1, 2, .pointer 100⟩ else none,
    weak_this_ := fun _ => none, log := [] }

end SFT

/-! # Exclusive ownership (`smart-ptrs/unique/unique.h`)

A deleter is a value of a type `D`.  What the program can observe of a deleter
type is given by a `DeleterOps D`; every call of a deleter is appended to a log
of `Call`s, oldest first.  A handle is the pair `object_` of
`CompressedPair<T*, Deleter>`: the pointer `GetFirst()` and the deleter
`GetSecond()`.
-/

namespace Unique

/-- Payload address, the C++ `T*`; `0` is `nullptr`. -/
abbrev Ptr := Nat

/-- Behaviour of a deleter type. -/
structure DeleterOps (D : Type) where
  /-- The value `Deleter()`. -/
  init : D
  /-- State of the deleter object after `operator()(ptr)` ran on it. -/
  invoke : D → Ptr → D
  /-- State left behind in a deleter object that has been moved from. -/
  residue : D → D

/-- One call `GetSecond()(arg)`: the deleter object it ran on and the argument. -/
structure Call (D : Type) where
  deleter : D
  arg : Ptr
  deriving DecidableEq, Repr

/-- Class `UniquePtr<T, Deleter>` and `UniquePtr<T[], Deleter>`: the member `object_`. -/
structure UniquePtr (D : Type) where
  /-- Member `object_.GetFirst()`. -/
  first : Ptr
  /-- Member `object_.GetSecond()`. -/
  second : D
  deriving DecidableEq, Repr

/-- Source `UniquePtr::UniquePtr(T* ptr = nullptr)`: `object_(ptr, Deleter())`. -/
def UniquePtr.mk0 {D : Type} (M : DeleterOps D) (ptr : Ptr) : UniquePtr D :=
  { first := ptr, second := M.init }

/-- Source `UniquePtr::Get` (both templates). -/
def UniquePtr.Get {D : Type} (self : UniquePtr D) : Ptr := self.first

/-- Source `UniquePtr::GetDeleter` (both templates). -/
def UniquePtr.GetDeleter {D : Type} (self : UniquePtr D) : D := self.second

/-- Source `UniquePtr::Release` (both templates):
`auto tmp = object_.GetFirst(); object_.GetFirst() = nullptr; return tmp;`.
Returns the value, the handle afterwards and the log, which is not touched. -/
def UniquePtr.Release {D : Type} (self : UniquePtr D) (log : List (Call D)) :
    Ptr × UniquePtr D × List (Call D) :=
  let tmp := self.first
  (tmp, { self with first := 0 }, log)

/-- Source `UniquePtr<T, Deleter>::Reset(T* ptr = nullptr)`:
`if (ptr != object_.GetFirst()) { auto old_ptr = object_.GetFirst();
 object_.GetFirst() = ptr; object_.GetSecond()(old_ptr); }`. -/
def UniquePtr.Reset {D : Type} (M : DeleterOps D) (self : UniquePtr D) (ptr : Ptr)
    (log : List (Call D)) : UniquePtr D × List (Call D) :=
  if ptr ≠ self.first then
    let old_ptr := self.first
    ({ first := ptr, second := M.invoke self.second old_ptr },
      log ++ [{ deleter := self.second, arg := old_ptr }])
  else (self, log)

/-- Source `UniquePtr<T[], Deleter>::Reset(T* ptr = nullptr)`:
`if (object_.GetFirst() != ptr) { T* old_ptr = object_.GetFirst();
 object_.GetFirst() = ptr; object_.GetFirst() = ptr; object_.GetSecond()(old_ptr); }`. -/
def UniquePtr.ResetArr {D : Type} (M : DeleterOps D) (self : UniquePtr D) (ptr : Ptr)
    (log : List (Call D)) : UniquePtr D × List (Call D) :=
  if self.first ≠ ptr then
    let old_ptr := self.first
    ({ first := ptr, second := M.invoke self.second old_ptr },
      log ++ [{ deleter := self.second, arg := old_ptr }])
  else (self, log)

/-- Source `UniquePtr<T, Deleter>::~UniquePtr`: `Reset();`. -/
def UniquePtr.destroy {D : Type} (M : DeleterOps D) (self : UniquePtr D)
    (log : List (Call D)) : List (Call D) :=
  (self.Reset M 0 log).2

/-- Source `UniquePtr<T[], Deleter>::~UniquePtr`: `Reset();`. -/
def UniquePtr.destroyArr {D : Type} (M : DeleterOps D) (self : UniquePtr D)
    (log : List (Call D)) : List (Call D) :=
  (self.ResetArr M 0 log).2

/-- Source `UniquePtr<T, Deleter>::UniquePtr(UniquePtr&& other)`:
`object_ = CompressedPair<T*, Deleter>(other.Release(), std::forward<Deleter>(other.GetDeleter()));`.
Returns the new handle, the source afterwards and the log. -/
def UniquePtr.moveCtor {D : Type} (M : DeleterOps D) (other : UniquePtr D)
    (log : List (Call D)) : UniquePtr D × UniquePtr D × List (Call D) :=
  let (p, other1, log1) := other.Release log
  ({ first := p, second := other1.second },
    { other1 with second := M.residue other1.second }, log1)

/-- Source `UniquePtr<T[], Deleter>::UniquePtr(UniquePtr&& other)`:
`object_({std::move(other.object_.GetFirst()), std::move(other.object_.GetSecond())})`
followed by `other.Reset();`.  Moving from the raw pointer member leaves it unchanged. -/
def UniquePtr.moveCtorArr {D : Type} (M : DeleterOps D) (other : UniquePtr D)
    (log : List (Call D)) : UniquePtr D × UniquePtr D × List (Call D) :=
  let self : UniquePtr D := { first := other.first, second := other.second }
  let other1 : UniquePtr D := { other with second := M.residue other.second }
  let (other2, log1) := other1.ResetArr M 0 log
  (self, other2, log1)

/-- Source `UniquePtr<T, Deleter>::operator=(UniquePtr&& other)`:
`if (other.Get() != this->object_.GetFirst()) { Reset(other.Release());
 object_.GetSecond() = std::forward<Deleter>(other.GetDeleter()); }`.
Returns the destination, the source and the log.  When `other` is `*this` the
test fails and nothing runs, so `self` is passed for both. -/
def UniquePtr.moveAssign {D : Type} (M : DeleterOps D) (self other : UniquePtr D)
    (log : List (Call D)) : UniquePtr D × UniquePtr D × List (Call D) :=
  if other.Get ≠ self.first then
    let (p, other1, log1) := other.Release log
    let (self1, log2) := self.Reset M p log1
    ({ self1 with second := other1.second },
      { other1 with second := M.residue other1.second }, log2)
  else (self, other, log)

/-- Source `UniquePtr<T[], Deleter>::operator=(UniquePtr&& other)` for `this != &other`:
`Reset(other.Release()); object_.GetSecond() = std::move(other.object_.GetSecond());`. -/
def UniquePtr.moveAssignArr {D : Type} (M : DeleterOps D) (self other : UniquePtr D)
    (log : List (Call D)) : UniquePtr D × UniquePtr D × List (Call D) :=
  let (p, other1, log1) := other.Release log
  let (self1, log2) := self.ResetArr M p log1
  ({ self1 with second := other1.second },
    { other1 with second := M.residue other1.second }, log2)

/-- Source `UniquePtr::Swap` (both templates). -/
def UniquePtr.Swap {D : Type} (self other : UniquePtr D) : UniquePtr D × UniquePtr D :=
  (other, self)

/-- Number of calls in the log whose argument is `p`. -/
def callsOn {D : Type} (p : Ptr) (log : List (Call D)) : Nat :=
  log.countP fun c => decide (c.arg = p)

/-- A deleter with a numeric state that counts its own calls; moving leaves the state. -/
def countingDeleter : DeleterOps Nat :=
  { init := 0, invoke := fun d _ => d + 1, residue := fun d => d }

end Unique

/-! # Intrusive counting (`smart-ptrs/intrusive/intrusive.h`)

A managed object is an address with its embedded `SimpleCounter`.  The `Store`
holds the live objects and the list of `Deleter::Destroy` calls made so far,
oldest first.  `size_t` has 64 bits.  Touching an object that is not live is
undefined behaviour: `none`.
-/

namespace Intrusive

/-- Object address, the C++ `T*`; `0` is `nullptr`. -/
abbrev Ptr := Nat

/-- Class `SimpleCounter`: `size_t count_ = 0;`. -/
structure SimpleCounter where
  count_ : Nat
  deriving DecidableEq, Repr

/-- Source `SimpleCounter::IncRef`: `++count_; return count_;` on a 64-bit `size_t`.
Returns the value and the counter afterwards. -/
def SimpleCounter.IncRef (c : SimpleCounter) : Nat × SimpleCounter :=
  let c1 : SimpleCounter := { count_ := (c.count_ + 1) % 2 ^ 64 }
  (c1.count_, c1)

/-- Source `SimpleCounter::DecRef`: `if (count_ == 0) return count_; --count_; return count_;`. -/
def SimpleCounter.DecRef (c : SimpleCounter) : Nat × SimpleCounter :=
  if c.count_ = 0 then (c.count_, c)
  else
    let c1 : SimpleCounter := { count_ := c.count_ - 1 }
    (c1.count_, c1)

/-- Source `SimpleCounter::RefCount`: `return count_;`. -/
def SimpleCounter.RefCount (c : SimpleCounter) : Nat := c.count_

/-- Live objects and the destructions so far. -/
structure Store where
  /-- Member `counter_` of the live object at an address. -/
  objs : Ptr → Option SimpleCounter
  /-- Arguments of the calls `Deleter::Destroy(object)`, oldest first. -/
  destroyed : List Ptr

/-- Store the counter of the object at `o`. -/
def Store.setObj (st : Store) (o : Ptr) (c : Option SimpleCounter) : Store :=
  { st with objs := fun i => if i = o then c else st.objs i }

/-- Source `DefaultDelete::Destroy`: `delete object;`, logged as a call of `Destroy`. -/
def Destroy (o : Ptr) (st : Store) : Store :=
  { objs := fun i => if i = o then none else st.objs i, destroyed := st.destroyed ++ [o] }

/-- Source `RefCounted::IncRef`: `counter_.IncRef();`. -/
def RefCounted.IncRef (o : Ptr) (st : Store) : Option Store :=
  match st.objs o with
  | none => none
  | some c => some (st.setObj o (some c.IncRef.2))

/-- Source `RefCounted::DecRef`:
`if (counter_.DecRef() == 0) { Deleter::Destroy(static_cast<Derived*>(this)); }`. -/
def RefCounted.DecRef (o : Ptr) (st : Store) : Option Store :=
  match st.objs o with
  | none => none
  | some c =>
    let r := c.DecRef
    let st1 := st.setObj o (some r.2)
    if r.1 = 0 then some (Destroy o st1) else some st1

/-- Source `RefCounted::RefCount`: `counter_.RefCount()`. -/
def RefCounted.RefCount (o : Ptr) (st : Store) : Option Nat :=
  (st.objs o).map fun c => c.RefCount

/-- Class `IntrusivePtr<T>`: `T* ptr_;`. -/
structure IntrusivePtr where
  ptr_ : Ptr
  deriving DecidableEq, Repr

/-- Source `IntrusivePtr::IntrusivePtr()` and `IntrusivePtr(std::nullptr_t)`. -/
def IntrusivePtr.default : IntrusivePtr := { ptr_ := 0 }

/-- Source `IntrusivePtr::IntrusivePtr(T* ptr)`: `ptr_(ptr)`, `if (ptr_) ptr_->IncRef();`. -/
def IntrusivePtr.fromRaw (ptr : Ptr) (st : Store) : Option (IntrusivePtr × Store) :=
  if ptr ≠ 0 then (RefCounted.IncRef ptr st).map fun st1 => ({ ptr_ := ptr }, st1)
  else some ({ ptr_ := ptr }, st)

/-- Source `IntrusivePtr::IntrusivePtr(const IntrusivePtr& other)` and the converting
copy constructor: `ptr_(other.ptr_)`, `if (ptr_) ptr_->IncRef();`. -/
def IntrusivePtr.copy (other : IntrusivePtr) (st : Store) : Option (IntrusivePtr × Store) :=
  if other.ptr_ ≠ 0 then
    (RefCounted.IncRef other.ptr_ st).map fun st1 => ({ ptr_ := other.ptr_ }, st1)
  else some ({ ptr_ := other.ptr_ }, st)

/-- Source `IntrusivePtr::IntrusivePtr(IntrusivePtr&& other)`: the new handle and the
source afterwards. -/
def IntrusivePtr.move (other : IntrusivePtr) : IntrusivePtr × IntrusivePtr :=
  ({ ptr_ := other.ptr_ }, { ptr_ := 0 })

/-- Source `IntrusivePtr::~IntrusivePtr`: `if (ptr_) ptr_->DecRef();`. -/
def IntrusivePtr.destroy (self : IntrusivePtr) (st : Store) : Option Store :=
  if self.ptr_ ≠ 0 then RefCounted.DecRef self.ptr_ st else some st

/-- Source `IntrusivePtr::Reset()`: `if (ptr_) { ptr_->DecRef(); ptr_ = nullptr; }`. -/
def IntrusivePtr.Reset (self : IntrusivePtr) (st : Store) : Option (IntrusivePtr × Store) :=
  if self.ptr_ ≠ 0 then
    (RefCounted.DecRef self.ptr_ st).map fun st1 => ({ ptr_ := 0 }, st1)
  else some (self, st)

/-- Source `IntrusivePtr::Reset(T* ptr)`: `if (ptr_ != ptr) { Reset(); ptr_ = ptr; }`. -/
def IntrusivePtr.ResetPtr (self : IntrusivePtr) (ptr : Ptr) (st : Store) :
    Option (IntrusivePtr × Store) :=
  if self.ptr_ ≠ ptr then (self.Reset st).map fun r => ({ ptr_ := ptr }, r.2)
  else some (self, st)

/-- Source `IntrusivePtr::Release`: `T* result = ptr_; ptr_ = nullptr; return result;`. -/
def IntrusivePtr.Release (self : IntrusivePtr) : Ptr × IntrusivePtr :=
  (self.ptr_, { ptr_ := 0 })

/-- Source `IntrusivePtr::Swap`. -/
def IntrusivePtr.Swap (self other : IntrusivePtr) : IntrusivePtr × IntrusivePtr :=
  (other, self)

/-- Source `IntrusivePtr::Get`. -/
def IntrusivePtr.Get (self : IntrusivePtr) : Ptr := self.ptr_

/-- Source `IntrusivePtr::UseCount`: `ptr_ ? ptr_->RefCount() : 0`. -/
def IntrusivePtr.UseCount (self : IntrusivePtr) (st : Store) : Option Nat :=
  if self.ptr_ ≠ 0 then RefCounted.RefCount self.ptr_ st else some 0

/-- Source `IntrusivePtr::operator=(const IntrusivePtr& other)`:
`if (ptr_ != other.ptr_) { IntrusivePtr{other}.Swap(*this); }`; the temporary, which
holds the old pointer after the swap, is destroyed. -/
def IntrusivePtr.copyAssign (self other : IntrusivePtr) (st : Store) :
    Option (IntrusivePtr × Store) :=
  if self.ptr_ ≠ other.ptr_ then
    match other.copy st with
    | none => none
    | some (tmp, st1) =>
      let (tmp1, self1) := tmp.Swap self
      (tmp1.destroy st1).map fun st2 => (self1, st2)
  else some (self, st)

/-- Source `IntrusivePtr::operator=(IntrusivePtr&& other)`:
`if (ptr_ != other.ptr_) { Reset(other.Release()); }`.  Returns the destination, the
source and the store. -/
def IntrusivePtr.moveAssign (self other : IntrusivePtr) (st : Store) :
    Option (IntrusivePtr × IntrusivePtr × Store) :=
  if self.ptr_ ≠ other.ptr_ then
    let (p, other1) := other.Release
    (self.ResetPtr p st).map fun r => (r.1, other1, r.2)
  else some (self, other, st)

/-- Source `MakeIntrusive`: `auto a = new T(args...); return IntrusivePtr<T>(a);` where the
new object lies at address `a` and starts with counter `0`. -/
def MakeIntrusive (a : Ptr) (st : Store) : Option (IntrusivePtr × Store) :=
  IntrusivePtr.fromRaw a (st.setObj a (some { count_ := 0 }))

/-- Repeat the copy constructor `k` times on the handle `h`. -/
def copies (h : IntrusivePtr) : Nat → Store → Option Store
  | 0, st => some st
  | k + 1, st =>
    match h.copy st with
    | none => none
    | some (_, st1) => copies h k st1

/-- Destroy `j` handles that all equal `h`. -/
def destroys (h : IntrusivePtr) : Nat → Store → Option Store
  | 0, st => some st
  | j + 1, st =>
    match h.destroy st with
    | none => none
    | some st1 => destroys h j st1

/-- A store with one object at address `100` whose counter is `c`. -/
def oneObject (c : Nat) : Store :=
  { objs := fun i => if i = 100 then some { count_ := c } else none, destroyed := [] }

/-- Number of the handles in `hs` that point at `o`. -/
def handlesOn (hs : List IntrusivePtr) (o : Ptr) : Nat :=
  hs.countP fun h => decide (h.ptr_ = o)

/-- The handle-count invariant for the live handles `hs`: every non-null handle points at
a live object, and the embedded counter of each live object equals the number of handles
pointing at it. -/
def Counted (st : Store) (hs : List IntrusivePtr) : Prop :=
  (∀ h, h ∈ hs → h.ptr_ ≠ 0 → st.objs h.ptr_ ≠ none) ∧
  (∀ o c, st.objs o = some c → c.count_ = handlesOn hs o)

/-- A store with objects at `100` and `200` whose counters are `c` and `d`. -/
def twoObjects (c d : Nat) : Store :=
  { objs := fun i =>
      if i = 100 then some { count_ := c } else if i = 200 then some { count_ := d } else none,
    destroyed := [] }

end Intrusive

/-! # Shared ownership, first variant (`smart-ptrs/shared/shared.h`, `smart-ptrs/shared/sw_fwd.h`)

The heap, the control blocks, the events and the outcomes are those of `SFT`;
the component `weak_this_` of the heap is not used, because no constructor of
this variant stores a link in the payload.  Here `delete` of a control block
runs the destructor of the derived class, which destroys the payload again.
`WeakPtr::Lock` and the promoting constructor of `SharedPtr` call each other, so
both take a bound on the depth of calls: `none` means that the bound was
reached before the call returned.
-/

namespace Shared

open SFT (Ptr Event BlockImpl ControlBlockBase Heap Res toSizeT)

/-- Class `SharedPtr<T>` of shared/shared.h: `T* ptr_; ControlBlockBase* block_;`. -/
structure SharedPtr where
  ptr_ : Ptr
  block_ : Option Nat
  deriving DecidableEq, Repr

/-- Class `WeakPtr<T>` of shared/sw_fwd.h: `T* ptr_; ControlBlockBase* block_;`. -/
structure WeakPtr where
  ptr_ : Ptr
  block_ : Option Nat
  deriving DecidableEq, Repr

/-- Source `ControlBlockBase::IncrementStrong`: `++strong_`. -/
def IncrementStrong (b : Nat) (hp : Heap) : Option Heap :=
  match hp.blocks b with
  | none => none
  | some cb => some (hp.setBlock b (some { cb with strong_ := cb.strong_ + 1 }))

/-- Source `ControlBlockBase::IncrementWeak`: `++weak_`. -/
def IncrementWeak (b : Nat) (hp : Heap) : Option Heap :=
  match hp.blocks b with
  | none => none
  | some cb => some (hp.setBlock b (some { cb with weak_ := cb.weak_ + 1 }))

/-- Source `ControlBlockBase::GetStrong`. -/
def GetStrong (b : Nat) (hp : Heap) : Option Int :=
  (hp.blocks b).map fun cb => cb.strong_

/-- Source `ControlBlockBase::GetWeak`. -/
def GetWeak (b : Nat) (hp : Heap) : Option Int :=
  (hp.blocks b).map fun cb => cb.weak_

/-- Source `ControlBlockBase::ExistsStrong`: `strong_ > 0`. -/
def ExistsStrong (b : Nat) (hp : Heap) : Option Bool :=
  (hp.blocks b).map fun cb => decide (cb.strong_ > 0)

/-- Source `ControlBlockBase::ExistsWeak`: `weak_ > 0`. -/
def ExistsWeak (b : Nat) (hp : Heap) : Option Bool :=
  (hp.blocks b).map fun cb => decide (cb.weak_ > 0)

/-- Source `ControlBlockBase::Put`: `strong_ = 1`. -/
def Put (b : Nat) (hp : Heap) : Option Heap :=
  match hp.blocks b with
  | none => none
  | some cb => some (hp.setBlock b (some { cb with strong_ := 1 }))

/-- The expression `delete` applied to the control block at `b`: the destructor of the
derived class runs, `~ControlBlockPointerImpl` with `if (ptr_) delete ptr_;` or
`~ControlBlockEmplaceImpl` with `GetRawPtr()->~T();`, then the block is deallocated. -/
def deleteBlock (b : Nat) (hp : Heap) : Option Heap :=
  match hp.blocks b with
  | none => none
  | some cb =>
    let hp1 :=
      match cb.impl with
      | .pointer p => if p ≠ 0 then hp.emit (Event.deletePayload p) else hp
      | .emplace q => hp.emit (Event.destroyInPlace q)
    some ((hp1.setBlock b none).emit (Event.deleteBlock b))

/-- Source `ZeroStrong`.  `ControlBlockPointerImpl`: `auto tmp = ptr_; ptr_ = nullptr; delete tmp;`.
`ControlBlockEmplaceImpl`: `GetRawPtr()->~T();`. -/
def ZeroStrong (b : Nat) (hp : Heap) : Option Heap :=
  match hp.blocks b with
  | none => none
  | some cb =>
    match cb.impl with
    | .pointer tmp =>
      let hp1 := hp.setBlock b (some { cb with impl := .pointer 0 })
      if tmp = 0 then some hp1 else some (hp1.emit (Event.deletePayload tmp))
    | .emplace q => some (hp.emit (Event.destroyInPlace q))

/-- Source `ZeroWeak` of both derived classes: `delete this;`. -/
def ZeroWeak (b : Nat) (hp : Heap) : Option Heap := deleteBlock b hp

/-- Source `ControlBlockBase::DecrementStrong`: `--strong_; if (strong_ == 0) delete this;`. -/
def DecrementStrong (b : Nat) (hp : Heap) : Option Heap :=
  match hp.blocks b with
  | none => none
  | some cb =>
    let cb1 : ControlBlockBase := { cb with strong_ := cb.strong_ - 1 }
    let hp1 := hp.setBlock b (some cb1)
    if cb1.strong_ = 0 then deleteBlock b hp1 else some hp1

/-- Source `ControlBlockBase::DecrementWeak`: `--weak_; if (weak_ == 0) delete this;`. -/
def DecrementWeak (b : Nat) (hp : Heap) : Option Heap :=
  match hp.blocks b with
  | none => none
  | some cb =>
    let cb1 : ControlBlockBase := { cb with weak_ := cb.weak_ - 1 }
    let hp1 := hp.setBlock b (some cb1)
    if cb1.weak_ = 0 then deleteBlock b hp1 else some hp1

/-- Source `SharedPtr::SharedPtr()` and `SharedPtr(std::nullptr_t)`. -/
def SharedPtr.default : SharedPtr := { ptr_ := 0, block_ := none }

/-- Source `SharedPtr::Get`. -/
def SharedPtr.Get (self : SharedPtr) : Ptr := self.ptr_

/-- Source `SharedPtr::UseCount`: `block_ ? block_->GetStrong() : 0`, as a `size_t`. -/
def SharedPtr.UseCount (self : SharedPtr) (hp : Heap) : Option Nat :=
  match self.block_ with
  | some b => (GetStrong b hp).map toSizeT
  | none => some 0

/-- Source `SharedPtr::SharedPtr(T* ptr)`: `a` is the address returned by
`new ControlBlockPointerImpl<T>(ptr)`. -/
def SharedPtr.fromRaw (ptr : Ptr) (a : Nat) (hp : Heap) : Option (SharedPtr × Heap) :=
  match hp.blocks a with
  | some _ => none
  | none =>
    some ({ ptr_ := ptr, block_ := some a },
      hp.setBlock a (some { strong_ := 1, weak_ := 0, impl := .pointer ptr }))

/-- Source `MakeShared<T>`: `new ControlBlockEmplaceImpl<T>(args...)` at address `a`,
whose `holder_` lies at the non-null address `q`, then
`SharedPtr<T>(block->GetRawPtr(), block)`. -/
def MakeShared (q : Ptr) (a : Nat) (hp : Heap) : Option (SharedPtr × Heap) :=
  match hp.blocks a with
  | some _ => none
  | none =>
    if q = 0 then none
    else
      some ({ ptr_ := q, block_ := some a },
        hp.setBlock a (some { strong_ := 1, weak_ := 0, impl := .emplace q }))

/-- Source `SharedPtr::SharedPtr(const SharedPtr&)`. -/
def SharedPtr.copy (other : SharedPtr) (hp : Heap) : Option (SharedPtr × Heap) :=
  match other.block_ with
  | some b => (IncrementStrong b hp).map fun hp1 => ({ ptr_ := other.ptr_, block_ := some b }, hp1)
  | none => some ({ ptr_ := other.ptr_, block_ := none }, hp)

/-- Source `SharedPtr::Reset()` of shared/shared.h:
`if (block_) { if (block_->GetStrong() == 1) { block_->ZeroStrong(); ptr_ = nullptr;
 if (!block_->ExistsWeak()) { block_->ZeroWeak(); block_ = nullptr; return; } }
 block_->DecrementStrong(); }`. -/
def SharedPtr.Reset (self : SharedPtr) (hp : Heap) : Option (SharedPtr × Heap) :=
  match self.block_ with
  | none => some (self, hp)
  | some b =>
    match GetStrong b hp with
    | none => none
    | some s =>
      if s = 1 then
        match ZeroStrong b hp with
        | none => none
        | some hp1 =>
          let self1 : SharedPtr := { self with ptr_ := 0 }
          match ExistsWeak b hp1 with
          | none => none
          | some false => (ZeroWeak b hp1).map fun hp2 => ({ self1 with block_ := none }, hp2)
          | some true => (DecrementStrong b hp1).map fun hp2 => (self1, hp2)
      else (DecrementStrong b hp).map fun hp1 => (self, hp1)

/-- Source `SharedPtr::~SharedPtr`: `Reset();`. -/
def SharedPtr.destroy (self : SharedPtr) (hp : Heap) : Option Heap :=
  (self.Reset hp).map fun r => r.2

/-- Source `SharedPtr::operator=(SharedPtr&&)` for `this != &other`:
`this->Reset(); ptr_ = other.ptr_; block_ = other.block_; other.ptr_ = nullptr;
 other.block_ = nullptr;`.  Returns the destination, the source and the heap. -/
def SharedPtr.moveAssign (self other : SharedPtr) (hp : Heap) :
    Option (SharedPtr × SharedPtr × Heap) :=
  match self.Reset hp with
  | none => none
  | some (_, hp1) =>
    some ({ ptr_ := other.ptr_, block_ := other.block_ }, { ptr_ := 0, block_ := none }, hp1)

/-- Source `WeakPtr::WeakPtr(const SharedPtr<T>&)`. -/
def WeakPtr.fromShared (other : SharedPtr) (hp : Heap) : Option (WeakPtr × Heap) :=
  match other.block_ with
  | some b => (IncrementWeak b hp).map fun hp1 => ({ ptr_ := other.ptr_, block_ := some b }, hp1)
  | none => some ({ ptr_ := other.ptr_, block_ := none }, hp)

/-- Source `WeakPtr::WeakPtr(const WeakPtr&)`. -/
def WeakPtr.copy (other : WeakPtr) (hp : Heap) : Option (WeakPtr × Heap) :=
  match other.block_ with
  | some b => (IncrementWeak b hp).map fun hp1 => ({ ptr_ := other.ptr_, block_ := some b }, hp1)
  | none => some ({ ptr_ := other.ptr_, block_ := none }, hp)

/-- Source `WeakPtr::Reset` of shared/sw_fwd.h:
`if (block_) { block_->DecrementWeak();
 if (!block_->GetWeak() && !block_->GetStrong()) { delete block_; } }
 ptr_ = nullptr; block_ = nullptr;`. -/
def WeakPtr.Reset (self : WeakPtr) (hp : Heap) : Option (WeakPtr × Heap) :=
  match self.block_ with
  | none => some ({ ptr_ := 0, block_ := none }, hp)
  | some b =>
    match DecrementWeak b hp with
    | none => none
    | some hp1 =>
      match GetWeak b hp1, GetStrong b hp1 with
      | some w, some s =>
        if w = 0 ∧ s = 0 then (deleteBlock b hp1).map fun hp2 => ({ ptr_ := 0, block_ := none }, hp2)
        else some ({ ptr_ := 0, block_ := none }, hp1)
      | _, _ => none

/-- Source `WeakPtr::~WeakPtr`: `Reset();`. -/
def WeakPtr.destroy (self : WeakPtr) (hp : Heap) : Option Heap :=
  (self.Reset hp).map fun r => r.2

/-- Source `WeakPtr::UseCount`: `block_ ? block_->GetStrong() : 0`, as a `size_t`. -/
def WeakPtr.UseCount (self : WeakPtr) (hp : Heap) : Option Nat :=
  match self.block_ with
  | some b => (GetStrong b hp).map toSizeT
  | none => some 0

/-- Source `WeakPtr::Expired`: `!UseCount()`. -/
def WeakPtr.Expired (self : WeakPtr) (hp : Heap) : Option Bool :=
  (self.UseCount hp).map fun n => decide (n = 0)

/-- Source `SharedPtr::SharedPtr(const WeakPtr<T>& other)` of shared/shared.h, with the
call `other.Lock()` passed as `lock`:
`ptr_(other.ptr_), block_(other.block_)`,
`if (block_ && !block_->ExistsStrong()) throw BadWeakPtr();`,
`*this = std::move(other.Lock());`, after which the temporary is destroyed. -/
def SharedPtr.fromWeakWith (lock : WeakPtr → Heap → Option (Res SharedPtr)) (other : WeakPtr)
    (hp : Heap) : Option (Res SharedPtr) :=
  let self : SharedPtr := { ptr_ := other.ptr_, block_ := other.block_ }
  let throws : Option Bool :=
    match self.block_ with
    | some b => (ExistsStrong b hp).map fun e => !e
    | none => some false
  match throws with
  | none => some Res.ub
  | some true => some (Res.badWeakPtr hp)
  | some false =>
    match lock other hp with
    | none => none
    | some Res.ub => some Res.ub
    | some (Res.badWeakPtr hp1) => some (Res.badWeakPtr hp1)
    | some (Res.ok tmp hp1) =>
      match self.moveAssign tmp hp1 with
      | none => some Res.ub
      | some (self1, tmp1, hp2) =>
        match tmp1.destroy hp2 with
        | none => some Res.ub
        | some hp3 => some (Res.ok self1 hp3)

/-- Source `WeakPtr::Lock` of shared/sw_fwd.h:
`return Expired() ? SharedPtr<T>() : SharedPtr<T>(*this);` with at most `depth` nested
calls of `Lock`. -/
def WeakPtr.Lock : Nat → WeakPtr → Heap → Option (Res SharedPtr)
  | 0, _, _ => none
  | depth + 1, self, hp =>
    match self.Expired hp with
    | none => some Res.ub
    | some true => some (Res.ok SharedPtr.default hp)
    | some false => SharedPtr.fromWeakWith (WeakPtr.Lock depth) self hp

/-- Source `SharedPtr::SharedPtr(const WeakPtr<T>& other)` with at most `depth` nested
calls of `Lock`. -/
def SharedPtr.fromWeak (depth : Nat) (other : WeakPtr) (hp : Heap) : Option (Res SharedPtr) :=
  SharedPtr.fromWeakWith (WeakPtr.Lock depth) other hp

/-- The heap right after `MakeShared<T>()`: block `1` with payload at `100`. -/
def afterMakeShared : Heap :=
  { blocks := fun i => if i = 1 then some ⟨1, 0, .emplace 100⟩ else none,
    weak_this_ := fun _ => none, log := [] }

/-- A heap with one owner and one observer of block `1`, payload at `100`. -/
def observedGroup : Heap :=
  { blocks := fun i => if i = 1 then some ⟨1, 1, .pointer 100⟩ else none,
    weak_this_ := fun _ => none, log := [] }

end Shared

namespace SFT

/-! # Theorems -/

@[simp] theorem setBlock_weak_this (hp : Heap) (b : Nat) (x : Option ControlBlockBase) :
    (hp.setBlock b x).weak_this_ = hp.weak_this_ := rfl

@[simp] theorem setBlock_log (hp : Heap) (b : Nat) (x : Option ControlBlockBase) :
    (hp.setBlock b x).log = hp.log := rfl

@[simp] theorem emit_blocks (hp : Heap) (e : Event) : (hp.emit e).blocks = hp.blocks := rfl

@[simp] theorem emit_weak_this (hp : Heap) (e : Event) :
    (hp.emit e).weak_this_ = hp.weak_this_ := rfl

@[simp] theorem emit_log (hp : Heap) (e : Event) : (hp.emit e).log = hp.log ++ [e] := rfl

@[simp] theorem setWeakThis_blocks (hp : Heap) (p : Ptr) (w : Option WeakPtr) :
    (hp.setWeakThis p w).blocks = hp.blocks := rfl

@[simp] theorem setWeakThis_log (hp : Heap) (p : Ptr) (w : Option WeakPtr) :
    (hp.setWeakThis p w).log = hp.log := rfl

@[simp] theorem setWeakThis_self (hp : Heap) (p : Ptr) (w : Option WeakPtr) :
    (hp.setWeakThis p w).weak_this_ p = w := by
  simp [Heap.setWeakThis]

theorem setWeakThis_ne (hp : Heap) (p p' : Ptr) (w : Option WeakPtr) (h : p' ≠ p) :
    (hp.setWeakThis p w).weak_this_ p' = hp.weak_this_ p' := by
  simp [Heap.setWeakThis, h]

theorem toSizeT_eq_zero_iff (i : Int) (h : 0 ≤ i) : toSizeT i = 0 ↔ i = 0 := by
  unfold toSizeT
  rw [if_pos h]
  omega

/-- On the range of a 32-bit `int`, `toSizeT` is reduction modulo `2^64`. -/
theorem toSizeT_eq_emod (i : Int) (hlo : -2 ^ 31 ≤ i) (hhi : i < 2 ^ 31) :
    toSizeT i = (i % 2 ^ 64).toNat := by
  unfold toSizeT
  by_cases h : 0 ≤ i
  · rw [if_pos h, Int.emod_eq_of_lt h (by omega)]
  · rw [if_neg h]
    have h1 : i % 2 ^ 64 = i + 2 ^ 64 := by
      rw [← Int.add_mul_emod_self_left i (2 ^ 64) 1, mul_one]
      exact Int.emod_eq_of_lt (by omega) (by omega)
    rw [h1]

theorem toSizeT_of_nonneg (i : Int) (h : 0 ≤ i) : (toSizeT i : Int) = i := by
  unfold toSizeT
  rw [if_pos h]
  omega

theorem setBlock_setBlock (hp : Heap) (b : Nat) (x y : Option ControlBlockBase) :
    (hp.setBlock b x).setBlock b y = hp.setBlock b y := by
  unfold Heap.setBlock
  congr 1
  funext i
  by_cases h : i = b <;> simp [h]

@[simp] theorem setBlock_blocks_self (hp : Heap) (b : Nat) (x : Option ControlBlockBase) :
    (hp.setBlock b x).blocks b = x := by
  simp [Heap.setBlock]

theorem setBlock_blocks_ne (hp : Heap) (b b' : Nat) (x : Option ControlBlockBase)
    (h : b' ≠ b) : (hp.setBlock b x).blocks b' = hp.blocks b' := by
  simp [Heap.setBlock, h]

theorem exists_of_match {α : Type} {o : Option α} {P : α → Prop}
    (h : match o with | some x => P x | none => False) : ∃ x, o = some x ∧ P x := by
  cases o with
  | none => exact h.elim
  | some x => exact ⟨x, rfl, h⟩

theorem DecrementStrong_many (b : Nat) (hp : Heap) (cb : ControlBlockBase)
    (hcb : hp.blocks b = some cb) (hs : cb.strong_ ≠ 1) :
    DecrementStrong b hp = some (hp.setBlock b (some { cb with strong_ := cb.strong_ - 1 })) := by
  have h0 : ¬ (cb.strong_ - 1 = 0) := by omega
  simp [DecrementStrong, hcb, h0]

theorem DecrementStrong_frame (b : Nat) (hp : Heap) (cb : ControlBlockBase)
    (hcb : hp.blocks b = some cb) (hlink : LinkOK hp b cb) :
    ∃ hp1, DecrementStrong b hp = some hp1 ∧ ∀ i, i ≠ b → hp1.blocks i = hp.blocks i := by
  apply exists_of_match
  obtain ⟨s, w, impl⟩ := cb
  unfold LinkOK at hlink
  by_cases hs : s = 1
  swap
  · rw [DecrementStrong_many b hp _ hcb hs]
    intro i hi
    simp [Heap.setBlock, hi]
  subst hs
  cases impl with
  | pointer tmp =>
    simp only [BlockImpl.payload] at hlink
    by_cases ht : tmp = 0
    · by_cases hw : w = 0 <;>
        simp +contextual [DecrementStrong, hcb, hw, ZeroStrong, ht, ZeroWeak, Heap.setBlock, Heap.emit]
    · cases hwt : hp.weak_this_ tmp with
      | none =>
        by_cases hw : w = 0 <;>
          simp +contextual [DecrementStrong, hcb, hw, ZeroStrong, ht, ZeroWeak, destroyPayload, hwt,
            Heap.setBlock, Heap.emit]
      | some wt =>
        obtain ⟨wp, wb⟩ := wt
        rcases hlink _ hwt with h | h
        · simp only at h; subst h
          by_cases hw : w = 0 <;>
            simp +contextual [DecrementStrong, hcb, hw, ZeroStrong, ht, ZeroWeak, destroyPayload, hwt,
              Heap.setBlock, Heap.emit, WeakPtr.destroy, Heap.setWeakThis]
        · simp only at h; subst h
          by_cases hw : w = 0
          · simp +contextual [DecrementStrong, hcb, hw, ZeroStrong, ht, ZeroWeak, destroyPayload, hwt,
              Heap.setBlock, Heap.emit, WeakPtr.destroy, Heap.setWeakThis, DecrementWeak]
          · by_cases hw1 : w - 1 = 0 <;>
              simp +contextual [DecrementStrong, hcb, hw, hw1, ZeroStrong, ht, ZeroWeak, destroyPayload, hwt,
                Heap.setBlock, Heap.emit, WeakPtr.destroy, Heap.setWeakThis, DecrementWeak]
  | emplace q =>
    simp only [BlockImpl.payload] at hlink
    cases hwt : hp.weak_this_ q with
    | none =>
      by_cases hw : w = 0 <;>
        simp +contextual [DecrementStrong, hcb, hw, ZeroStrong, ZeroWeak, destroyPayload, hwt,
          Heap.setBlock, Heap.emit]
    | some wt =>
      obtain ⟨wp, wb⟩ := wt
      rcases hlink _ hwt with h | h
      · simp only at h; subst h
        by_cases hw : w = 0 <;>
          simp +contextual [DecrementStrong, hcb, hw, ZeroStrong, ZeroWeak, destroyPayload, hwt,
            Heap.setBlock, Heap.emit, WeakPtr.destroy, Heap.setWeakThis]
      · simp only at h; subst h
        by_cases hw : w = 0
        · simp +contextual [DecrementStrong, hcb, hw, ZeroStrong, ZeroWeak, destroyPayload, hwt,
            Heap.setBlock, Heap.emit, WeakPtr.destroy, Heap.setWeakThis, DecrementWeak]
        · by_cases hw1 : w - 1 = 0 <;>
            simp +contextual [DecrementStrong, hcb, hw, hw1, ZeroStrong, ZeroWeak, destroyPayload, hwt,
              Heap.setBlock, Heap.emit, WeakPtr.destroy, Heap.setWeakThis, DecrementWeak]

theorem Reset_frame (d : SharedPtr) (bd : Nat) (cbd : ControlBlockBase) (hp : Heap)
    (hd : d.block_ = some bd) (hcb : hp.blocks bd = some cbd) (hlink : LinkOK hp bd cbd) :
    ∃ d1 hp1, d.Reset hp = some (d1, hp1) ∧ ∀ i, i ≠ bd → hp1.blocks i = hp.blocks i := by
  obtain ⟨hp1, h1, h2⟩ := DecrementStrong_frame bd hp cbd hcb hlink
  unfold SharedPtr.Reset
  by_cases hp0 : d.ptr_ = 0
  · exact ⟨d, hp, by simp [hd, hp0], fun _ _ => rfl⟩
  · by_cases hs : cbd.strong_ = 1
    · exact ⟨⟨0, none⟩, hp1, by simp [hd, hp0, GetStrong, hcb, hs, h1], h2⟩
    · exact ⟨d, hp1, by simp [hd, hp0, GetStrong, hcb, hs, h1], h2⟩

theorem setBlock_same_val (hp : Heap) (b : Nat) (cb : ControlBlockBase) :
    (hp.setBlock b (some cb)).blocks b = some cb := by simp

theorem exists_of_match_pair {α β : Type} {o : Option (α × β)} {v : α} {P : β → Prop}
    (h : match o with | some (x, y) => x = v ∧ P y | none => False) :
    ∃ y, o = some (v, y) ∧ P y := by
  cases o with
  | none => exact h.elim
  | some xy =>
    obtain ⟨x, y⟩ := xy
    obtain ⟨h1, h2⟩ := h
    subst h1
    exact ⟨y, rfl, h2⟩

/-! ### Logs -/

theorem payloadEvents_append (p : Ptr) (l1 l2 : List Event) :
    payloadEvents p (l1 ++ l2) = payloadEvents p l1 + payloadEvents p l2 := by
  simp only [payloadEvents, List.count_append]
  omega

theorem payloadEvents_deletePayload (p q : Ptr) :
    payloadEvents p [Event.deletePayload q] = if q = p then 1 else 0 := by
  by_cases h : q = p
  · subst h; simp [payloadEvents]
  · have h' : ¬ p = q := fun e => h e.symm
    simp [payloadEvents, List.count_cons, h, h']

theorem payloadEvents_destroyInPlace (p q : Ptr) :
    payloadEvents p [Event.destroyInPlace q] = if q = p then 1 else 0 := by
  by_cases h : q = p
  · subst h; simp [payloadEvents]
  · have h' : ¬ p = q := fun e => h e.symm
    simp [payloadEvents, List.count_cons, h, h']

theorem payloadEvents_deleteBlock (p b : Nat) :
    payloadEvents p [Event.deleteBlock b] = 0 := by
  simp [payloadEvents]

theorem count_deleteBlock_single (b c : Nat) :
    List.count (Event.deleteBlock b) [Event.deleteBlock c] = if c = b then 1 else 0 := by
  by_cases h : c = b
  · subst h; simp
  · have h' : ¬ b = c := fun e => h e.symm
    simp [List.count_cons, h, h']

theorem Ordered_snoc (b : Nat) (log : List Event) (e : Event) (h : Ordered b log)
    (he : e = Event.deleteBlock b → 0 < payloadEvents b log) : Ordered b (log ++ [e]) := by
  intro l1 l2 heq
  rcases List.eq_nil_or_concat l2 with hnil | ⟨l3, x, hx⟩
  · subst hnil
    have h1 : log ++ [e] = l1 ++ [Event.deleteBlock b] := heq
    have h2 := List.append_inj' h1 rfl
    have h3 : e = Event.deleteBlock b := by simpa using h2.2
    rw [← h2.1]
    exact he h3
  · subst hx
    have h1 : log ++ [e] = (l1 ++ Event.deleteBlock b :: l3) ++ [x] := by
      rw [heq]; simp
    have h2 := List.append_inj' h1 rfl
    exact h l1 l3 h2.1

theorem Ordered_nil (b : Nat) : Ordered b [] := by
  intro l1 l2 h
  cases l1 <;> simp at h

theorem DecrementStrong_last (b : Nat) (hp : Heap) (cb : ControlBlockBase) (nW nP nD : Nat)
    (hb : b ≠ 0) (hcb : hp.blocks b = some cb)
    (hlive : GroupLive b cb (hp.weak_this_ b) 1 nW nP nD) :
    ∃ hp1, DecrementStrong b hp = some hp1 ∧
      (∀ i, i ≠ b → hp1.blocks i = hp.blocks i) ∧
      (hp1.blocks b = if nW = 0 then none
        else some { strong_ := 0, weak_ := nW,
                    impl := match cb.impl with
                      | .pointer _ => .pointer 0
                      | .emplace q => .emplace q }) ∧
      (∀ i, i ≠ b → hp1.weak_this_ i = hp.weak_this_ i) ∧
      hp1.weak_this_ b = none ∧
      ∃ e, (e = match cb.impl with
              | .pointer _ => Event.deletePayload b
              | .emplace _ => Event.destroyInPlace b) ∧
        hp1.log = hp.log ++ e :: (if nW = 0 then [Event.deleteBlock b] else []) := by
  apply exists_of_match
  obtain ⟨s, w, impl⟩ := cb
  obtain ⟨hs, -, -, himpl, -, hwt⟩ := hlive
  simp only at hs himpl hwt
  have hs1 : s = 1 := by simpa using hs
  subst hs1
  simp only [one_ne_zero, ↓reduceIte] at himpl
  rcases himpl with himpl | himpl <;> subst himpl <;>
    rcases hwt with ⟨hnone, hw⟩ | ⟨hsome, hw, -⟩ <;> subst hw <;>
      by_cases hn : nW = 0
  all_goals
    first
    | (subst hn
       simp +contextual [DecrementStrong, hcb, ZeroStrong, hb, ZeroWeak, destroyPayload,
         hnone, Heap.setBlock, Heap.emit, WeakPtr.destroy, Heap.setWeakThis, DecrementWeak])
    | (subst hn
       simp +contextual [DecrementStrong, hcb, ZeroStrong, hb, ZeroWeak, destroyPayload,
         hsome, Heap.setBlock, Heap.emit, WeakPtr.destroy, Heap.setWeakThis, DecrementWeak])
    | (have hn' : ¬ ((nW : Int) = 0) := by exact_mod_cast hn
       simp +contextual [DecrementStrong, hcb, ZeroStrong, hb, ZeroWeak, destroyPayload,
         hnone, hn, hn', Heap.setBlock, Heap.emit, WeakPtr.destroy, Heap.setWeakThis,
         DecrementWeak])
    | (have hn' : ¬ ((nW : Int) = 0) := by exact_mod_cast hn
       have hn2 : ¬ ((nW : Int) + 1 = 0) := by omega
       simp +contextual [DecrementStrong, hcb, ZeroStrong, hb, ZeroWeak, destroyPayload,
         hsome, hn, hn', hn2, Heap.setBlock, Heap.emit, WeakPtr.destroy, Heap.setWeakThis,
         DecrementWeak])

/-- An event that concerns group `b0`. -/
theorem frame_counts (b b0 : Nat) (hne : b ≠ b0) (evs : List Event)
    (hevs : ∀ e ∈ evs, e = Event.deletePayload b0 ∨ e = Event.destroyInPlace b0 ∨
      e = Event.deleteBlock b0) :
    payloadEvents b evs = 0 ∧ evs.count (Event.deleteBlock b) = 0 := by
  have h1 : evs.count (Event.deletePayload b) = 0 := by
    rw [List.count_eq_zero]
    intro hmem
    rcases hevs _ hmem with h | h | h <;> simp at h
    exact hne h
  have h2 : evs.count (Event.destroyInPlace b) = 0 := by
    rw [List.count_eq_zero]
    intro hmem
    rcases hevs _ hmem with h | h | h <;> simp at h
    exact hne h
  have h3 : evs.count (Event.deleteBlock b) = 0 := by
    rw [List.count_eq_zero]
    intro hmem
    rcases hevs _ hmem with h | h | h <;> simp at h
    exact hne h
  exact ⟨by simp [payloadEvents, h1, h2], h3⟩

theorem Ordered_append_frame (b : Nat) (evs log : List Event) (h : Ordered b log)
    (hevs : Event.deleteBlock b ∉ evs) : Ordered b (log ++ evs) := by
  induction evs generalizing log with
  | nil => simpa using h
  | cons e rest ih =>
    have h1 : log ++ e :: rest = (log ++ [e]) ++ rest := by simp
    rw [h1]
    apply ih
    · apply Ordered_snoc _ _ _ h
      intro he
      exact absurd (by simp [he]) hevs
    · intro hmem
      exact hevs (List.mem_cons_of_mem _ hmem)

theorem BlockOK_mono (b f f1 : Nat) (cb? : Option ControlBlockBase) (wt? : Option WeakPtr)
    (nS nW nP nD : Nat) (h : BlockOK b f cb? wt? nS nW nP nD) (hf : f ≤ f1)
    (hf1 : f ≤ b → f1 ≤ b) : BlockOK b f1 cb? wt? nS nW nP nD := by
  rcases h with ⟨hu, hrest⟩ | ⟨h0, hlt, hrest⟩ | ⟨h0, hlt, hrest⟩
  · left
    refine ⟨?_, hrest⟩
    rcases hu with hu | hu
    · exact Or.inl hu
    · exact Or.inr (hf1 hu)
  · right; left
    exact ⟨h0, by omega, hrest⟩
  · right; right
    exact ⟨h0, by omega, hrest⟩

theorem HeapInv_of_local (hp hp1 : Heap) (f f1 : Nat) (nS nW nS1 nW1 : Nat → Nat) (b0 : Nat)
    (evs : List Event) (hinv : HeapInv hp f nS nW)
    (hf : f ≤ f1) (hf1 : ∀ i, i ≠ b0 → f ≤ i → f1 ≤ i)
    (hblk : ∀ i, i ≠ b0 → hp1.blocks i = hp.blocks i)
    (hwt : ∀ i, i ≠ b0 → hp1.weak_this_ i = hp.weak_this_ i)
    (hnS : ∀ i, i ≠ b0 → nS1 i = nS i) (hnW : ∀ i, i ≠ b0 → nW1 i = nW i)
    (hlog : hp1.log = hp.log ++ evs)
    (hevs : ∀ e ∈ evs, e = Event.deletePayload b0 ∨ e = Event.destroyInPlace b0 ∨
      e = Event.deleteBlock b0)
    (hb0 : BlockOK b0 f1 (hp1.blocks b0) (hp1.weak_this_ b0) (nS1 b0) (nW1 b0)
      (payloadEvents b0 hp1.log) (hp1.log.count (Event.deleteBlock b0)))
    (hord : Ordered b0 hp1.log) : HeapInv hp1 f1 nS1 nW1 := by
  obtain ⟨hfpos, hall, hordall⟩ := hinv
  refine ⟨by omega, ?_, ?_⟩
  · intro b
    by_cases hb : b = b0
    · subst hb; exact hb0
    · have hc := frame_counts b b0 hb evs hevs
      rw [hblk b hb, hwt b hb, hnS b hb, hnW b hb, hlog, payloadEvents_append,
        List.count_append, hc.1, hc.2]
      exact BlockOK_mono _ _ _ _ _ _ _ _ _ (hall b) hf (hf1 b hb)
  · intro b
    by_cases hb : b = b0
    · subst hb; exact hord
    · rw [hlog]
      apply Ordered_append_frame _ _ _ (hordall b)
      intro hmem
      rcases hevs _ hmem with h | h | h <;> simp at h
      exact hb h

theorem HeapInv_live (hp : Heap) (f : Nat) (nS nW : Nat → Nat) (b : Nat) (cb : ControlBlockBase)
    (hinv : HeapInv hp f nS nW) (hcb : hp.blocks b = some cb) :
    b ≠ 0 ∧ b < f ∧ GroupLive b cb (hp.weak_this_ b) (nS b) (nW b)
      (payloadEvents b hp.log) (hp.log.count (Event.deleteBlock b)) := by
  rcases hinv.2.1 b with ⟨-, h, -⟩ | ⟨h0, hlt, cb1, h1, hl⟩ | ⟨-, -, h, -⟩
  · rw [hcb] at h; cases h
  · rw [hcb] at h1
    cases h1
    exact ⟨h0, hlt, hl⟩
  · rw [hcb] at h; cases h

theorem HeapInv_alive (hp : Heap) (f : Nat) (nS nW : Nat → Nat) (b : Nat)
    (hinv : HeapInv hp f nS nW) (hpos : 0 < nS b + nW b) :
    ∃ cb, hp.blocks b = some cb := by
  rcases hinv.2.1 b with ⟨-, -, -, h1, h2, -⟩ | ⟨-, -, cb1, h1, -⟩ | ⟨-, -, -, -, h1, h2, -⟩
  · omega
  · exact ⟨cb1, h1⟩
  · omega

theorem HeapInv_incStrong (hp : Heap) (f : Nat) (nS nW : Nat → Nat) (b0 : Nat)
    (cb : ControlBlockBase) (hinv : HeapInv hp f nS nW) (hcb : hp.blocks b0 = some cb)
    (hpos : 0 < nS b0) :
    HeapInv (hp.setBlock b0 (some { cb with strong_ := cb.strong_ + 1 })) f (bump nS b0) nW := by
  obtain ⟨h0, hlt, hs, hsum, hD, himpl, hP, hlink⟩ := HeapInv_live hp f nS nW b0 cb hinv hcb
  have hne : nS b0 ≠ 0 := by omega
  apply HeapInv_of_local hp _ f f nS nW _ _ b0 [] hinv (le_refl _) (fun _ _ h => h)
  · intro i hi; exact setBlock_blocks_ne _ _ _ _ hi
  · intro i _; rfl
  · intro i hi; simp [bump, hi]
  · intro i _; rfl
  · simp
  · intro e he; cases he
  · right; left
    refine ⟨h0, hlt, _, setBlock_blocks_self _ _ _, ?_⟩
    simp only [bump, ↓reduceIte, setBlock_weak_this, setBlock_log]
    refine ⟨by simp [hs], by omega, hD, ?_, ?_, ?_⟩
    · simpa [hne] using himpl
    · simpa [hne] using hP
    · rcases hlink with ⟨a, b⟩ | ⟨a, b, c⟩
      · exact Or.inl ⟨a, b⟩
      · exact Or.inr ⟨a, b, by omega⟩
  · exact hinv.2.2 b0

theorem HeapInv_incWeak (hp : Heap) (f : Nat) (nS nW : Nat → Nat) (b0 : Nat)
    (cb : ControlBlockBase) (hinv : HeapInv hp f nS nW) (hcb : hp.blocks b0 = some cb) :
    HeapInv (hp.setBlock b0 (some { cb with weak_ := cb.weak_ + 1 })) f nS (bump nW b0) := by
  obtain ⟨h0, hlt, hs, hsum, hD, himpl, hP, hlink⟩ := HeapInv_live hp f nS nW b0 cb hinv hcb
  apply HeapInv_of_local hp _ f f nS nW _ _ b0 [] hinv (le_refl _) (fun _ _ h => h)
  · intro i hi; exact setBlock_blocks_ne _ _ _ _ hi
  · intro i _; rfl
  · intro i _; rfl
  · intro i hi; simp [bump, hi]
  · simp
  · intro e he; cases he
  · right; left
    refine ⟨h0, hlt, _, setBlock_blocks_self _ _ _, ?_⟩
    simp only [bump, ↓reduceIte, setBlock_weak_this, setBlock_log]
    refine ⟨hs, by omega, hD, himpl, hP, ?_⟩
    rcases hlink with ⟨a, b⟩ | ⟨a, b, c⟩
    · exact Or.inl ⟨a, by simp [b]⟩
    · exact Or.inr ⟨a, by simp [b], c⟩
  · exact hinv.2.2 b0

theorem HeapInv_decWeak (hp : Heap) (f : Nat) (nS nW : Nat → Nat) (b0 : Nat)
    (hinv : HeapInv hp f nS nW) (hpos : 0 < nW b0) :
    ∃ hp1, DecrementWeak b0 hp = some hp1 ∧ HeapInv hp1 f nS (drop nW b0) ∧
      payloadEvents b0 hp1.log = payloadEvents b0 hp.log ∧
      ∀ e, (∀ b, e ≠ Event.deleteBlock b) → hp1.log.count e = hp.log.count e := by
  obtain ⟨cb, hcb⟩ := HeapInv_alive hp f nS nW b0 hinv (by omega)
  obtain ⟨h0, hlt, hs, hsum, hD, himpl, hP, hlink⟩ := HeapInv_live hp f nS nW b0 cb hinv hcb
  by_cases hz : cb.weak_ - 1 + cb.strong_ = 0
  · have hS0 : nS b0 = 0 := by
      rcases hlink with ⟨_, b⟩ | ⟨_, b, _⟩ <;> omega
    have hW1 : nW b0 = 1 := by
      rcases hlink with ⟨_, b⟩ | ⟨_, b, _⟩ <;> omega
    have hwt : hp.weak_this_ b0 = none := by
      rcases hlink with ⟨a, _⟩ | ⟨_, _, c⟩
      · exact a
      · omega
    refine ⟨(hp.setBlock b0 none).emit (Event.deleteBlock b0), ?_, ?_, ?_, ?_⟩
    · simp [DecrementWeak, hcb, hz, ZeroWeak, setBlock_setBlock]
    · apply HeapInv_of_local hp _ f f nS nW _ _ b0 [Event.deleteBlock b0] hinv (le_refl _)
        (fun _ _ h => h)
      · intro i hi; simp [setBlock_blocks_ne _ _ _ _ hi]
      · intro i _; rfl
      · intro i _; rfl
      · intro i hi; simp [drop, hi]
      · simp
      · intro e he; simp at he; exact Or.inr (Or.inr he)
      · right; right
        refine ⟨h0, hlt, by simp, by simpa using hwt, hS0, by simp [drop, hW1], ?_, ?_⟩
        · simp [payloadEvents_append, payloadEvents_deleteBlock, hP, hS0]
        · simp [hD]
      · simp only [emit_log, setBlock_log]
        apply Ordered_snoc _ _ _ (hinv.2.2 b0)
        intro _
        rw [hP, hS0]; simp
    · simp [payloadEvents_append, payloadEvents_deleteBlock]
    · intro e he
      have : ¬ (Event.deleteBlock b0 = e) := fun h => he b0 h.symm
      simp [List.count_cons, this]
  · refine ⟨hp.setBlock b0 (some { cb with weak_ := cb.weak_ - 1 }), ?_, ?_, rfl, fun _ _ => rfl⟩
    · simp [DecrementWeak, hcb, hz]
    · apply HeapInv_of_local hp _ f f nS nW _ _ b0 [] hinv (le_refl _) (fun _ _ h => h)
      · intro i hi; exact setBlock_blocks_ne _ _ _ _ hi
      · intro i _; rfl
      · intro i _; rfl
      · intro i hi; simp [drop, hi]
      · simp
      · intro e he; cases he
      · right; left
        refine ⟨h0, hlt, _, setBlock_blocks_self _ _ _, ?_⟩
        simp only [drop, ↓reduceIte, setBlock_weak_this, setBlock_log]
        refine ⟨hs, ?_, hD, himpl, hP, ?_⟩
        · rcases hlink with ⟨_, b⟩ | ⟨_, b, _⟩ <;> omega
        · rcases hlink with ⟨a, b⟩ | ⟨a, b, c⟩
          · exact Or.inl ⟨a, by simp only; omega⟩
          · exact Or.inr ⟨a, by simp only; omega, c⟩
      · exact hinv.2.2 b0

theorem HeapInv_decStrong (hp : Heap) (f : Nat) (nS nW : Nat → Nat) (b0 : Nat)
    (hinv : HeapInv hp f nS nW) (hpos : 0 < nS b0) :
    ∃ cb hp1, hp.blocks b0 = some cb ∧ cb.strong_ = nS b0 ∧ b0 ≠ 0 ∧
      DecrementStrong b0 hp = some hp1 ∧ HeapInv hp1 f (drop nS b0) nW ∧
      (nS b0 ≠ 1 → hp1.log = hp.log) ∧
      (nS b0 = 1 → payloadEvents b0 hp.log = 0 ∧
        ∃ e, (e = Event.deletePayload b0 ∧ cb.impl = BlockImpl.pointer b0 ∨
              e = Event.destroyInPlace b0 ∧ cb.impl = BlockImpl.emplace b0) ∧
          hp1.log = hp.log ++ e :: (if nW b0 = 0 then [Event.deleteBlock b0] else [])) := by
  obtain ⟨cb, hcb⟩ := HeapInv_alive hp f nS nW b0 hinv (by omega)
  have hlive := HeapInv_live hp f nS nW b0 cb hinv hcb
  have hlive2 := hlive
  obtain ⟨h0, hlt, hs, hsum, hD, himpl, hP, hlink⟩ := hlive
  have hne : nS b0 ≠ 0 := by omega
  by_cases h1 : nS b0 = 1
  · have hl1 := hlive2.2.2
    rw [h1] at hl1
    obtain ⟨hp1, hd, hb1, hb2, hw1, hw2, e, he, hlog⟩ :=
      DecrementStrong_last b0 hp cb (nW b0) _ _ h0 hcb hl1
    have he' : e = Event.deletePayload b0 ∧ cb.impl = BlockImpl.pointer b0 ∨
        e = Event.destroyInPlace b0 ∧ cb.impl = BlockImpl.emplace b0 := by
      rcases himpl with hi | hi
      · right
        rw [hi] at he
        exact ⟨he, hi⟩
      · left
        rw [hi] at he
        simp only [hne, ↓reduceIte] at he hi
        exact ⟨he, hi⟩
    have hev : e = Event.deletePayload b0 ∨ e = Event.destroyInPlace b0 := by
      rcases he' with ⟨a, _⟩ | ⟨a, _⟩
      · exact Or.inl a
      · exact Or.inr a
    have hpe : payloadEvents b0 [e] = 1 := by
      rcases hev with a | a <;> subst a
      · simp [payloadEvents_deletePayload]
      · simp [payloadEvents_destroyInPlace]
    have hde : List.count (Event.deleteBlock b0) [e] = 0 := by
      rcases hev with a | a <;> subst a <;> simp
    have hP0 : payloadEvents b0 hp.log = 0 := by simpa [hne] using hP
    refine ⟨cb, hp1, hcb, hs, h0, hd, ?_, fun h => absurd h1 h, fun _ => ⟨hP0, e, he', hlog⟩⟩
    apply HeapInv_of_local hp hp1 f f nS nW _ _ b0 _ hinv (le_refl _) (fun _ _ h => h)
      hb1 hw1 (fun i hi => by simp [drop, hi]) (fun _ _ => rfl) hlog
    · intro x hx
      by_cases hn : nW b0 = 0
      · simp [hn] at hx
        rcases hx with hx | hx
        · rcases hev with a | a
          · exact Or.inl (hx.trans a)
          · exact Or.inr (Or.inl (hx.trans a))
        · exact Or.inr (Or.inr hx)
      · simp [hn] at hx
        rcases hev with a | a
        · exact Or.inl (hx.trans a)
        · exact Or.inr (Or.inl (hx.trans a))
    · by_cases hn : nW b0 = 0
      · right; right
        refine ⟨h0, hlt, by simp [hb2, hn], hw2, by simp [drop, h1], hn, ?_, ?_⟩
        · rw [hlog, hn]
          simp only [↓reduceIte]
          rw [show e :: [Event.deleteBlock b0] = [e] ++ [Event.deleteBlock b0] from rfl,
            payloadEvents_append, payloadEvents_append, hpe, payloadEvents_deleteBlock, hP0]
        · rw [hlog, hn]
          simp only [↓reduceIte]
          rw [show e :: [Event.deleteBlock b0] = [e] ++ [Event.deleteBlock b0] from rfl,
            List.count_append, List.count_append, hde, hD]
          simp
      · right; left
        refine ⟨h0, hlt, ⟨0, nW b0, match cb.impl with
            | .pointer _ => .pointer 0
            | .emplace q => .emplace q⟩, by rw [hb2]; simp [hn], ?_⟩
        have hdrop : drop nS b0 b0 = 0 := by simp [drop, h1]
        rw [hdrop, hw2, hlog]
        simp only [hn, ↓reduceIte]
        refine ⟨by simp, by omega, ?_, ?_, ?_, Or.inl ⟨rfl, rfl⟩⟩
        · rw [List.count_append, hde, hD]
        · rcases himpl with hi | hi
          · left; simp only [hi]
          · right; simp only [hi, ↓reduceIte]
        · rw [payloadEvents_append, hpe, hP0]; rfl
    · rw [hlog]
      have h2 : Ordered b0 (hp.log ++ [e]) := by
        apply Ordered_snoc _ _ _ (hinv.2.2 b0)
        intro he0
        rcases hev with a | a <;> rw [a] at he0 <;> cases he0
      by_cases hn : nW b0 = 0
      · simp only [hn, ↓reduceIte]
        rw [show hp.log ++ [e, Event.deleteBlock b0] = (hp.log ++ [e]) ++ [Event.deleteBlock b0]
          by simp]
        apply Ordered_snoc _ _ _ h2
        intro _
        rw [payloadEvents_append, hpe]
        omega
      · simpa [hn] using h2
  · have hs1 : cb.strong_ ≠ 1 := by omega
    refine ⟨cb, _, hcb, hs, h0, DecrementStrong_many b0 hp cb hcb hs1, ?_, fun _ => rfl,
      fun h => absurd h h1⟩
    have hd0 : nS b0 - 1 ≠ 0 := by omega
    apply HeapInv_of_local hp _ f f nS nW _ _ b0 [] hinv (le_refl _) (fun _ _ h => h)
    · intro i hi; exact setBlock_blocks_ne _ _ _ _ hi
    · intro i _; rfl
    · intro i hi; simp [drop, hi]
    · intro i _; rfl
    · simp
    · intro e he; cases he
    · right; left
      refine ⟨h0, hlt, _, setBlock_blocks_self _ _ _, ?_⟩
      simp only [drop, ↓reduceIte, setBlock_weak_this, setBlock_log]
      refine ⟨by simp only; omega, by omega, hD, ?_, ?_, ?_⟩
      · simpa [hne, hd0] using himpl
      · simpa [hne, hd0] using hP
      · rcases hlink with ⟨a, b⟩ | ⟨a, b, c⟩
        · exact Or.inl ⟨a, b⟩
        · exact Or.inr ⟨a, b, by omega⟩
    · exact hinv.2.2 b0

theorem fromRaw_effect (p a : Nat) (esft : Bool) (hp : Heap) (hfree : hp.blocks a = none)
    (hes : esft = false) :
    ∃ hp1, SharedPtr.fromRaw p a esft (newPayload p esft hp)
        = some ({ ptr_ := p, block_ := some a }, hp1) ∧
      (∀ i, i ≠ a → hp1.blocks i = hp.blocks i) ∧
      hp1.blocks a = some { strong_ := 1, weak_ := if esft then 1 else 0,
                            impl := BlockImpl.pointer p } ∧
      (∀ i, i ≠ p → hp1.weak_this_ i = hp.weak_this_ i) ∧
      hp1.weak_this_ p = (if esft then some { ptr_ := p, block_ := some a } else none) ∧
      hp1.log = hp.log := by
  apply exists_of_match_pair
  subst hes
  simp +contextual [SharedPtr.fromRaw, newPayload, Heap.setWeakThis, hfree, Heap.setBlock]

theorem MakeShared_effect (q a : Nat) (esft : Bool) (hp : Heap) (hq : q ≠ 0)
    (hfree : hp.blocks a = none) (hes : esft = false) :
    ∃ hp1, MakeShared q a esft hp = some ({ ptr_ := q, block_ := some a }, hp1) ∧
      (∀ i, i ≠ a → hp1.blocks i = hp.blocks i) ∧
      hp1.blocks a = some { strong_ := 1, weak_ := if esft then 1 else 0,
                            impl := BlockImpl.emplace q } ∧
      (∀ i, i ≠ q → hp1.weak_this_ i = hp.weak_this_ i) ∧
      hp1.weak_this_ q = (if esft then some { ptr_ := q, block_ := some a } else none) ∧
      hp1.log = hp.log := by
  apply exists_of_match_pair
  subst hes
  simp +contextual [MakeShared, SharedPtr.fromBlock, hq, newPayload, Heap.setWeakThis, hfree,
    Heap.setBlock]

/-- A new group numbered `f` with one strong handle keeps the invariant. -/
theorem HeapInv_new (hp hp1 : Heap) (f : Nat) (nS nW : Nat → Nat) (esft : Bool)
    (impl : BlockImpl) (himpl : impl = BlockImpl.emplace f ∨ impl = BlockImpl.pointer f)
    (hinv : HeapInv hp f nS nW)
    (hb1 : ∀ i, i ≠ f → hp1.blocks i = hp.blocks i)
    (hb2 : hp1.blocks f = some { strong_ := 1, weak_ := if esft then 1 else 0, impl := impl })
    (hw1 : ∀ i, i ≠ f → hp1.weak_this_ i = hp.weak_this_ i)
    (hw2 : hp1.weak_this_ f = (if esft then some { ptr_ := f, block_ := some f } else none))
    (hlog : hp1.log = hp.log) :
    HeapInv hp1 (f + 1) (bump nS f) nW := by
  have hf := hinv.1
  have hunused : hp.blocks f = none ∧ hp.weak_this_ f = none ∧ nS f = 0 ∧ nW f = 0 ∧
      payloadEvents f hp.log = 0 ∧ hp.log.count (Event.deleteBlock f) = 0 := by
    rcases hinv.2.1 f with ⟨-, h⟩ | ⟨-, hlt, -⟩ | ⟨-, hlt, -⟩
    · exact h
    · omega
    · omega
  obtain ⟨-, -, hS, hW, hP, hD⟩ := hunused
  apply HeapInv_of_local hp hp1 f (f + 1) nS nW _ _ f [] hinv (by omega)
    (fun i hi hle => by omega) hb1 hw1 (fun i hi => by simp [bump, hi]) (fun _ _ => rfl)
    (by simp [hlog])
  · intro e he; cases he
  · right; left
    refine ⟨by omega, by omega, _, hb2, ?_⟩
    rw [hw2, hlog, hP, hD, hW]
    simp only [bump, ↓reduceIte, hS]
    refine ⟨by simp, by omega, rfl, ?_, by simp, ?_⟩
    · simpa using himpl
    · cases esft
      · left; simp
      · right; simp
  · rw [hlog]; exact hinv.2.2 f

/-! ### Counting handles -/

theorem countP_eraseIdx_add {α : Type} (p : α → Bool) (l : List α) (i : Nat) (x : α)
    (h : l[i]? = some x) :
    (l.eraseIdx i).countP p + (if p x then 1 else 0) = l.countP p := by
  induction l generalizing i with
  | nil => simp at h
  | cons y ys ih =>
    cases i with
    | zero =>
      simp only [List.getElem?_cons_zero, Option.some.injEq] at h
      subst h
      simp [List.countP_cons]
    | succ k =>
      simp only [List.getElem?_cons_succ] at h
      have := ih k h
      simp only [List.eraseIdx_cons_succ, List.countP_cons]
      omega

theorem countP_set_add {α : Type} (p : α → Bool) (l : List α) (i : Nat) (x y : α)
    (h : l[i]? = some x) :
    (l.set i y).countP p + (if p x then 1 else 0) = l.countP p + (if p y then 1 else 0) := by
  induction l generalizing i with
  | nil => simp at h
  | cons z zs ih =>
    cases i with
    | zero =>
      simp only [List.getElem?_cons_zero, Option.some.injEq] at h
      subst h
      simp only [List.set_cons_zero, List.countP_cons]
      omega
    | succ k =>
      simp only [List.getElem?_cons_succ] at h
      have := ih k h
      simp only [List.set_cons_succ, List.countP_cons]
      omega

theorem cntS_pos (l : List SharedPtr) (h : SharedPtr) (b : Nat) (hm : h ∈ l)
    (hb : h.block_ = some b) : 0 < cntS l b := by
  unfold cntS
  rw [List.countP_pos_iff]
  exact ⟨h, hm, by simp [hb]⟩

theorem cntW_pos (l : List WeakPtr) (w : WeakPtr) (b : Nat) (hm : w ∈ l)
    (hb : w.block_ = some b) : 0 < cntW l b := by
  unfold cntW
  rw [List.countP_pos_iff]
  exact ⟨w, hm, by simp [hb]⟩

theorem cntS_append (l : List SharedPtr) (h : SharedPtr) :
    cntS (l ++ [h]) = match h.block_ with
      | some b0 => bump (cntS l) b0
      | none => cntS l := by
  funext b
  cases hb : h.block_ with
  | none => simp [cntS, hb]
  | some b0 =>
    by_cases hbb : b = b0
    · subst hbb; simp [cntS, bump, hb]
    · have : ¬ b0 = b := fun e => hbb e.symm
      simp [cntS, bump, hb, hbb, this]

theorem cntW_append (l : List WeakPtr) (w : WeakPtr) :
    cntW (l ++ [w]) = match w.block_ with
      | some b0 => bump (cntW l) b0
      | none => cntW l := by
  funext b
  cases hb : w.block_ with
  | none => simp [cntW, hb]
  | some b0 =>
    by_cases hbb : b = b0
    · subst hbb; simp [cntW, bump, hb]
    · have : ¬ b0 = b := fun e => hbb e.symm
      simp [cntW, bump, hb, hbb, this]

theorem cntS_eraseIdx (l : List SharedPtr) (i : Nat) (h : SharedPtr) (hi : l[i]? = some h) :
    cntS (l.eraseIdx i) = match h.block_ with
      | some b0 => drop (cntS l) b0
      | none => cntS l := by
  funext b
  have key := countP_eraseIdx_add (fun x : SharedPtr => decide (x.block_ = some b)) l i h hi
  cases hb : h.block_ with
  | none =>
    simp only [hb] at key
    simpa [cntS] using key
  | some b0 =>
    by_cases hbb : b = b0
    · subst hbb
      simp only [hb, decide_True, ↓reduceIte] at key
      simp only [cntS, drop, ↓reduceIte]
      omega
    · have : ¬ b0 = b := fun e => hbb e.symm
      simp only [hb, Option.some.injEq, this, decide_False] at key
      simp only [cntS, drop, hbb, ↓reduceIte]
      simpa using key

theorem cntW_eraseIdx (l : List WeakPtr) (i : Nat) (w : WeakPtr) (hi : l[i]? = some w) :
    cntW (l.eraseIdx i) = match w.block_ with
      | some b0 => drop (cntW l) b0
      | none => cntW l := by
  funext b
  have key := countP_eraseIdx_add (fun x : WeakPtr => decide (x.block_ = some b)) l i w hi
  cases hb : w.block_ with
  | none =>
    simp only [hb] at key
    simpa [cntW] using key
  | some b0 =>
    by_cases hbb : b = b0
    · subst hbb
      simp only [hb, decide_True, ↓reduceIte] at key
      simp only [cntW, drop, ↓reduceIte]
      omega
    · have : ¬ b0 = b := fun e => hbb e.symm
      simp only [hb, Option.some.injEq, this, decide_False] at key
      simp only [cntW, drop, hbb, ↓reduceIte]
      simpa using key

/-- Emptying slot `i` of the list changes the counts like erasing it. -/
theorem cntS_set_none (l : List SharedPtr) (i : Nat) (h y : SharedPtr) (hi : l[i]? = some h)
    (hy : y.block_ = none) : cntS (l.set i y) = cntS (l.eraseIdx i) := by
  funext b
  have k1 := countP_eraseIdx_add (fun x : SharedPtr => decide (x.block_ = some b)) l i h hi
  have k2 := countP_set_add (fun x : SharedPtr => decide (x.block_ = some b)) l i h y hi
  simp only [hy] at k2
  simp only [cntS]
  simp at k1 k2
  omega

theorem cntW_set_none (l : List WeakPtr) (i : Nat) (w y : WeakPtr) (hi : l[i]? = some w)
    (hy : y.block_ = none) : cntW (l.set i y) = cntW (l.eraseIdx i) := by
  funext b
  have k1 := countP_eraseIdx_add (fun x : WeakPtr => decide (x.block_ = some b)) l i w hi
  have k2 := countP_set_add (fun x : WeakPtr => decide (x.block_ = some b)) l i w y hi
  simp only [hy] at k2
  simp only [cntW]
  simp at k1 k2
  omega

/-- Filling an empty slot changes the counts like appending. -/
theorem cntS_set_fill (l : List SharedPtr) (i : Nat) (h y : SharedPtr) (hi : l[i]? = some h)
    (hh : h.block_ = none) : cntS (l.set i y) = match y.block_ with
      | some b0 => bump (cntS l) b0
      | none => cntS l := by
  funext b
  have k2 := countP_set_add (fun x : SharedPtr => decide (x.block_ = some b)) l i h y hi
  simp only [hh] at k2
  cases hb : y.block_ with
  | none =>
    simp only [hb] at k2
    simp only [cntS]
    simp at k2
    omega
  | some b0 =>
    by_cases hbb : b = b0
    · subst hbb
      simp only [hb, decide_True, ↓reduceIte] at k2
      simp only [cntS, bump, ↓reduceIte]
      simp at k2
      omega
    · have : ¬ b0 = b := fun e => hbb e.symm
      simp only [hb, Option.some.injEq, this, decide_False] at k2
      simp only [cntS, bump, hbb, ↓reduceIte]
      simp at k2
      omega

/-! ### Steps of a world keep the invariant -/

theorem shared_facts (σ : World) (hinv : Inv σ) (h : SharedPtr) (b : Nat) (hm : h ∈ σ.shared)
    (hb : h.block_ = some b) :
    h.ptr_ = b ∧ b ≠ 0 ∧ 0 < cntS σ.shared b ∧
      ∃ cb, σ.heap.blocks b = some cb ∧ cb.strong_ = cntS σ.shared b ∧ 0 ≤ cb.weak_ := by
  have hpos := cntS_pos σ.shared h b hm hb
  obtain ⟨cb, hcb⟩ := HeapInv_alive _ _ _ _ b hinv.1 (by omega)
  obtain ⟨h0, -, hs, -, -, -, -, hlink⟩ := HeapInv_live _ _ _ _ b cb hinv.1 hcb
  refine ⟨hinv.2.1 h hm b hb, h0, hpos, cb, hcb, hs, ?_⟩
  rcases hlink with ⟨_, e⟩ | ⟨_, e, _⟩ <;> omega

theorem weak_facts (σ : World) (hinv : Inv σ) (w : WeakPtr) (b : Nat) (hm : w ∈ σ.weak)
    (hb : w.block_ = some b) :
    w.ptr_ = b ∧ b ≠ 0 ∧ 0 < cntW σ.weak b ∧
      ∃ cb, σ.heap.blocks b = some cb ∧ cb.strong_ = cntS σ.shared b ∧ 0 ≤ cb.weak_ := by
  have hpos := cntW_pos σ.weak w b hm hb
  obtain ⟨cb, hcb⟩ := HeapInv_alive _ _ _ _ b hinv.1 (by omega)
  obtain ⟨h0, -, hs, -, -, -, -, hlink⟩ := HeapInv_live _ _ _ _ b cb hinv.1 hcb
  refine ⟨hinv.2.2 w hm b hb, h0, hpos, cb, hcb, hs, ?_⟩
  rcases hlink with ⟨_, e⟩ | ⟨_, e, _⟩ <;> omega

/-- Running `Reset()` on the handle in slot `i` gives a heap that fits the list
without that handle. -/
theorem Reset_slot (σ : World) (hinv : Inv σ) (i : Nat) (h : SharedPtr)
    (hi : σ.shared[i]? = some h) :
    ∃ h1 hp1, h.Reset σ.heap = some (h1, hp1) ∧
      HeapInv hp1 σ.fresh (cntS (σ.shared.eraseIdx i)) (cntW σ.weak) := by
  have hm : h ∈ σ.shared := List.getElem?_mem hi
  rw [cntS_eraseIdx σ.shared i h hi]
  cases hb : h.block_ with
  | none => exact ⟨h, σ.heap, by simp [SharedPtr.Reset, hb], hinv.1⟩
  | some b =>
    obtain ⟨hptr, h0, hpos, -⟩ := shared_facts σ hinv h b hm hb
    obtain ⟨cb, hp1, hcb, hs, -, hd, hinv1, -⟩ :=
      HeapInv_decStrong σ.heap σ.fresh _ _ b hinv.1 hpos
    have hp0 : h.ptr_ ≠ 0 := by rw [hptr]; exact h0
    by_cases h1 : cb.strong_ = 1
    · exact ⟨⟨0, none⟩, hp1, by simp [SharedPtr.Reset, hb, hp0, GetStrong, hcb, h1, hd], hinv1⟩
    · exact ⟨h, hp1, by simp [SharedPtr.Reset, hb, hp0, GetStrong, hcb, h1, hd], hinv1⟩

theorem Inv_sharedDestroy (σ : World) (hinv : Inv σ) (i : Nat) (h : SharedPtr)
    (hi : σ.shared[i]? = some h) :
    ∃ hp1, h.destroy σ.heap = some hp1 ∧
      Inv { heap := hp1, shared := σ.shared.eraseIdx i, weak := σ.weak, fresh := σ.fresh } := by
  obtain ⟨h1, hp1, hr, hinv1⟩ := Reset_slot σ hinv i h hi
  refine ⟨hp1, by simp [SharedPtr.destroy, hr], hinv1, ?_, hinv.2.2⟩
  intro x hx
  exact hinv.2.1 x (List.mem_of_mem_eraseIdx hx)

theorem Inv_sharedCopy (σ : World) (hinv : Inv σ) (i : Nat) (h : SharedPtr)
    (hi : σ.shared[i]? = some h) :
    ∃ r, SharedPtr.copy h σ.heap = some r ∧
      Inv { heap := r.2, shared := σ.shared ++ [r.1], weak := σ.weak, fresh := σ.fresh } := by
  have hm : h ∈ σ.shared := List.getElem?_mem hi
  cases hb : h.block_ with
  | none =>
    refine ⟨(⟨h.ptr_, none⟩, σ.heap), by simp [SharedPtr.copy, hb], ?_, ?_, hinv.2.2⟩
    · simp only [cntS_append]
      exact hinv.1
    · intro x hx b hxb
      rcases List.mem_append.1 hx with hx | hx
      · exact hinv.2.1 x hx b hxb
      · simp at hx; subst hx; simp at hxb
  | some b =>
    obtain ⟨hptr, h0, hpos, cb, hcb, -, -⟩ := shared_facts σ hinv h b hm hb
    refine ⟨(⟨h.ptr_, some b⟩, σ.heap.setBlock b (some { cb with strong_ := cb.strong_ + 1 })),
      by simp [SharedPtr.copy, hb, IncrementStrong, hcb], ?_, ?_, hinv.2.2⟩
    · simp only [cntS_append]
      exact HeapInv_incStrong _ _ _ _ b cb hinv.1 hcb hpos
    · intro x hx b' hxb
      rcases List.mem_append.1 hx with hx | hx
      · exact hinv.2.1 x hx b' hxb
      · simp at hx; subst hx
        simp at hxb; subst hxb
        exact hptr

theorem Inv_sharedAssign (σ : World) (hinv : Inv σ) (i j : Nat) (hi : SharedPtr)
    (hj : SharedPtr) (hne : i ≠ j) (hsi : σ.shared[i]? = some hi)
    (hsj : σ.shared[j]? = some hj) :
    ∃ r, SharedPtr.copyAssign hi (SharedRef.client hj) σ.heap = some r ∧
      r.1 = { ptr_ := hj.ptr_, block_ := hj.block_ } ∧
      Inv { heap := r.2, shared := σ.shared.set i r.1, weak := σ.weak, fresh := σ.fresh } := by
  obtain ⟨h1, hp1, hr, hinv1⟩ := Reset_slot σ hinv i hi hsi
  have hmj : hj ∈ σ.shared := List.getElem?_mem hsj
  -- the list with slot `i` emptied
  have hc1 : cntS (σ.shared.set i SharedPtr.default) = cntS (σ.shared.eraseIdx i) :=
    cntS_set_none σ.shared i hi _ hsi rfl
  rw [← hc1] at hinv1
  have hlt : i < σ.shared.length := by
    rcases List.getElem?_eq_some.1 hsi with ⟨hl, -⟩
    exact hl
  have hslot : (σ.shared.set i SharedPtr.default)[i]? = some SharedPtr.default := by
    simp [List.getElem?_set_self, hlt]
  have hj1 : (σ.shared.set i SharedPtr.default)[j]? = some hj := by
    rw [List.getElem?_set_ne hne]; exact hsj
  have hfill := cntS_set_fill (σ.shared.set i SharedPtr.default) i SharedPtr.default
    { ptr_ := hj.ptr_, block_ := hj.block_ } hslot rfl
  rw [List.set_set] at hfill
  have hptrs : ∀ x ∈ σ.shared.set i { ptr_ := hj.ptr_, block_ := hj.block_ },
      ∀ b, x.block_ = some b → x.ptr_ = b := by
    intro x hx b hxb
    rcases List.mem_or_eq_of_mem_set hx with hx | hx
    · exact hinv.2.1 x hx b hxb
    · subst hx
      exact hinv.2.1 hj hmj b hxb
  cases hb : hj.block_ with
  | none =>
    refine ⟨(⟨hj.ptr_, none⟩, hp1), by simp [SharedPtr.copyAssign, SharedRef.read, hr, hb],
      by simp [hb], ?_, ?_,
      hinv.2.2⟩
    · simp only [hb] at hfill
      simp only [hfill]
      exact hinv1
    · simpa [hb] using hptrs
  | some b =>
    have hpos : 0 < cntS (σ.shared.set i SharedPtr.default) b :=
      cntS_pos _ hj b (List.getElem?_mem hj1) hb
    obtain ⟨cb, hcb⟩ := HeapInv_alive _ _ _ _ b hinv1 (by omega)
    refine ⟨(⟨hj.ptr_, some b⟩, hp1.setBlock b (some { cb with strong_ := cb.strong_ + 1 })),
      by simp [SharedPtr.copyAssign, SharedRef.read, hr, hb, IncrementStrong, hcb],
      by simp [hb], ?_, ?_,
      hinv.2.2⟩
    · simp only [hb] at hfill
      simp only [hfill]
      exact HeapInv_incStrong _ _ _ _ b cb hinv1 hcb hpos
    · simpa [hb] using hptrs

theorem Inv_weakFromShared (σ : World) (hinv : Inv σ) (i : Nat) (h : SharedPtr)
    (hi : σ.shared[i]? = some h) :
    ∃ r, WeakPtr.fromShared h σ.heap = some r ∧
      Inv { heap := r.2, shared := σ.shared, weak := σ.weak ++ [r.1], fresh := σ.fresh } := by
  have hm : h ∈ σ.shared := List.getElem?_mem hi
  cases hb : h.block_ with
  | none =>
    refine ⟨(⟨h.ptr_, none⟩, σ.heap), by simp [WeakPtr.fromShared, hb], ?_, hinv.2.1, ?_⟩
    · simp only [cntW_append]
      exact hinv.1
    · intro x hx b hxb
      rcases List.mem_append.1 hx with hx | hx
      · exact hinv.2.2 x hx b hxb
      · simp at hx; subst hx; simp at hxb
  | some b =>
    obtain ⟨hptr, h0, hpos, cb, hcb, -, -⟩ := shared_facts σ hinv h b hm hb
    refine ⟨(⟨h.ptr_, some b⟩, σ.heap.setBlock b (some { cb with weak_ := cb.weak_ + 1 })),
      by simp [WeakPtr.fromShared, hb, IncrementWeak, hcb], ?_, hinv.2.1, ?_⟩
    · simp only [cntW_append]
      exact HeapInv_incWeak _ _ _ _ b cb hinv.1 hcb
    · intro x hx b' hxb
      rcases List.mem_append.1 hx with hx | hx
      · exact hinv.2.2 x hx b' hxb
      · simp at hx; subst hx
        simp at hxb; subst hxb
        exact hptr

theorem Inv_weakCopy (σ : World) (hinv : Inv σ) (k : Nat) (w : WeakPtr)
    (hk : σ.weak[k]? = some w) :
    ∃ r, WeakPtr.copy w σ.heap = some r ∧
      Inv { heap := r.2, shared := σ.shared, weak := σ.weak ++ [r.1], fresh := σ.fresh } := by
  have hm : w ∈ σ.weak := List.getElem?_mem hk
  cases hb : w.block_ with
  | none =>
    refine ⟨(⟨w.ptr_, none⟩, σ.heap), by simp [WeakPtr.copy, hb], ?_, hinv.2.1, ?_⟩
    · simp only [cntW_append]
      exact hinv.1
    · intro x hx b hxb
      rcases List.mem_append.1 hx with hx | hx
      · exact hinv.2.2 x hx b hxb
      · simp at hx; subst hx; simp at hxb
  | some b =>
    obtain ⟨hptr, h0, hpos, cb, hcb, -, -⟩ := weak_facts σ hinv w b hm hb
    refine ⟨(⟨w.ptr_, some b⟩, σ.heap.setBlock b (some { cb with weak_ := cb.weak_ + 1 })),
      by simp [WeakPtr.copy, hb, IncrementWeak, hcb], ?_, hinv.2.1, ?_⟩
    · simp only [cntW_append]
      exact HeapInv_incWeak _ _ _ _ b cb hinv.1 hcb
    · intro x hx b' hxb
      rcases List.mem_append.1 hx with hx | hx
      · exact hinv.2.2 x hx b' hxb
      · simp at hx; subst hx
        simp at hxb; subst hxb
        exact hptr

/-- Destroying or resetting the `WeakPtr` in slot `k`: the heap afterwards fits the
list without that handle, and no payload is destroyed. -/
theorem weak_release_slot (σ : World) (hinv : Inv σ) (k : Nat) (w : WeakPtr)
    (hk : σ.weak[k]? = some w) :
    ∃ hp1, w.destroy σ.heap = some hp1 ∧
      w.Reset σ.heap = some ({ w with block_ := none }, hp1) ∧
      HeapInv hp1 σ.fresh (cntS σ.shared) (cntW (σ.weak.eraseIdx k)) ∧
      ∀ e, (∀ b, e ≠ Event.deleteBlock b) → hp1.log.count e = σ.heap.log.count e := by
  have hm : w ∈ σ.weak := List.getElem?_mem hk
  rw [cntW_eraseIdx σ.weak k w hk]
  cases hb : w.block_ with
  | none =>
    refine ⟨σ.heap, by simp [WeakPtr.destroy, hb], ?_, hinv.1, fun _ _ => rfl⟩
    simp only [WeakPtr.Reset, hb]
    congr 2
    cases w
    simp_all
  | some b =>
    obtain ⟨-, -, hpos, -⟩ := weak_facts σ hinv w b hm hb
    obtain ⟨hp1, hd, hinv1, -, hcount⟩ := HeapInv_decWeak σ.heap σ.fresh _ _ b hinv.1 hpos
    exact ⟨hp1, by simp [WeakPtr.destroy, hb, hd], by simp [WeakPtr.Reset, hb, hd], hinv1, hcount⟩

theorem Inv_weakDestroy (σ : World) (hinv : Inv σ) (k : Nat) (w : WeakPtr)
    (hk : σ.weak[k]? = some w) :
    ∃ hp1, w.destroy σ.heap = some hp1 ∧
      Inv { heap := hp1, shared := σ.shared, weak := σ.weak.eraseIdx k, fresh := σ.fresh } := by
  obtain ⟨hp1, hd, -, hinv1, -⟩ := weak_release_slot σ hinv k w hk
  refine ⟨hp1, hd, hinv1, hinv.2.1, ?_⟩
  intro x hx
  exact hinv.2.2 x (List.mem_of_mem_eraseIdx hx)

theorem Inv_weakReset (σ : World) (hinv : Inv σ) (k : Nat) (w : WeakPtr)
    (hk : σ.weak[k]? = some w) :
    ∃ r, w.Reset σ.heap = some r ∧
      Inv { heap := r.2, shared := σ.shared, weak := σ.weak.set k r.1, fresh := σ.fresh } := by
  obtain ⟨hp1, -, hr, hinv1, -⟩ := weak_release_slot σ hinv k w hk
  refine ⟨_, hr, ?_, hinv.2.1, ?_⟩
  · simp only
    rw [cntW_set_none σ.weak k w _ hk rfl]
    exact hinv1
  · intro x hx b hxb
    rcases List.mem_or_eq_of_mem_set hx with hx | hx
    · exact hinv.2.2 x hx b hxb
    · subst hx; simp at hxb

theorem Inv_wrap (σ : World) (hinv : Inv σ) (esft : Bool) (hes : esft = false) :
    ∃ hp1, SharedPtr.fromRaw σ.fresh σ.fresh esft (newPayload σ.fresh esft σ.heap)
        = some ({ ptr_ := σ.fresh, block_ := some σ.fresh }, hp1) ∧
      Inv { heap := hp1, shared := σ.shared ++ [{ ptr_ := σ.fresh, block_ := some σ.fresh }],
            weak := σ.weak, fresh := σ.fresh + 1 } := by
  have hfree : σ.heap.blocks σ.fresh = none := by
    rcases hinv.1.2.1 σ.fresh with ⟨-, h, -⟩ | ⟨-, hlt, -⟩ | ⟨-, hlt, -⟩
    · exact h
    · omega
    · omega
  obtain ⟨hp1, he, hb1, hb2, hw1, hw2, hlog⟩ :=
    fromRaw_effect σ.fresh σ.fresh esft σ.heap hfree hes
  refine ⟨hp1, he, ?_, ?_, hinv.2.2⟩
  · simp only [cntS_append]
    exact HeapInv_new _ _ _ _ _ esft _ (Or.inr rfl) hinv.1 hb1 hb2 hw1 hw2 hlog
  · intro x hx b hxb
    rcases List.mem_append.1 hx with hx | hx
    · exact hinv.2.1 x hx b hxb
    · simp at hx; subst hx
      simp at hxb; subst hxb
      rfl

theorem Inv_makeShared (σ : World) (hinv : Inv σ) (esft : Bool) (hes : esft = false) :
    ∃ hp1, MakeShared σ.fresh σ.fresh esft σ.heap
        = some ({ ptr_ := σ.fresh, block_ := some σ.fresh }, hp1) ∧
      Inv { heap := hp1, shared := σ.shared ++ [{ ptr_ := σ.fresh, block_ := some σ.fresh }],
            weak := σ.weak, fresh := σ.fresh + 1 } := by
  have hfree : σ.heap.blocks σ.fresh = none := by
    rcases hinv.1.2.1 σ.fresh with ⟨-, h, -⟩ | ⟨-, hlt, -⟩ | ⟨-, hlt, -⟩
    · exact h
    · omega
    · omega
  have hq : σ.fresh ≠ 0 := by have := hinv.1.1; omega
  obtain ⟨hp1, he, hb1, hb2, hw1, hw2, hlog⟩ :=
    MakeShared_effect σ.fresh σ.fresh esft σ.heap hq hfree hes
  refine ⟨hp1, he, ?_, ?_, hinv.2.2⟩
  · simp only [cntS_append]
    exact HeapInv_new _ _ _ _ _ esft _ (Or.inl rfl) hinv.1 hb1 hb2 hw1 hw2 hlog
  · intro x hx b hxb
    rcases List.mem_append.1 hx with hx | hx
    · exact hinv.2.1 x hx b hxb
    · simp at hx; subst hx
      simp at hxb; subst hxb
      rfl

theorem Lock_live (w : WeakPtr) (b : Nat) (hp : Heap) (cb : ControlBlockBase)
    (hb : w.block_ = some b) (hcb : hp.blocks b = some cb) (hs : 0 < cb.strong_)
    (hw : 0 ≤ cb.weak_) :
    w.Lock hp = Res.ok { ptr_ := w.ptr_, block_ := some b }
      (hp.setBlock b (some { cb with strong_ := cb.strong_ + 1 })) := by
  have hne : toSizeT cb.strong_ ≠ 0 := by
    rw [Ne, toSizeT_eq_zero_iff _ (le_of_lt hs)]; omega
  have h1 : ¬ (cb.weak_ + (cb.strong_ + 1) = 0) := by omega
  simp [WeakPtr.Lock, WeakPtr.Expired, WeakPtr.UseCount, GetStrong, hb, hcb, hne,
    WeakPtr.copy, IncrementWeak, SharedPtr.fromWeak, ExistsStrong, hs, IncrementStrong,
    WeakPtr.destroy, DecrementWeak, h1, setBlock_setBlock]

theorem Lock_expired (w : WeakPtr) (b : Nat) (hp : Heap) (cb : ControlBlockBase)
    (hb : w.block_ = some b) (hcb : hp.blocks b = some cb) (hs : cb.strong_ = 0) :
    w.Lock hp = Res.ok SharedPtr.default hp := by
  have hz : toSizeT cb.strong_ = 0 := by rw [hs]; rfl
  simp [WeakPtr.Lock, WeakPtr.Expired, WeakPtr.UseCount, GetStrong, hb, hcb, hz]

theorem Lock_empty (w : WeakPtr) (hp : Heap) (hb : w.block_ = none) :
    w.Lock hp = Res.ok SharedPtr.default hp := by
  simp [WeakPtr.Lock, WeakPtr.Expired, WeakPtr.UseCount, hb]

theorem Inv_append_empty (σ : World) (hinv : Inv σ) (h : SharedPtr) (hb : h.block_ = none) :
    Inv { heap := σ.heap, shared := σ.shared ++ [h], weak := σ.weak, fresh := σ.fresh } := by
  refine ⟨?_, ?_, hinv.2.2⟩
  · simp only [cntS_append, hb]
    exact hinv.1
  · intro x hx b hxb
    rcases List.mem_append.1 hx with hx | hx
    · exact hinv.2.1 x hx b hxb
    · simp at hx; subst hx; rw [hb] at hxb; cases hxb

theorem Inv_append_promoted (σ : World) (hinv : Inv σ) (w : WeakPtr) (b : Nat)
    (cb : ControlBlockBase) (hm : w ∈ σ.weak) (hb : w.block_ = some b)
    (hcb : σ.heap.blocks b = some cb) (hs : 0 < cb.strong_) :
    Inv { heap := σ.heap.setBlock b (some { cb with strong_ := cb.strong_ + 1 }),
          shared := σ.shared ++ [{ ptr_ := w.ptr_, block_ := some b }],
          weak := σ.weak, fresh := σ.fresh } := by
  obtain ⟨hptr, -, -, cb1, hcb1, hs1, -⟩ := weak_facts σ hinv w b hm hb
  rw [hcb] at hcb1
  cases hcb1
  have hpos : 0 < cntS σ.shared b := by omega
  refine ⟨?_, ?_, hinv.2.2⟩
  · simp only [cntS_append]
    exact HeapInv_incStrong _ _ _ _ b cb hinv.1 hcb hpos
  · intro x hx b' hxb
    rcases List.mem_append.1 hx with hx | hx
    · exact hinv.2.1 x hx b' hxb
    · simp at hx; subst hx
      simp at hxb; subst hxb
      exact hptr

theorem Inv_weakLock (σ : World) (hinv : Inv σ) (k : Nat) (w : WeakPtr)
    (hk : σ.weak[k]? = some w) :
    ∃ h hp1, w.Lock σ.heap = Res.ok h hp1 ∧ hp1.log = σ.heap.log ∧
      Inv { heap := hp1, shared := σ.shared ++ [h], weak := σ.weak, fresh := σ.fresh } := by
  have hm : w ∈ σ.weak := List.getElem?_mem hk
  cases hb : w.block_ with
  | none =>
    exact ⟨_, _, Lock_empty w σ.heap hb, rfl, Inv_append_empty σ hinv _ rfl⟩
  | some b =>
    obtain ⟨-, -, -, cb, hcb, hs, hw⟩ := weak_facts σ hinv w b hm hb
    by_cases hz : cb.strong_ = 0
    · exact ⟨_, _, Lock_expired w b σ.heap cb hb hcb hz, rfl, Inv_append_empty σ hinv _ rfl⟩
    · have hpos : 0 < cb.strong_ := by omega
      exact ⟨_, _, Lock_live w b σ.heap cb hb hcb hpos hw, rfl,
        Inv_append_promoted σ hinv w b cb hm hb hcb hpos⟩

theorem Inv_promote (σ : World) (hinv : Inv σ) (k : Nat) (w : WeakPtr)
    (hk : σ.weak[k]? = some w) :
    (∃ h hp1, SharedPtr.fromWeak w σ.heap = Res.ok h hp1 ∧
      Inv { heap := hp1, shared := σ.shared ++ [h], weak := σ.weak, fresh := σ.fresh }) ∨
    SharedPtr.fromWeak w σ.heap = Res.badWeakPtr σ.heap := by
  have hm : w ∈ σ.weak := List.getElem?_mem hk
  cases hb : w.block_ with
  | none =>
    left
    exact ⟨⟨w.ptr_, none⟩, σ.heap, by simp [SharedPtr.fromWeak, hb],
      Inv_append_empty σ hinv _ rfl⟩
  | some b =>
    obtain ⟨-, -, -, cb, hcb, hs, hw⟩ := weak_facts σ hinv w b hm hb
    by_cases hpos : 0 < cb.strong_
    · left
      exact ⟨_, _, by simp [SharedPtr.fromWeak, hb, ExistsStrong, hcb, hpos, IncrementStrong],
        Inv_append_promoted σ hinv w b cb hm hb hcb hpos⟩
    · right
      simp [SharedPtr.fromWeak, hb, ExistsStrong, hcb, hpos]

theorem weak_observers (σ : World) (hinv : Inv σ) (k : Nat) (w : WeakPtr)
    (hk : σ.weak[k]? = some w) :
    (∃ n, w.UseCount σ.heap = some n) ∧ ∃ e, w.Expired σ.heap = some e := by
  have hm : w ∈ σ.weak := List.getElem?_mem hk
  cases hb : w.block_ with
  | none => simp [WeakPtr.Expired, WeakPtr.UseCount, hb]
  | some b =>
    obtain ⟨-, -, -, cb, hcb, -, -⟩ := weak_facts σ hinv w b hm hb
    simp [WeakPtr.Expired, WeakPtr.UseCount, hb, GetStrong, hcb]

theorem Inv_init : Inv World.init := by
  refine ⟨⟨le_refl _, ?_, fun b => Ordered_nil b⟩, ?_, ?_⟩
  · intro b
    left
    refine ⟨by simp only [World.init]; omega, rfl, rfl, rfl, rfl, rfl, rfl⟩
  · intro h hm; simp [World.init] at hm
  · intro w hm; simp [World.init] at hm

/-- A step that succeeds keeps the invariant. -/
theorem step_inv (σ σ1 : World) (op : Op) (hinv : Inv σ) (hstep : step σ op = some σ1) :
    Inv σ1 := by
  cases op with
  | wrap esft =>
    cases esft with
    | true =>
      have hnone : SharedPtr.fromRaw σ.fresh σ.fresh true (newPayload σ.fresh true σ.heap)
          = none := by
        unfold SharedPtr.fromRaw
        split <;> simp [linkWeakThis]
      simp [step, hnone] at hstep
    | false =>
      obtain ⟨hp1, he, h⟩ := Inv_wrap σ hinv false rfl
      simp only [step, he, Option.map_some', Option.some.injEq] at hstep
      subst hstep; exact h
  | makeShared esft =>
    cases esft with
    | true =>
      have hnone : MakeShared σ.fresh σ.fresh true σ.heap = none := by
        unfold MakeShared
        split
        · rfl
        · split <;> simp [SharedPtr.fromBlock, linkWeakThis]
      simp [step, hnone] at hstep
    | false =>
      obtain ⟨hp1, he, h⟩ := Inv_makeShared σ hinv false rfl
      simp only [step, he, Option.map_some', Option.some.injEq] at hstep
      subst hstep; exact h
  | sharedCopy i =>
    cases hi : σ.shared[i]? with
    | none => simp [step, hi] at hstep
    | some h =>
      obtain ⟨r, he, hr⟩ := Inv_sharedCopy σ hinv i h hi
      simp only [step, hi, he, Option.map_some', Option.some.injEq] at hstep
      subst hstep; exact hr
  | sharedAssign i j =>
    cases hi : σ.shared[i]? with
    | none => simp [step, hi] at hstep
    | some h =>
      cases hj : σ.shared[j]? with
      | none => simp [step, hi, hj] at hstep
      | some h2 =>
        by_cases hij : i = j
        · simp only [step, hi, hj, hij, ↓reduceIte, Option.some.injEq] at hstep
          subst hstep; exact hinv
        · obtain ⟨r, he, -, hr⟩ := Inv_sharedAssign σ hinv i j h h2 hij hi hj
          simp only [step, hi, hj, hij, ↓reduceIte, he, Option.map_some',
            Option.some.injEq] at hstep
          subst hstep; exact hr
  | sharedDestroy i =>
    cases hi : σ.shared[i]? with
    | none => simp [step, hi] at hstep
    | some h =>
      obtain ⟨r, he, hr⟩ := Inv_sharedDestroy σ hinv i h hi
      simp only [step, hi, he, Option.map_some', Option.some.injEq] at hstep
      subst hstep; exact hr
  | weakFromShared i =>
    cases hi : σ.shared[i]? with
    | none => simp [step, hi] at hstep
    | some h =>
      obtain ⟨r, he, hr⟩ := Inv_weakFromShared σ hinv i h hi
      simp only [step, hi, he, Option.map_some', Option.some.injEq] at hstep
      subst hstep; exact hr
  | weakCopy k =>
    cases hk : σ.weak[k]? with
    | none => simp [step, hk] at hstep
    | some w =>
      obtain ⟨r, he, hr⟩ := Inv_weakCopy σ hinv k w hk
      simp only [step, hk, he, Option.map_some', Option.some.injEq] at hstep
      subst hstep; exact hr
  | weakUseCount k =>
    cases hk : σ.weak[k]? with
    | none => simp [step, hk] at hstep
    | some w =>
      obtain ⟨⟨n, hn⟩, -⟩ := weak_observers σ hinv k w hk
      simp only [step, hk, hn, Option.map_some', Option.some.injEq] at hstep
      subst hstep; exact hinv
  | weakExpired k =>
    cases hk : σ.weak[k]? with
    | none => simp [step, hk] at hstep
    | some w =>
      obtain ⟨-, ⟨n, hn⟩⟩ := weak_observers σ hinv k w hk
      simp only [step, hk, hn, Option.map_some', Option.some.injEq] at hstep
      subst hstep; exact hinv
  | weakLock k =>
    cases hk : σ.weak[k]? with
    | none => simp [step, hk] at hstep
    | some w =>
      obtain ⟨h, hp1, he, -, hr⟩ := Inv_weakLock σ hinv k w hk
      simp only [step, hk, he, Option.some.injEq] at hstep
      subst hstep; exact hr
  | weakReset k =>
    cases hk : σ.weak[k]? with
    | none => simp [step, hk] at hstep
    | some w =>
      obtain ⟨r, he, hr⟩ := Inv_weakReset σ hinv k w hk
      simp only [step, hk, he, Option.map_some', Option.some.injEq] at hstep
      subst hstep; exact hr
  | weakDestroy k =>
    cases hk : σ.weak[k]? with
    | none => simp [step, hk] at hstep
    | some w =>
      obtain ⟨r, he, hr⟩ := Inv_weakDestroy σ hinv k w hk
      simp only [step, hk, he, Option.map_some', Option.some.injEq] at hstep
      subst hstep; exact hr
  | promote k =>
    cases hk : σ.weak[k]? with
    | none => simp [step, hk] at hstep
    | some w =>
      rcases Inv_promote σ hinv k w hk with ⟨h, hp1, he, hr⟩ | he
      · simp only [step, hk, he, Option.some.injEq] at hstep
        subst hstep; exact hr
      · simp only [step, hk, he, Option.some.injEq] at hstep
        subst hstep; exact hinv

theorem run_inv (ops : List Op) (σ σ1 : World) (hinv : Inv σ) (hrun : run σ ops = some σ1) :
    Inv σ1 := by
  induction ops generalizing σ with
  | nil =>
    simp only [run, Option.some.injEq] at hrun
    subst hrun; exact hinv
  | cons op rest ih =>
    cases hs : step σ op with
    | none => simp [run, hs] at hrun
    | some σ2 =>
      simp only [run, hs] at hrun
      exact ih σ2 (step_inv σ σ2 op hinv hs) hrun

theorem toSizeT_natCast (n : Nat) : toSizeT (n : Int) = n := by
  unfold toSizeT
  rw [if_pos (by omega)]
  omega

theorem weak_step_log (σ σ1 : World) (op : Op) (hinv : Inv σ) (hop : op.onWeak = true)
    (hstep : step σ op = some σ1) (e : Event) (he : ∀ b, e ≠ Event.deleteBlock b) :
    σ1.heap.log.count e = σ.heap.log.count e := by
  cases op with
  | weakUseCount k =>
    cases hk : σ.weak[k]? with
    | none => simp [step, hk] at hstep
    | some w =>
      obtain ⟨⟨n, hn⟩, -⟩ := weak_observers σ hinv k w hk
      simp only [step, hk, hn, Option.map_some', Option.some.injEq] at hstep
      subst hstep; rfl
  | weakExpired k =>
    cases hk : σ.weak[k]? with
    | none => simp [step, hk] at hstep
    | some w =>
      obtain ⟨-, ⟨n, hn⟩⟩ := weak_observers σ hinv k w hk
      simp only [step, hk, hn, Option.map_some', Option.some.injEq] at hstep
      subst hstep; rfl
  | weakLock k =>
    cases hk : σ.weak[k]? with
    | none => simp [step, hk] at hstep
    | some w =>
      obtain ⟨h, hp1, hl, hlog, -⟩ := Inv_weakLock σ hinv k w hk
      simp only [step, hk, hl, Option.some.injEq] at hstep
      subst hstep
      simp only [hlog]
  | weakReset k =>
    cases hk : σ.weak[k]? with
    | none => simp [step, hk] at hstep
    | some w =>
      obtain ⟨hp1, -, hr, -, hc⟩ := weak_release_slot σ hinv k w hk
      simp only [step, hk, hr, Option.map_some', Option.some.injEq] at hstep
      subst hstep
      exact hc e he
  | weakDestroy k =>
    cases hk : σ.weak[k]? with
    | none => simp [step, hk] at hstep
    | some w =>
      obtain ⟨hp1, hd, -, -, hc⟩ := weak_release_slot σ hinv k w hk
      simp only [step, hk, hd, Option.map_some', Option.some.injEq] at hstep
      subst hstep
      exact hc e he
  | wrap _ => cases hop
  | makeShared _ => cases hop
  | sharedCopy _ => cases hop
  | sharedAssign _ _ => cases hop
  | sharedDestroy _ => cases hop
  | weakFromShared _ => cases hop
  | weakCopy _ => cases hop
  | promote _ => cases hop

theorem weak_run_log (ops : List Op) (σ σ1 : World) (hinv : Inv σ)
    (hops : ∀ op ∈ ops, op.onWeak = true) (hrun : run σ ops = some σ1) (p : Ptr) :
    payloadEvents p σ1.heap.log = payloadEvents p σ.heap.log := by
  induction ops generalizing σ with
  | nil =>
    simp only [run, Option.some.injEq] at hrun
    subst hrun; rfl
  | cons op rest ih =>
    cases hs : step σ op with
    | none => simp [run, hs] at hrun
    | some σ2 =>
      simp only [run, hs] at hrun
      have h1 := ih σ2 (step_inv σ σ2 op hinv hs)
        (fun o ho => hops o (List.mem_cons_of_mem _ ho)) hrun
      have hop := hops op (List.mem_cons_self _ _)
      have h2 := weak_step_log σ σ2 op hinv hop hs (Event.deletePayload p) (by intro b h; cases h)
      have h3 := weak_step_log σ σ2 op hinv hop hs (Event.destroyInPlace p) (by intro b h; cases h)
      rw [h1]
      simp only [payloadEvents, h2, h3]

theorem weak_step_defined (σ : World) (hinv : Inv σ) (k : Nat) (hk : k < σ.weak.length) :
    (∃ σ1, step σ (Op.weakUseCount k) = some σ1) ∧
    (∃ σ1, step σ (Op.weakExpired k) = some σ1) ∧
    (∃ σ1, step σ (Op.weakLock k) = some σ1) ∧
    (∃ σ1, step σ (Op.weakReset k) = some σ1) ∧
    (∃ σ1, step σ (Op.weakDestroy k) = some σ1) := by
  have hw : σ.weak[k]? = some σ.weak[k] := List.getElem?_eq_getElem hk
  obtain ⟨⟨n, hn⟩, ⟨e, he⟩⟩ := weak_observers σ hinv k _ hw
  obtain ⟨h, hp1, hl, -, -⟩ := Inv_weakLock σ hinv k _ hw
  obtain ⟨hp2, hd, hr, -, -⟩ := weak_release_slot σ hinv k _ hw
  refine ⟨?_, ?_, ?_, ?_, ?_⟩
  · simp only [step, hw, hn, Option.map_some']
    exact ⟨_, rfl⟩
  · simp only [step, hw, he, Option.map_some']
    exact ⟨_, rfl⟩
  · simp only [step, hw, hl]
    exact ⟨_, rfl⟩
  · simp only [step, hw, hr, Option.map_some']
    exact ⟨_, rfl⟩
  · simp only [step, hw, hd, Option.map_some']
    exact ⟨_, rfl⟩

theorem step_fresh (σ σ1 : World) (op : Op) (hstep : step σ op = some σ1) :
    σ.fresh ≤ σ1.fresh := by
  cases op <;> simp only [step] at hstep <;> (repeat' split at hstep) <;>
    simp only [Option.map_eq_some', Option.some.injEq, reduceCtorEq] at hstep
  all_goals
    obtain ⟨_, _, rfl⟩ := hstep
    simp

theorem DecrementStrong_unlinked (b : Nat) (hp : Heap) (cb : ControlBlockBase)
    (hcb : hp.blocks b = some cb) (hs : cb.strong_ = 1) (hun : Unlinked hp cb) :
    ∃ hp1, DecrementStrong b hp = some hp1 ∧
      hp1.blocks b = (if cb.weak_ = 0 then none
        else some { strong_ := 0, weak_ := cb.weak_, impl := cb.impl.afterZeroStrong }) ∧
      (∀ i, i ≠ b → hp1.blocks i = hp.blocks i) ∧
      hp1.log = hp.log ++ cb.impl.zeroStrongEvents ++
        (if cb.weak_ = 0 then [Event.deleteBlock b] else []) := by
  apply exists_of_match
  obtain ⟨s, w, impl⟩ := cb
  simp only at hs
  subst hs
  unfold Unlinked at hun
  simp only [BlockImpl.payload] at hun
  cases impl with
  | pointer tmp =>
    by_cases ht : tmp = 0
    · subst ht
      by_cases hw : w = 0 <;>
        simp +contextual [DecrementStrong, hcb, hw, ZeroStrong, ZeroWeak, Heap.setBlock,
          Heap.emit, BlockImpl.afterZeroStrong, BlockImpl.zeroStrongEvents]
    · rcases hun with h | h | ⟨p, h⟩
      · simp at h; exact absurd h ht
      · simp only [BlockImpl.payload] at h
        by_cases hw : w = 0 <;>
          simp +contextual [DecrementStrong, hcb, hw, ZeroStrong, ZeroWeak, Heap.setBlock,
            Heap.emit, BlockImpl.afterZeroStrong, BlockImpl.zeroStrongEvents, ht,
            destroyPayload, h]
      · simp only [BlockImpl.payload] at h
        by_cases hw : w = 0 <;>
          simp +contextual [DecrementStrong, hcb, hw, ZeroStrong, ZeroWeak, Heap.setBlock,
            Heap.emit, BlockImpl.afterZeroStrong, BlockImpl.zeroStrongEvents, ht,
            destroyPayload, h, WeakPtr.destroy, Heap.setWeakThis]
  | emplace q =>
    rcases hun with h | h | ⟨p, h⟩
    · simp at h
    · simp only [BlockImpl.payload] at h
      by_cases hw : w = 0 <;>
        simp +contextual [DecrementStrong, hcb, hw, ZeroStrong, ZeroWeak, Heap.setBlock,
          Heap.emit, BlockImpl.afterZeroStrong, BlockImpl.zeroStrongEvents,
          destroyPayload, h]
    · simp only [BlockImpl.payload] at h
      by_cases hw : w = 0 <;>
        simp +contextual [DecrementStrong, hcb, hw, ZeroStrong, ZeroWeak, Heap.setBlock,
          Heap.emit, BlockImpl.afterZeroStrong, BlockImpl.zeroStrongEvents,
          destroyPayload, h, WeakPtr.destroy, Heap.setWeakThis]

/-- The destruction of the last owner of a group whose payload holds no link: the handle
is emptied and the payload event is logged. -/
theorem Reset_last_unlinked (d : SharedPtr) (bd : Nat) (cb : ControlBlockBase) (hp : Heap)
    (hd : d.block_ = some bd) (hptr : d.ptr_ ≠ 0) (hcb : hp.blocks bd = some cb)
    (hs : cb.strong_ = 1) (hun : Unlinked hp cb) :
    ∃ hp1, d.Reset hp = some (SharedPtr.default, hp1) ∧
      (∀ i, i ≠ bd → hp1.blocks i = hp.blocks i) ∧
      hp1.log = hp.log ++ cb.impl.zeroStrongEvents ++
        (if cb.weak_ = 0 then [Event.deleteBlock bd] else []) := by
  obtain ⟨hp1, e1, -, e3, e4⟩ := DecrementStrong_unlinked bd hp cb hcb hs hun
  exact ⟨hp1, by simp [SharedPtr.Reset, hd, hptr, GetStrong, hcb, hs, e1, SharedPtr.default],
    e3, e4⟩

theorem payloadEvents_zeroStrong (p : Ptr) (impl : BlockImpl) (tail : List Event) (l : List Event)
    (hpay : impl = BlockImpl.pointer p ∨ impl = BlockImpl.emplace p) (hp0 : p ≠ 0)
    (htail : payloadEvents p tail = 0) :
    payloadEvents p (l ++ impl.zeroStrongEvents ++ tail) = payloadEvents p l + 1 := by
  rw [payloadEvents_append, payloadEvents_append, htail]
  rcases hpay with h | h <;> subst h
  · simp only [BlockImpl.zeroStrongEvents, hp0, ↓reduceIte, payloadEvents_deletePayload]
  · simp only [BlockImpl.zeroStrongEvents, ↓reduceIte, payloadEvents_destroyInPlace]

/-- A member of the payload that the last owner releases cannot be read afterwards. -/
theorem read_member_after_Reset (d v : SharedPtr) (bd : Nat) (cb : ControlBlockBase) (p : Ptr)
    (hp : Heap) (hd : d.block_ = some bd) (hptr : d.ptr_ ≠ 0) (hcb : hp.blocks bd = some cb)
    (hs : cb.strong_ = 1) (hpay : cb.impl = BlockImpl.pointer p ∨ cb.impl = BlockImpl.emplace p)
    (hp0 : p ≠ 0) (hun : Unlinked hp cb) :
    ∃ hp1, d.Reset hp = some (SharedPtr.default, hp1) ∧
      payloadEvents p hp1.log = payloadEvents p hp.log + 1 ∧
      (SharedRef.member p v).read hp hp1 = none := by
  obtain ⟨hp1, e1, -, e3⟩ := Reset_last_unlinked d bd cb hp hd hptr hcb hs hun
  have hev : payloadEvents p hp1.log = payloadEvents p hp.log + 1 := by
    rw [e3]
    apply payloadEvents_zeroStrong p cb.impl _ _ hpay hp0
    by_cases hw : cb.weak_ = 0 <;> simp [hw, payloadEvents]
  exact ⟨hp1, e1, hev, by simp [SharedRef.read, hev]⟩

/-! ## The claims -/

/-- Programs whose handles are variables of the client.  In every state that a program of
wrapping, `MakeShared`, copy construction, copy assignment and destruction of `SharedPtr`
handles (interleaved with any `WeakPtr` operations) reaches, each live handle with a control
block reports `UseCount()` equal to the number of live `SharedPtr` handles on that block,
which is at least 1; destroying any one of them succeeds, removes one handle, and every
remaining handle of the group then reports a count lower by exactly 1. -/
theorem client_handles_counted (ops : List Op) (σ : World)
    (hrun : run World.init ops = some σ) :
    (∀ h ∈ σ.shared, ∀ b, h.block_ = some b →
      h.UseCount σ.heap = some (cntS σ.shared b) ∧ 1 ≤ cntS σ.shared b) ∧
    (∀ i h b, σ.shared[i]? = some h → h.block_ = some b →
      ∃ σ1, step σ (Op.sharedDestroy i) = some σ1 ∧
        σ1.shared = σ.shared.eraseIdx i ∧
        cntS σ1.shared b + 1 = cntS σ.shared b ∧
        ∀ h1 ∈ σ1.shared, h1.block_ = some b →
          ∃ n, h.UseCount σ.heap = some (n + 1) ∧ h1.UseCount σ1.heap = some n) := by
  have hinv := run_inv ops _ σ Inv_init hrun
  have huse : ∀ τ : World, Inv τ → ∀ h ∈ τ.shared, ∀ b, h.block_ = some b →
      h.UseCount τ.heap = some (cntS τ.shared b) ∧ 1 ≤ cntS τ.shared b := by
    intro τ hτ h hm b hb
    obtain ⟨-, -, hpos, cb, hcb, hs, -⟩ := shared_facts τ hτ h b hm hb
    refine ⟨?_, hpos⟩
    simp [SharedPtr.UseCount, hb, GetStrong, hcb, hs, toSizeT_natCast]
  refine ⟨huse σ hinv, ?_⟩
  intro i h b hi hb
  obtain ⟨hp1, hd, hinv1⟩ := Inv_sharedDestroy σ hinv i h hi
  have hm : h ∈ σ.shared := List.getElem?_mem hi
  have hcnt : cntS (σ.shared.eraseIdx i) b + 1 = cntS σ.shared b := by
    have h1 := (huse σ hinv h hm b hb).2
    rw [cntS_eraseIdx σ.shared i h hi, hb]
    simp only [drop, ↓reduceIte]
    omega
  refine ⟨{ heap := hp1, shared := σ.shared.eraseIdx i, weak := σ.weak, fresh := σ.fresh },
    by simp only [step, hi, hd, Option.map_some'], rfl, hcnt, ?_⟩
  intro h1 hm1 hb1
  refine ⟨cntS (σ.shared.eraseIdx i) b, ?_, (huse _ hinv1 h1 hm1 b hb1).1⟩
  rw [(huse σ hinv h hm b hb).1, hcnt]

/-- The count of `client_handles_counted` at the world reached by `demoOps`. -/
theorem client_handles_counted_demo :
    run World.init demoOps = some demoWorld ∧
    ∀ h ∈ demoWorld.shared, ∀ b, h.block_ = some b →
      h.UseCount demoWorld.heap = some (cntS demoWorld.shared b) ∧
        1 ≤ cntS demoWorld.shared b :=
  ⟨rfl, (client_handles_counted demoOps demoWorld rfl).1⟩

/-- C1 fails on the code. `operator=(const SharedPtr&)` runs `Reset()` before it reads the
source.  When the destination is the last owner of the payload at `p` and the source is a
member of that payload, as in `d = d->next`, `Reset()` destroys the payload and the source
with it, and the members of the source are read after its lifetime: the assignment has no
defined result and the destination does not become a handle of the source's group.  From a
source outside the payloads, copy construction and copy assignment give a handle with the
source's pointer on the source's block and raise its strong count by exactly 1. -/
theorem c01_copy_assign_releases_before_reading (v : SharedPtr) (hp : Heap) :
    (∀ (d : SharedPtr) (bd : Nat) (cb : ControlBlockBase) (p : Ptr),
      d.block_ = some bd → d.ptr_ ≠ 0 → hp.blocks bd = some cb → cb.strong_ = 1 →
      (cb.impl = BlockImpl.pointer p ∨ cb.impl = BlockImpl.emplace p) → p ≠ 0 →
      Unlinked hp cb →
      (∃ hp1, d.Reset hp = some (SharedPtr.default, hp1) ∧
        payloadEvents p hp1.log = payloadEvents p hp.log + 1 ∧
        (SharedRef.member p v).read hp hp1 = none) ∧
      SharedPtr.copyAssign d (SharedRef.member p v) hp = none) ∧
    (∀ (bs : Nat) (cbs : ControlBlockBase), v.block_ = some bs → hp.blocks bs = some cbs →
      SharedPtr.copy v hp
        = some ({ ptr_ := v.ptr_, block_ := some bs },
            hp.setBlock bs (some { cbs with strong_ := cbs.strong_ + 1 })) ∧
      (∀ d : SharedPtr, d.block_ = none →
        SharedPtr.copyAssign d (SharedRef.client v) hp
          = some ({ ptr_ := v.ptr_, block_ := some bs },
              hp.setBlock bs (some { cbs with strong_ := cbs.strong_ + 1 }))) ∧
      (∀ (d : SharedPtr) (bd : Nat) (cbd : ControlBlockBase),
        d.block_ = some bd → bs ≠ bd → hp.blocks bd = some cbd → LinkOK hp bd cbd →
        ∃ d0 hp1, d.Reset hp = some (d0, hp1) ∧
          SharedPtr.copyAssign d (SharedRef.client v) hp
            = some ({ ptr_ := v.ptr_, block_ := some bs },
                hp1.setBlock bs (some { cbs with strong_ := cbs.strong_ + 1 })))) := by
  refine ⟨fun d bd cb p hd hptr hcb hs hpay hp0 hun => ?_, fun bs cbs hv hcbs => ⟨?_, ?_, ?_⟩⟩
  · obtain ⟨hp1, e1, e2, e3⟩ := read_member_after_Reset d v bd cb p hp hd hptr hcb hs hpay hp0 hun
    exact ⟨⟨hp1, e1, e2, e3⟩, by simp [SharedPtr.copyAssign, e1, e3]⟩
  · simp [SharedPtr.copy, hv, IncrementStrong, hcbs]
  · intro d hd
    simp [SharedPtr.copyAssign, SharedPtr.Reset, hd, SharedRef.read, hv, IncrementStrong, hcbs]
  · intro d bd cbd hd hne hcb hlink
    obtain ⟨d0, hp1, h1, h2⟩ := Reset_frame d bd cbd hp hd hcb hlink
    have hcbs1 : hp1.blocks bs = some cbs := by rw [h2 bs hne]; exact hcbs
    exact ⟨d0, hp1, h1,
      by simp [SharedPtr.copyAssign, h1, SharedRef.read, hv, IncrementStrong, hcbs1]⟩

/-- The failing input of C1: in `twoGroups` the handle `d` is the only owner of the payload
at `100`, whose member holds the only handle on block `2`, and `d = d->next` is run. -/
theorem c01_witness :
    (∃ hp1, SharedPtr.Reset { ptr_ := 100, block_ := some 1 } twoGroups
        = some (SharedPtr.default, hp1) ∧
      payloadEvents 100 hp1.log = payloadEvents 100 twoGroups.log + 1 ∧
      (SharedRef.member 100 { ptr_ := 200, block_ := some 2 }).read twoGroups hp1 = none) ∧
    SharedPtr.copyAssign { ptr_ := 100, block_ := some 1 }
      (SharedRef.member 100 { ptr_ := 200, block_ := some 2 }) twoGroups = none :=
  (c01_copy_assign_releases_before_reading { ptr_ := 200, block_ := some 2 } twoGroups).1
    { ptr_ := 100, block_ := some 1 } 1 ⟨1, 0, BlockImpl.pointer 100⟩ 100 rfl (by decide) rfl rfl
    (Or.inl rfl) (by decide) (Or.inr (Or.inl rfl))

/-- C2. In every reachable state, when `shared[i]` is the last `SharedPtr` of its group
(`strong_ = 1`) and any number `cntW σ.weak b` of `WeakPtr` handles observe the group:
no destruction of the payload has been logged yet; destroying the handle succeeds and logs
exactly one destruction of the payload, `delete` for a `ControlBlockPointerImpl` and the
in-place destructor for a `ControlBlockEmplaceImpl`; and after any later sequence of
`UseCount`, `Expired`, `Lock`, `Reset` and destructions of `WeakPtr` handles the log still
holds exactly one destruction of that payload, each such operation on a live `WeakPtr` being
defined. -/
theorem c02_last_owner_destroys_payload_once (ops : List Op) (σ : World) (i : Nat)
    (h : SharedPtr) (b : Nat) (cb : ControlBlockBase) (hrun : run World.init ops = some σ)
    (hi : σ.shared[i]? = some h) (hb : h.block_ = some b)
    (hcb : σ.heap.blocks b = some cb) (hlast : cb.strong_ = 1) :
    h.Get ≠ 0 ∧ payloadEvents h.Get σ.heap.log = 0 ∧
    ∃ σ1, step σ (Op.sharedDestroy i) = some σ1 ∧ σ1.weak = σ.weak ∧
      (∃ e, (e = Event.deletePayload h.Get ∧ cb.impl = BlockImpl.pointer h.Get ∨
             e = Event.destroyInPlace h.Get ∧ cb.impl = BlockImpl.emplace h.Get) ∧
        σ1.heap.log = σ.heap.log ++
          e :: (if cntW σ.weak b = 0 then [Event.deleteBlock b] else [])) ∧
      payloadEvents h.Get σ1.heap.log = 1 ∧
      ∀ (wops : List Op) (σ2 : World), (∀ op ∈ wops, op.onWeak = true) →
        run σ1 wops = some σ2 →
        payloadEvents h.Get σ2.heap.log = 1 ∧
        ∀ k, k < σ2.weak.length →
          (∃ σ3, step σ2 (Op.weakUseCount k) = some σ3) ∧
          (∃ σ3, step σ2 (Op.weakExpired k) = some σ3) ∧
          (∃ σ3, step σ2 (Op.weakLock k) = some σ3) ∧
          (∃ σ3, step σ2 (Op.weakReset k) = some σ3) ∧
          (∃ σ3, step σ2 (Op.weakDestroy k) = some σ3) := by
  have hinv := run_inv ops _ σ Inv_init hrun
  have hm : h ∈ σ.shared := List.getElem?_mem hi
  obtain ⟨hptr, h0, hpos, cb1, hcb1, hs, -⟩ := shared_facts σ hinv h b hm hb
  rw [hcb] at hcb1
  cases hcb1
  have hn1 : cntS σ.shared b = 1 := by omega
  obtain ⟨cb2, hp1, hcb2, -, -, hd, hinv1, -, hlast1⟩ :=
    HeapInv_decStrong σ.heap σ.fresh _ _ b hinv.1 hpos
  rw [hcb] at hcb2
  cases hcb2
  obtain ⟨hP0, e, he, hlog⟩ := hlast1 hn1
  have hp0 : h.ptr_ ≠ 0 := by rw [hptr]; exact h0
  have hdes : h.destroy σ.heap = some hp1 := by
    simp [SharedPtr.destroy, SharedPtr.Reset, hb, hp0, GetStrong, hcb, hlast, hd]
  obtain ⟨hp2, hd2, hinvσ1⟩ := Inv_sharedDestroy σ hinv i h hi
  rw [hdes] at hd2
  cases hd2
  have hP1 : payloadEvents b hp1.log = 1 := by
    have hpe : payloadEvents b [e] = 1 := by
      rcases he with ⟨a, _⟩ | ⟨a, _⟩ <;> subst a
      · simp [payloadEvents_deletePayload]
      · simp [payloadEvents_destroyInPlace]
    rw [hlog, show e :: (if cntW σ.weak b = 0 then [Event.deleteBlock b] else [])
      = [e] ++ (if cntW σ.weak b = 0 then [Event.deleteBlock b] else []) from rfl,
      payloadEvents_append, payloadEvents_append, hP0, hpe]
    by_cases hn : cntW σ.weak b = 0
    · simp [hn, payloadEvents_deleteBlock]
    · simp [hn, payloadEvents]
  simp only [SharedPtr.Get, hptr]
  refine ⟨h0, hP0,
    { heap := hp1, shared := σ.shared.eraseIdx i, weak := σ.weak, fresh := σ.fresh },
    by simp only [step, hi, hdes, Option.map_some'], rfl, ⟨e, he, hlog⟩, hP1, ?_⟩
  intro wops σ2 hops hrun2
  refine ⟨?_, ?_⟩
  · rw [weak_run_log wops _ σ2 hinvσ1 hops hrun2 b]
    exact hP1
  · intro k hk
    exact weak_step_defined σ2 (run_inv wops _ σ2 hinvσ1 hrun2) k hk

/-- The statement of C2 at a group with one owner and two observers. -/
theorem c02_witness :
    payloadEvents 1 lastOwnerWorld.heap.log = 0 ∧
    ∃ σ1, step lastOwnerWorld (Op.sharedDestroy 0) = some σ1 ∧
      payloadEvents 1 σ1.heap.log = 1 ∧
      ∀ (wops : List Op) (σ2 : World), (∀ op ∈ wops, op.onWeak = true) →
        run σ1 wops = some σ2 → payloadEvents 1 σ2.heap.log = 1 := by
  obtain ⟨-, h0, σ1, hs, -, -, h1, h2⟩ :=
    c02_last_owner_destroys_payload_once lastOwnerOps lastOwnerWorld 0 ⟨1, some 1⟩ 1
      ⟨1, 2, BlockImpl.pointer 1⟩ rfl rfl rfl rfl rfl
  exact ⟨h0, σ1, hs, h1, fun wops σ2 ho hr => (h2 wops σ2 ho hr).1⟩

/-- C3. In every reachable state and for every group `b` ever created: while the control
block is live, `strong_` and `weak_` equal the numbers of live `SharedPtr` and `WeakPtr`
handles (plus the payload's own `weak_this_`), their sum is positive, and no deallocation of
the block is logged; once the block is gone no handle refers to it and the log holds exactly
one deallocation of it; in the log a deallocation of the block always comes after a
destruction of its payload; and a step deallocates a live block exactly when no strong and no
weak handle on it remains afterwards. -/
theorem c03_block_freed_once_at_zero (ops : List Op) (σ : World) (b : Nat)
    (hrun : run World.init ops = some σ)
    (hb0 : b ≠ 0) (hb1 : b < σ.fresh) :
    (∀ cb, σ.heap.blocks b = some cb →
      cb.strong_ = cntS σ.shared b ∧
      cb.weak_ = cntW σ.weak b + (if σ.heap.weak_this_ b = none then 0 else 1) ∧
      0 < cb.strong_ + cb.weak_ ∧
      (cb.strong_ = 0 ↔ payloadEvents b σ.heap.log = 1) ∧
      σ.heap.log.count (Event.deleteBlock b) = 0) ∧
    (σ.heap.blocks b = none →
      cntS σ.shared b = 0 ∧ cntW σ.weak b = 0 ∧ σ.heap.weak_this_ b = none ∧
      σ.heap.log.count (Event.deleteBlock b) = 1 ∧ payloadEvents b σ.heap.log = 1) ∧
    (∀ l1 l2, σ.heap.log = l1 ++ Event.deleteBlock b :: l2 → 0 < payloadEvents b l1) ∧
    (∀ op σ1, step σ op = some σ1 → σ.heap.blocks b ≠ none →
      (σ1.heap.blocks b = none ↔ cntS σ1.shared b + cntW σ1.weak b = 0)) := by
  have hinv := run_inv ops _ σ Inv_init hrun
  have hdead : ∀ τ : World, Inv τ → b < τ.fresh →
      (τ.heap.blocks b = none ↔ cntS τ.shared b + cntW τ.weak b = 0) := by
    intro τ hτ hlt
    rcases hτ.1.2.1 b with ⟨hu, -⟩ | ⟨-, -, cb, hcb, -, hsum, -⟩ | ⟨-, -, hn, -, hS, hW, -⟩
    · rcases hu with hu | hu <;> omega
    · constructor
      · intro h; rw [hcb] at h; cases h
      · intro h; omega
    · exact ⟨fun _ => by omega, fun _ => hn⟩
  refine ⟨?_, ?_, hinv.1.2.2 b, ?_⟩
  · intro cb hcb
    obtain ⟨-, -, hs, hsum, hD, -, hP, hlink⟩ := HeapInv_live _ _ _ _ b cb hinv.1 hcb
    refine ⟨hs, ?_, ?_, ?_, hD⟩
    · rcases hlink with ⟨a, e⟩ | ⟨a, e, _⟩
      · simp [a, e]
      · simp [a, e]
    · rcases hlink with ⟨_, e⟩ | ⟨_, e, _⟩ <;> omega
    · rw [hP, hs]
      by_cases hz : cntS σ.shared b = 0
      · simp [hz]
      · simp [hz]
  · intro hnone
    rcases hinv.1.2.1 b with ⟨hu, -⟩ | ⟨-, -, cb, hcb, -⟩ | ⟨-, -, -, hwt, hS, hW, hP, hD⟩
    · rcases hu with hu | hu <;> omega
    · rw [hnone] at hcb; cases hcb
    · exact ⟨hS, hW, hwt, hD, hP⟩
  · intro op σ1 hstep _
    have hinv1 := step_inv σ σ1 op hinv hstep
    have hmono : σ.fresh ≤ σ1.fresh := step_fresh σ σ1 op hstep
    exact hdead σ1 hinv1 (by omega)

/-- The statement of C3 at a group whose handles have all been destroyed. -/
theorem c03_witness :
    run World.init endedOps = some endedWorld ∧
    endedWorld.heap.blocks 1 = none ∧
    endedWorld.heap.log.count (Event.deleteBlock 1) = 1 ∧
    payloadEvents 1 endedWorld.heap.log = 1 := by
  have h :=
    (c03_block_freed_once_at_zero endedOps endedWorld 1 rfl (by decide) (by decide)).2.1 rfl
  exact ⟨rfl, rfl, h.2.2.2.1, h.2.2.2.2⟩

/-- C4, as stated, fails: a default-constructed `WeakPtr` is `Expired()`, yet
`SharedPtr(w)` does not throw. -/
theorem c04_counterexample :
    WeakPtr.Expired WeakPtr.default Heap.empty = some true ∧
    (SharedPtr.fromWeak WeakPtr.default Heap.empty).threw = false := by
  constructor <;> rfl

/-- C4, amended. For a `WeakPtr` with a control block, `SharedPtr(w)` throws `BadWeakPtr`
exactly when the strong count is not positive, which for a non-negative count is exactly when
`w.Expired()`; when the count is positive it returns a handle with `w`'s pointer and block
and raises `strong_` by exactly 1, changing nothing else.  For a `WeakPtr` without control
block `Expired()` is true, but the constructor returns a block-less handle with `w`'s pointer
and changes nothing. -/
theorem c04_promotion_amended (w : WeakPtr) (hp : Heap) :
    (∀ b cb, w.block_ = some b → hp.blocks b = some cb →
      ((SharedPtr.fromWeak w hp).threw = true ↔ cb.strong_ ≤ 0) ∧
      (0 ≤ cb.strong_ →
        ((SharedPtr.fromWeak w hp).threw = true ↔ w.Expired hp = some true)) ∧
      (0 < cb.strong_ →
        SharedPtr.fromWeak w hp =
          Res.ok { ptr_ := w.ptr_, block_ := some b }
            (hp.setBlock b (some { cb with strong_ := cb.strong_ + 1 })))) ∧
    (w.block_ = none →
      w.Expired hp = some true ∧
      SharedPtr.fromWeak w hp = Res.ok { ptr_ := w.ptr_, block_ := none } hp) := by
  refine ⟨?_, ?_⟩
  · intro b cb hb hcb
    refine ⟨?_, ?_, ?_⟩
    · by_cases hs : 0 < cb.strong_
      · simp [SharedPtr.fromWeak, hb, ExistsStrong, hcb, hs, IncrementStrong, Res.threw]
      · simp [SharedPtr.fromWeak, hb, ExistsStrong, hcb, hs, Res.threw]
        omega
    · intro h0
      by_cases hs : 0 < cb.strong_
      · have : toSizeT cb.strong_ ≠ 0 := by
          rw [Ne, toSizeT_eq_zero_iff _ h0]; omega
        simp [SharedPtr.fromWeak, hb, ExistsStrong, hcb, hs, IncrementStrong, Res.threw,
          WeakPtr.Expired, WeakPtr.UseCount, GetStrong, this]
      · have : toSizeT cb.strong_ = 0 := by
          rw [toSizeT_eq_zero_iff _ h0]; omega
        simp [SharedPtr.fromWeak, hb, ExistsStrong, hcb, hs, Res.threw,
          WeakPtr.Expired, WeakPtr.UseCount, GetStrong, this]
    · intro hs
      simp [SharedPtr.fromWeak, hb, ExistsStrong, hcb, hs, IncrementStrong]
  · intro hb
    simp [SharedPtr.fromWeak, hb, WeakPtr.Expired, WeakPtr.UseCount]

/-- The amended C4 at an expired group and at a live one. -/
theorem c04_witness :
    ((SharedPtr.fromWeak { ptr_ := 100, block_ := some 1 } expiredGroup).threw = true ↔
      WeakPtr.Expired { ptr_ := 100, block_ := some 1 } expiredGroup = some true) ∧
    SharedPtr.fromWeak { ptr_ := 100, block_ := some 1 } oneOwner =
      Res.ok { ptr_ := 100, block_ := some 1 }
        (oneOwner.setBlock 1 (some { strong_ := 2, weak_ := 0, impl := BlockImpl.pointer 100 })) :=
  ⟨((c04_promotion_amended { ptr_ := 100, block_ := some 1 } expiredGroup).1 1
      ⟨0, 1, BlockImpl.pointer 0⟩ rfl rfl).2.1 (by decide),
   ((c04_promotion_amended { ptr_ := 100, block_ := some 1 } oneOwner).1 1
      ⟨1, 0, BlockImpl.pointer 100⟩ rfl rfl).2.2 (by decide)⟩

/-- C5. For a `SharedPtr sp` with a control block, `WeakPtr(sp)` observes the same pointer
and block and raises `weak_` by 1; in any later heap where the block is live, `Lock()` returns,
while `strong_ > 0`, a handle with `sp`'s pointer on the same block, raising `strong_` by
exactly 1 and leaving `weak_` and everything else unchanged, and, once `strong_ = 0`, an empty
handle (`Get()` null, `UseCount()` 0) without throwing and without changing the heap. -/
theorem c05_lock_round_trip (sp : SharedPtr) (b : Nat) (hp0 : Heap) (cb0 : ControlBlockBase)
    (hsp : sp.block_ = some b) (h0 : hp0.blocks b = some cb0) :
    WeakPtr.fromShared sp hp0 =
      some ({ ptr_ := sp.ptr_, block_ := some b },
        hp0.setBlock b (some { cb0 with weak_ := cb0.weak_ + 1 })) ∧
    ∀ (hp : Heap) (cb : ControlBlockBase), hp.blocks b = some cb → 0 ≤ cb.weak_ →
      (0 < cb.strong_ →
        WeakPtr.Lock { ptr_ := sp.ptr_, block_ := some b } hp =
          Res.ok { ptr_ := sp.Get, block_ := some b }
            (hp.setBlock b (some { cb with strong_ := cb.strong_ + 1 }))) ∧
      (cb.strong_ = 0 →
        WeakPtr.Lock { ptr_ := sp.ptr_, block_ := some b } hp = Res.ok SharedPtr.default hp ∧
        SharedPtr.default.Get = 0 ∧ SharedPtr.default.UseCount hp = some 0) := by
  refine ⟨?_, ?_⟩
  · simp [WeakPtr.fromShared, hsp, IncrementWeak, h0]
  · intro hp cb hcb hw
    refine ⟨?_, ?_⟩
    · intro hs
      have hne : toSizeT cb.strong_ ≠ 0 := by
        rw [Ne, toSizeT_eq_zero_iff _ (le_of_lt hs)]; omega
      have h1 : ¬ (cb.weak_ + (cb.strong_ + 1) = 0) := by omega
      simp [WeakPtr.Lock, WeakPtr.Expired, WeakPtr.UseCount, GetStrong, hcb, hne,
        WeakPtr.copy, IncrementWeak, SharedPtr.fromWeak, ExistsStrong, hs, IncrementStrong,
        WeakPtr.destroy, DecrementWeak, h1, setBlock_setBlock, SharedPtr.Get]
    · intro hs
      have hz : toSizeT cb.strong_ = 0 := by rw [hs]; rfl
      simp [WeakPtr.Lock, WeakPtr.Expired, WeakPtr.UseCount, GetStrong, hcb, hz,
        SharedPtr.default, SharedPtr.Get, SharedPtr.UseCount]

/-- The statement of C5 at a group with one owner. -/
theorem c05_witness :
    WeakPtr.fromShared { ptr_ := 100, block_ := some 1 } oneOwner =
      some ({ ptr_ := 100, block_ := some 1 },
        oneOwner.setBlock 1 (some { strong_ := 1, weak_ := 1, impl := BlockImpl.pointer 100 })) ∧
    WeakPtr.Lock { ptr_ := 100, block_ := some 1 } expiredGroup =
      Res.ok SharedPtr.default expiredGroup :=
  ⟨(c05_lock_round_trip { ptr_ := 100, block_ := some 1 } 1 oneOwner
      ⟨1, 0, BlockImpl.pointer 100⟩ rfl rfl).1,
   (((c05_lock_round_trip { ptr_ := 100, block_ := some 1 } 1 oneOwner
      ⟨1, 0, BlockImpl.pointer 100⟩ rfl rfl).2 expiredGroup ⟨0, 1, BlockImpl.pointer 0⟩ rfl
      (by decide)).2 rfl).1⟩

/-- C6 fails on the code. With two owners, `h.Reset()` lowers `strong_` from 2 to 1 but
leaves `h` attached (`Get()` still 100, `UseCount()` 1); the later destruction of `h`
decrements again, deleting payload and block under the other owner. -/
theorem c06_reset_keeps_handle_attached :
    ∃ hp1, SharedPtr.Reset { ptr_ := 100, block_ := some 1 } twoOwners
        = some ({ ptr_ := 100, block_ := some 1 }, hp1) ∧
      SharedPtr.UseCount { ptr_ := 100, block_ := some 1 } hp1 = some 1 ∧
      ∃ hp2, SharedPtr.destroy { ptr_ := 100, block_ := some 1 } hp1 = some hp2 ∧
        hp2.blocks 1 = none ∧
        hp2.log = [Event.deletePayload 100, Event.deleteBlock 1] := by
  refine ⟨_, rfl, rfl, _, rfl, rfl, rfl⟩

/-- C7 fails on the code. `operator=(SharedPtr&&)` runs `this->Reset()` before it reads the
source.  When the destination is the last owner of the payload at `p` and the source is a
member of that payload, as in `d = std::move(d->next)`, `Reset()` destroys the payload and
the source with it, and the members of the source are read after its lifetime: the
assignment has no defined result.  The move constructor leaves the source empty and gives
the destination the source's pointer and `UseCount()`.  Move assignment from a source
outside the payloads into a distinct handle `d` does the same when `d` has no block, and
when `d` belongs to another live group whose payload link is well formed; the heap changes
only at `d`'s former block, so no count of the moved group changes. -/
theorem c07_move_assign_releases_before_reading (s : SharedPtr) (hp : Heap) :
    (∀ (d : SharedPtr) (bd : Nat) (cb : ControlBlockBase) (p : Ptr),
      d.block_ = some bd → d.ptr_ ≠ 0 → hp.blocks bd = some cb → cb.strong_ = 1 →
      (cb.impl = BlockImpl.pointer p ∨ cb.impl = BlockImpl.emplace p) → p ≠ 0 →
      Unlinked hp cb →
      (∃ hp1, d.Reset hp = some (SharedPtr.default, hp1) ∧
        payloadEvents p hp1.log = payloadEvents p hp.log + 1 ∧
        (SharedRef.member p s).read hp hp1 = none) ∧
      SharedPtr.moveAssign d (SharedRef.member p s) hp = none) ∧
    ((SharedPtr.move s).2.Get = 0 ∧ (SharedPtr.move s).2.UseCount hp = some 0 ∧
      (SharedPtr.move s).1.Get = s.Get ∧ (SharedPtr.move s).1.UseCount hp = s.UseCount hp) ∧
    (∀ d : SharedPtr, d.block_ = none →
      SharedPtr.moveAssign d (SharedRef.client s) hp
        = some ({ ptr_ := s.Get, block_ := s.block_ }, SharedPtr.default, hp)) ∧
    (∀ (d : SharedPtr) (bd : Nat) (cbd : ControlBlockBase),
      d.block_ = some bd → s.block_ ≠ some bd → hp.blocks bd = some cbd → LinkOK hp bd cbd →
      ∃ d1 s1 hp1, SharedPtr.moveAssign d (SharedRef.client s) hp = some (d1, s1, hp1) ∧
        s1.Get = 0 ∧ s1.UseCount hp1 = some 0 ∧
        d1.Get = s.Get ∧ d1.block_ = s.block_ ∧ d1.UseCount hp1 = s.UseCount hp ∧
        ∀ i, i ≠ bd → hp1.blocks i = hp.blocks i) := by
  refine ⟨fun d bd cb p hd hptr hcb hs hpay hp0 hun => ?_, ⟨rfl, rfl, rfl, rfl⟩, ?_, ?_⟩
  · obtain ⟨hp1, e1, e2, e3⟩ := read_member_after_Reset d s bd cb p hp hd hptr hcb hs hpay hp0 hun
    exact ⟨⟨hp1, e1, e2, e3⟩, by simp [SharedPtr.moveAssign, e1, e3]⟩
  · intro d hd
    simp [SharedPtr.moveAssign, SharedPtr.Reset, hd, SharedRef.read, SharedPtr.default,
      SharedPtr.Get]
  · intro d bd cbd hd hs hcb hlink
    obtain ⟨d0, hp1, h1, h2⟩ := Reset_frame d bd cbd hp hd hcb hlink
    refine ⟨⟨s.ptr_, s.block_⟩, ⟨0, none⟩, hp1,
      by simp [SharedPtr.moveAssign, h1, SharedRef.read], rfl, rfl, rfl, rfl, ?_, h2⟩
    cases hsb : s.block_ with
    | none => simp [SharedPtr.UseCount, hsb]
    | some bs =>
      have hne : bs ≠ bd := fun h => hs (by rw [hsb, h])
      simp [SharedPtr.UseCount, hsb, GetStrong, h2 bs hne]

/-- The failing input of C7: in `twoGroups` the handle `d` is the only owner of the payload
at `100`, whose member holds the only handle on block `2`, and `d = std::move(d->next)` is
run. -/
theorem c07_witness :
    (∃ hp1, SharedPtr.Reset { ptr_ := 100, block_ := some 1 } twoGroups
        = some (SharedPtr.default, hp1) ∧
      payloadEvents 100 hp1.log = payloadEvents 100 twoGroups.log + 1 ∧
      (SharedRef.member 100 { ptr_ := 200, block_ := some 2 }).read twoGroups hp1 = none) ∧
    SharedPtr.moveAssign { ptr_ := 100, block_ := some 1 }
      (SharedRef.member 100 { ptr_ := 200, block_ := some 2 }) twoGroups = none :=
  (c07_move_assign_releases_before_reading { ptr_ := 200, block_ := some 2 } twoGroups).1
    { ptr_ := 100, block_ := some 1 } 1 ⟨1, 0, BlockImpl.pointer 100⟩ 100 rfl (by decide) rfl rfl
    (Or.inl rfl) (by decide) (Or.inr (Or.inl rfl))

/-- C8 fails on the code for `p == nullptr`. The aliasing handle raises `strong_` to 2, but
its destruction changes nothing: the count stays 2. -/
theorem c08_null_alias_never_released :
    ∃ hp1, SharedPtr.alias { ptr_ := 100, block_ := some 1 } 0 oneOwner
        = some ({ ptr_ := 0, block_ := some 1 }, hp1) ∧
      SharedPtr.UseCount { ptr_ := 0, block_ := some 1 } hp1 = some 2 ∧
      SharedPtr.destroy { ptr_ := 0, block_ := some 1 } hp1 = some hp1 := by
  refine ⟨_, rfl, rfl, rfl⟩

/-- C9 fails on the code. On a payload no `SharedPtr` has wrapped, the non-const
`SharedFromThis()` does not throw and returns an empty handle; the const overload throws. -/
theorem c09_shared_from_this_returns_empty :
    (SharedFromThis 100 neverWrapped).threw = false ∧
    (SharedFromThis 100 neverWrapped).val? = some SharedPtr.default ∧
    (SharedFromThisConst 100 neverWrapped).threw = true := by
  refine ⟨rfl, rfl, rfl⟩

theorem fromRaw_self_observing (p a : Nat) (hp : Heap) :
    SharedPtr.fromRaw p a true hp = none := by
  unfold SharedPtr.fromRaw
  split <;> simp [linkWeakThis]

theorem fromBlock_self_observing (p a : Nat) (hp : Heap) :
    SharedPtr.fromBlock p a true hp = none := by
  simp [SharedPtr.fromBlock, linkWeakThis]

theorem MakeShared_self_observing (p a : Nat) (hp : Heap) :
    MakeShared p a true hp = none := by
  unfold MakeShared
  split
  · rfl
  · split
    · rfl
    · exact fromBlock_self_observing _ _ _

/-- The heap after `SharedPtr<T> h; h.Reset(p);` for a new self-observing payload at `p`. -/
theorem ResetPtr_new_self_observing (p a : Nat) (hp0 : Heap) (hfree : hp0.blocks a = none) :
    SharedPtr.ResetPtr SharedPtr.default p a (newPayload p true hp0)
      = (if p = 0 then some (SharedPtr.default, newPayload p true hp0)
         else some ({ ptr_ := p, block_ := some a },
          (newPayload p true hp0).setBlock a
            (some { strong_ := 1, weak_ := 0, impl := BlockImpl.pointer p }))) := by
  have hfree1 : (newPayload p true hp0).blocks a = none := hfree
  by_cases h0 : p = 0
  · subst h0
    simp [SharedPtr.ResetPtr, SharedPtr.default]
  · have h0' : ¬ (0 = p) := fun e => h0 e.symm
    simp [SharedPtr.ResetPtr, SharedPtr.default, h0, h0', SharedPtr.Reset, hfree1]

/-- C10 fails on the code. For a self-observing `T` the constructors `SharedPtr(T*)` and
`SharedPtr(T*, ControlBlockBase*)`, and with the latter `MakeShared`, contain the ill-formed
statement `ptr->weak_this_ = WeakPtr(*this)` and have no instance, so no constructor wraps
such a payload.  `Reset(T*)`, which can take it, stores no link: with the payload owned,
strong count 1, `SharedFromThis()` returns the empty handle and leaves the count at 1, and
the const overload throws.  In a heap where the link of the payload at `p` observes its
block, which only the client can store, and the block has strong count `n ≥ 1`, both
overloads return a handle with `Get() = p` on that block and leave the count at `n + 1`. -/
theorem c10_constructors_store_no_link (p a : Nat) (hp0 : Heap) :
    SharedPtr.fromRaw p a true hp0 = none ∧
    SharedPtr.fromBlock p a true hp0 = none ∧
    MakeShared p a true hp0 = none ∧
    (p ≠ 0 → hp0.blocks a = none →
      ∃ hp1, SharedPtr.ResetPtr SharedPtr.default p a (newPayload p true hp0)
          = some ({ ptr_ := p, block_ := some a }, hp1) ∧
        SharedPtr.UseCount { ptr_ := p, block_ := some a } hp1 = some 1 ∧
        SharedFromThis p hp1 = Res.ok SharedPtr.default hp1 ∧
        (SharedFromThisConst p hp1).threw = true) ∧
    (∀ (hp : Heap) (cb : ControlBlockBase),
      p ≠ 0 → hp.weak_this_ p = some { ptr_ := p, block_ := some a } → hp.blocks a = some cb →
      1 ≤ cb.strong_ → 0 ≤ cb.weak_ →
      SharedFromThis p hp =
        Res.ok { ptr_ := p, block_ := some a }
          (hp.setBlock a (some { cb with strong_ := cb.strong_ + 1 })) ∧
      SharedFromThisConst p hp =
        Res.ok { ptr_ := p, block_ := some a }
          (hp.setBlock a (some { cb with strong_ := cb.strong_ + 1 }))) := by
  refine ⟨fromRaw_self_observing p a hp0, fromBlock_self_observing p a hp0,
    MakeShared_self_observing p a hp0, fun hp_ne hfree => ?_, ?_⟩
  · have hr := ResetPtr_new_self_observing p a hp0 hfree
    simp only [hp_ne, ↓reduceIte] at hr
    have hwt : ((newPayload p true hp0).setBlock a
        (some { strong_ := 1, weak_ := 0, impl := BlockImpl.pointer p })).weak_this_ p
        = some WeakPtr.default := by simp [newPayload]
    refine ⟨_, hr, ?_, ?_, ?_⟩
    · simp [SharedPtr.UseCount, GetStrong, toSizeT]
    · simp [SharedFromThis, hwt, Lock_empty, WeakPtr.default, SharedPtr.copy, SharedPtr.default,
        SharedPtr.destroy, SharedPtr.Reset]
    · simp [SharedFromThisConst, hwt, Lock_empty, WeakPtr.default, SharedPtr.toBool,
        SharedPtr.default, SharedPtr.destroy, SharedPtr.Reset, Res.threw]
  · intro hp cb hp_ne hwt hcb hs hw
    have hne : toSizeT cb.strong_ ≠ 0 := by
      rw [Ne, toSizeT_eq_zero_iff _ (by omega)]; omega
    have hpos : 0 < cb.strong_ := by omega
    have h1 : ¬ (cb.weak_ + (cb.strong_ + 1) = 0) := by omega
    have h2 : ¬ (cb.strong_ + 1 = 0) := by omega
    have h3 : ¬ (cb.strong_ + 1 + 1 = 1) := by omega
    have h4 : ¬ (cb.strong_ + 1 + 1 - 1 = 0) := by omega
    have hlock : WeakPtr.Lock { ptr_ := p, block_ := some a } hp =
        Res.ok { ptr_ := p, block_ := some a }
          (hp.setBlock a (some { cb with strong_ := cb.strong_ + 1 })) := by
      simp [WeakPtr.Lock, WeakPtr.Expired, WeakPtr.UseCount, GetStrong, hcb, hne,
        WeakPtr.copy, IncrementWeak, SharedPtr.fromWeak, ExistsStrong, hpos, IncrementStrong,
        WeakPtr.destroy, DecrementWeak, h1, setBlock_setBlock]
    have hrest : (match SharedPtr.copy { ptr_ := p, block_ := some a }
          (hp.setBlock a (some { cb with strong_ := cb.strong_ + 1 })) with
        | none => Res.ub
        | some (r, hp2) =>
          match SharedPtr.destroy { ptr_ := p, block_ := some a } hp2 with
          | none => Res.ub
          | some hp3 => Res.ok r hp3) =
        Res.ok { ptr_ := p, block_ := some a }
          (hp.setBlock a (some { cb with strong_ := cb.strong_ + 1 })) := by
      have hd := DecrementStrong_many a
        ((hp.setBlock a (some { cb with strong_ := cb.strong_ + 1 })).setBlock a
          (some { cb with strong_ := cb.strong_ + 1 + 1 })) _ (setBlock_same_val _ _ _) h3
      simp only [setBlock_setBlock] at hd
      simp [SharedPtr.copy, IncrementStrong, SharedPtr.destroy, SharedPtr.Reset, hp_ne,
        GetStrong, h3, hd, setBlock_setBlock]
    constructor
    · simp only [SharedFromThis, hwt, hlock]
      exact hrest
    · simp only [SharedFromThisConst, hwt, hlock, SharedPtr.toBool, hp_ne, ne_eq,
        not_false_eq_true, decide_True, ↓reduceIte]
      exact hrest

/-- The failing input of C10: the new self-observing payload at `100` is taken by
`SharedPtr<T> h; h.Reset(p);` with the block at `1`, and `SharedFromThis()` is called. -/
theorem c10_witness :
    ∃ hp1, SharedPtr.ResetPtr SharedPtr.default 100 1 (newPayload 100 true Heap.empty)
        = some ({ ptr_ := 100, block_ := some 1 }, hp1) ∧
      SharedPtr.UseCount { ptr_ := 100, block_ := some 1 } hp1 = some 1 ∧
      SharedFromThis 100 hp1 = Res.ok SharedPtr.default hp1 ∧
      (SharedFromThisConst 100 hp1).threw = true :=
  (c10_constructors_store_no_link 100 1 Heap.empty).2.2.2.1 (by decide) rfl

end SFT

namespace Unique

/-! ## Exclusive ownership: the claims -/

theorem callsOn_append {D : Type} (p : Ptr) (l1 l2 : List (Call D)) :
    callsOn p (l1 ++ l2) = callsOn p l1 + callsOn p l2 := by
  simp [callsOn]

theorem callsOn_single {D : Type} (p : Ptr) (c : Call D) :
    callsOn p [c] = if c.arg = p then 1 else 0 := by
  by_cases h : c.arg = p <;> simp [callsOn, h]

/-- C11. For a handle holding `p1` and any `p2 ≠ p1`, `Reset(p2)` of the primary template
and of the array specialization appends exactly one deleter call to the log, made on the
handle's deleter with argument `p1`; the number of calls with argument `p2` does not change;
afterwards `Get() == p2`. -/
theorem c11_reset_deletes_old_pointer_once {D : Type} (M : DeleterOps D) (self : UniquePtr D)
    (p2 : Ptr) (log : List (Call D)) (hne : p2 ≠ self.Get) :
    (self.Reset M p2 log).2 = log ++ [{ deleter := self.GetDeleter, arg := self.Get }] ∧
    (self.Reset M p2 log).1.Get = p2 ∧
    callsOn self.Get (self.Reset M p2 log).2 = callsOn self.Get log + 1 ∧
    callsOn p2 (self.Reset M p2 log).2 = callsOn p2 log ∧
    (self.ResetArr M p2 log).2 = log ++ [{ deleter := self.GetDeleter, arg := self.Get }] ∧
    (self.ResetArr M p2 log).1.Get = p2 ∧
    callsOn self.Get (self.ResetArr M p2 log).2 = callsOn self.Get log + 1 ∧
    callsOn p2 (self.ResetArr M p2 log).2 = callsOn p2 log := by
  have h1 : p2 ≠ self.first := hne
  have h2 : self.first ≠ p2 := fun h => hne h.symm
  simp [UniquePtr.Reset, UniquePtr.ResetArr, UniquePtr.Get, UniquePtr.GetDeleter, h1, h2,
    callsOn_append, callsOn_single]

/-- The statement of C11 for a handle holding `5` that is reset to `6`. -/
theorem c11_witness :
    (UniquePtr.Reset countingDeleter { first := 5, second := 0 } 6 []).2
      = [{ deleter := 0, arg := 5 }] ∧
    (UniquePtr.Reset countingDeleter { first := 5, second := 0 } 6 []).1.Get = 6 :=
  ⟨(c11_reset_deletes_old_pointer_once countingDeleter { first := 5, second := 0 } 6 []
      (by decide)).1,
   (c11_reset_deletes_old_pointer_once countingDeleter { first := 5, second := 0 } 6 []
      (by decide)).2.1⟩

/-- C12, as stated, fails: `Reset(5)` on an empty handle calls the deleter once, with a null
argument. -/
theorem c12_counterexample :
    (UniquePtr.Reset countingDeleter { first := 0, second := 0 } 5 []).2
      = [{ deleter := 0, arg := 0 }] ∧
    (UniquePtr.ResetArr countingDeleter { first := 0, second := 0 } 5 []).2
      = [{ deleter := 0, arg := 0 }] := by
  constructor <;> rfl

/-- C12, amended. `Reset(ptr)` of both templates leaves handle and log unchanged when the
held pointer is identical to `ptr`; on an empty handle and a non-null `ptr` it takes
ownership of `ptr` and calls the deleter exactly once, with the null pointer as argument
and never with `ptr`. -/
theorem c12_reset_amended {D : Type} (M : DeleterOps D) (self : UniquePtr D) (ptr : Ptr)
    (log : List (Call D)) :
    (self.Get = ptr → self.Reset M ptr log = (self, log) ∧ self.ResetArr M ptr log = (self, log)) ∧
    (self.Get = 0 → ptr ≠ 0 →
      (self.Reset M ptr log).1.Get = ptr ∧
      (self.Reset M ptr log).2 = log ++ [{ deleter := self.GetDeleter, arg := 0 }] ∧
      callsOn ptr (self.Reset M ptr log).2 = callsOn ptr log ∧
      (self.ResetArr M ptr log).1.Get = ptr ∧
      (self.ResetArr M ptr log).2 = log ++ [{ deleter := self.GetDeleter, arg := 0 }] ∧
      callsOn ptr (self.ResetArr M ptr log).2 = callsOn ptr log) := by
  constructor
  · intro h
    have h1 : self.first = ptr := h
    simp [UniquePtr.Reset, UniquePtr.ResetArr, h1]
  · intro h0 hp
    have h1 : self.first = 0 := h0
    have h2 : ¬ (0 = ptr) := fun h => hp h.symm
    simp [UniquePtr.Reset, UniquePtr.ResetArr, UniquePtr.Get, UniquePtr.GetDeleter, h1, hp, h2,
      callsOn_append, callsOn_single]

/-- The amended C12 for `Reset(5)` on a handle holding `5` and on an empty handle. -/
theorem c12_witness :
    UniquePtr.Reset countingDeleter { first := 5, second := 0 } 5 []
      = ({ first := 5, second := 0 }, []) ∧
    (UniquePtr.Reset countingDeleter { first := 0, second := 0 } 5 []).1.Get = 5 :=
  ⟨((c12_reset_amended countingDeleter { first := 5, second := 0 } 5 []).1 rfl).1,
   ((c12_reset_amended countingDeleter { first := 0, second := 0 } 5 []).2 rfl (by decide)).1⟩

/-- C13. `Release()` returns the pointer `Get()` reported before the call, leaves the log
of deleter calls and the deleter unchanged and the handle empty; destroying the handle
afterwards, in either template, leaves the log unchanged as well. -/
theorem c13_release_never_deletes {D : Type} (M : DeleterOps D) (self : UniquePtr D)
    (log : List (Call D)) :
    (self.Release log).1 = self.Get ∧
    (self.Release log).2.2 = log ∧
    (self.Release log).2.1.GetDeleter = self.GetDeleter ∧
    (self.Release log).2.1.Get = 0 ∧
    (self.Release log).2.1.destroy M log = log ∧
    (self.Release log).2.1.destroyArr M log = log := by
  simp [UniquePtr.Release, UniquePtr.Get, UniquePtr.GetDeleter, UniquePtr.destroy,
    UniquePtr.destroyArr, UniquePtr.Reset, UniquePtr.ResetArr]

/-- C14 fails on the code. Move construction of the array specialization from a source
holding a non-null `p` gives the destination `p` and empties the source, but it does so by
`other.Reset()`, which calls the source's moved-from deleter on `p`; the destruction of
the destination calls its deleter on `p` again, so `p` is deleted twice. -/
theorem c14_array_move_deletes_transferred_pointer {D : Type} (M : DeleterOps D)
    (s : UniquePtr D) (log : List (Call D)) (hp : s.Get ≠ 0) :
    (UniquePtr.moveCtorArr M s log).1.Get = s.Get ∧
    (UniquePtr.moveCtorArr M s log).2.1.Get = 0 ∧
    (UniquePtr.moveCtorArr M s log).2.2
      = log ++ [{ deleter := M.residue s.GetDeleter, arg := s.Get }] ∧
    callsOn s.Get (UniquePtr.moveCtorArr M s log).2.2 = callsOn s.Get log + 1 ∧
    callsOn s.Get
      ((UniquePtr.moveCtorArr M s log).1.destroyArr M (UniquePtr.moveCtorArr M s log).2.2)
      = callsOn s.Get log + 2 := by
  have h1 : s.first ≠ 0 := hp
  simp [UniquePtr.moveCtorArr, UniquePtr.ResetArr, UniquePtr.destroyArr, UniquePtr.Get,
    UniquePtr.GetDeleter, h1, callsOn_append, callsOn_single]
  simp [callsOn]

/-- The failing input of C14: a source holding `5`. -/
theorem c14_witness :
    (UniquePtr.moveCtorArr countingDeleter { first := 5, second := 0 } []).2.2
      = [{ deleter := 0, arg := 5 }] ∧
    callsOn 5
      ((UniquePtr.moveCtorArr countingDeleter { first := 5, second := 0 } []).1.destroyArr
        countingDeleter (UniquePtr.moveCtorArr countingDeleter { first := 5, second := 0 } []).2.2)
      = 0 + 2 :=
  ⟨(c14_array_move_deletes_transferred_pointer countingDeleter { first := 5, second := 0 } []
      (by decide)).2.2.1,
   (c14_array_move_deletes_transferred_pointer countingDeleter { first := 5, second := 0 } []
      (by decide)).2.2.2.2⟩

/-- C15 fails on the code when source and destination hold the same pointer, as two
distinct empty handles do. Move construction of the primary template transfers pointer
and deleter, empties the source and calls no deleter. Move assignment does the same, after
one call of the destination's previous deleter on its previous pointer, when the two
pointers differ; when they are equal it changes nothing, so that the destination keeps its
own deleter. -/
theorem c15_move_assign_compares_pointers {D : Type} (M : DeleterOps D) (d s : UniquePtr D)
    (log : List (Call D)) :
    UniquePtr.moveCtor M s log
      = ({ first := s.Get, second := s.GetDeleter },
          { first := 0, second := M.residue s.GetDeleter }, log) ∧
    (s.Get ≠ d.Get →
      UniquePtr.moveAssign M d s log
        = ({ first := s.Get, second := s.GetDeleter },
            { first := 0, second := M.residue s.GetDeleter },
            log ++ [{ deleter := d.GetDeleter, arg := d.Get }]) ∧
      callsOn s.Get (UniquePtr.moveAssign M d s log).2.2 = callsOn s.Get log) ∧
    (s.Get = d.Get → UniquePtr.moveAssign M d s log = (d, s, log)) := by
  refine ⟨?_, fun hne => ?_, fun he => ?_⟩
  · simp [UniquePtr.moveCtor, UniquePtr.Release, UniquePtr.Get, UniquePtr.GetDeleter]
  · have h1 : s.first ≠ d.first := hne
    have h2 : d.first ≠ s.first := fun h => hne h.symm
    simp [UniquePtr.moveAssign, UniquePtr.Release, UniquePtr.Reset, UniquePtr.Get,
      UniquePtr.GetDeleter, h1, h2, callsOn_append, callsOn_single]
  · have h1 : s.first = d.first := he
    simp [UniquePtr.moveAssign, UniquePtr.Get, h1]

/-- The failing input of C15: two empty handles with the deleters `3` and `9`. The primary
template leaves the destination with deleter `3`; the array specialization gives it `9`. -/
theorem c15_witness :
    UniquePtr.moveAssign countingDeleter { first := 0, second := 3 } { first := 0, second := 9 } []
      = ({ first := 0, second := 3 }, { first := 0, second := 9 }, []) ∧
    (UniquePtr.moveAssignArr countingDeleter { first := 0, second := 3 }
      { first := 0, second := 9 } []).1 = { first := 0, second := 9 } :=
  ⟨(c15_move_assign_compares_pointers countingDeleter { first := 0, second := 3 }
      { first := 0, second := 9 } []).2.2 rfl, rfl⟩

end Unique

namespace Intrusive

/-! ## Intrusive counting: the claims -/

theorem copy_live (o c : Nat) (st : Store) (ho : o ≠ 0) (hc : st.objs o = some { count_ := c })
    (hb : c + 1 < 2 ^ 64) :
    IntrusivePtr.copy { ptr_ := o } st
      = some ({ ptr_ := o }, st.setObj o (some { count_ := c + 1 })) := by
  have hm : (c + 1) % 18446744073709551616 = c + 1 := Nat.mod_eq_of_lt (by omega)
  simp [IntrusivePtr.copy, RefCounted.IncRef, SimpleCounter.IncRef, ho, hc, hm]

theorem fromRaw_live (o c : Nat) (st : Store) (ho : o ≠ 0)
    (hc : st.objs o = some { count_ := c }) (hb : c + 1 < 2 ^ 64) :
    IntrusivePtr.fromRaw o st
      = some ({ ptr_ := o }, st.setObj o (some { count_ := c + 1 })) := by
  have hm : (c + 1) % 18446744073709551616 = c + 1 := Nat.mod_eq_of_lt (by omega)
  simp [IntrusivePtr.fromRaw, RefCounted.IncRef, SimpleCounter.IncRef, ho, hc, hm]

theorem DecRef_live (o c : Nat) (st : Store) (hc : st.objs o = some { count_ := c }) :
    RefCounted.DecRef o st
      = if c ≤ 1 then some (Destroy o (st.setObj o (some { count_ := 0 })))
        else some (st.setObj o (some { count_ := c - 1 })) := by
  rcases Nat.lt_or_ge 1 c with h | h
  · have h0 : c ≠ 0 := by omega
    have h1 : ¬ c ≤ 1 := by omega
    have h2 : c - 1 ≠ 0 := by omega
    simp [RefCounted.DecRef, SimpleCounter.DecRef, hc, h0, h1, h2]
  · rcases Nat.eq_zero_or_pos c with h0 | h0
    · subst h0
      simp [RefCounted.DecRef, SimpleCounter.DecRef, hc]
    · have h1 : c = 1 := by omega
      subst h1
      simp [RefCounted.DecRef, SimpleCounter.DecRef, hc]

theorem setObj_objs_self (st : Store) (o : Ptr) (c : Option SimpleCounter) :
    (st.setObj o c).objs o = c := by
  simp [Store.setObj]

theorem setObj_destroyed (st : Store) (o : Ptr) (c : Option SimpleCounter) :
    (st.setObj o c).destroyed = st.destroyed := rfl

theorem copies_live (o : Nat) (ho : o ≠ 0) :
    ∀ (k c : Nat) (st : Store), st.objs o = some { count_ := c } → c + k < 2 ^ 64 →
      ∃ st1, copies { ptr_ := o } k st = some st1 ∧ st1.objs o = some { count_ := c + k } ∧
        st1.destroyed = st.destroyed := by
  intro k
  induction k with
  | zero => intro c st hc _; exact ⟨st, rfl, hc, rfl⟩
  | succ k ih =>
    intro c st hc hb
    have h1 := copy_live o c st ho hc (by omega)
    obtain ⟨st1, e1, e2, e3⟩ := ih (c + 1) (st.setObj o (some { count_ := c + 1 }))
      (setObj_objs_self _ _ _) (by omega)
    refine ⟨st1, ?_, ?_, ?_⟩
    · simp [copies, h1, e1]
    · rw [e2]; congr 2; omega
    · rw [e3]; rfl

theorem destroys_live (o : Nat) (ho : o ≠ 0) :
    ∀ (j c : Nat) (st : Store), st.objs o = some { count_ := c } → j < c →
      ∃ st1, destroys { ptr_ := o } j st = some st1 ∧ st1.objs o = some { count_ := c - j } ∧
        st1.destroyed = st.destroyed := by
  intro j
  induction j with
  | zero => intro c st hc _; exact ⟨st, rfl, hc, rfl⟩
  | succ j ih =>
    intro c st hc hb
    have h1 : IntrusivePtr.destroy { ptr_ := o } st
        = some (st.setObj o (some { count_ := c - 1 })) := by
      have hn : ¬ c ≤ 1 := by omega
      simp [IntrusivePtr.destroy, ho, DecRef_live o c st hc, hn]
    obtain ⟨st1, e1, e2, e3⟩ := ih (c - 1) (st.setObj o (some { count_ := c - 1 }))
      (setObj_objs_self _ _ _) (by omega)
    refine ⟨st1, ?_, ?_, ?_⟩
    · simp [destroys, h1, e1]
    · rw [e2]; congr 2; omega
    · rw [e3]; rfl

theorem destroy_last (o : Nat) (ho : o ≠ 0) (st : Store)
    (hc : st.objs o = some { count_ := 1 }) :
    IntrusivePtr.destroy { ptr_ := o } st
      = some (Destroy o (st.setObj o (some { count_ := 0 }))) := by
  simp [IntrusivePtr.destroy, ho, DecRef_live o 1 st hc]

theorem UseCount_live (o c : Nat) (ho : o ≠ 0) (st : Store)
    (hc : st.objs o = some { count_ := c }) :
    IntrusivePtr.UseCount { ptr_ := o } st = some c := by
  simp [IntrusivePtr.UseCount, RefCounted.RefCount, SimpleCounter.RefCount, ho, hc]

/-- C16. For a live object `o` whose counter is 0 and `k` below the range of `size_t`:
wrapping `o` gives `UseCount 1`; `k` copies of the handle give `k + 1`; destroying `j ≤ k`
of the handles gives `k + 1 - j` and no call of `Destroy`; destroying `k - j` more leaves
count 1 and still no call; the destruction of the last handle sets the counter to 0 and
then calls `Destroy` on `o`, which is the only call made. -/
theorem c16_intrusive_counting (st : Store) (o k j : Nat) (ho : o ≠ 0)
    (hc : st.objs o = some { count_ := 0 }) (hk : k + 1 < 2 ^ 64) (hj : j ≤ k) :
    ∃ h st1 st2 st3 st4 st5,
      IntrusivePtr.fromRaw o st = some (h, st1) ∧ h.Get = o ∧
      h.UseCount st1 = some 1 ∧ st1.destroyed = st.destroyed ∧
      copies h k st1 = some st2 ∧ h.UseCount st2 = some (k + 1) ∧
      st2.destroyed = st.destroyed ∧
      destroys h j st2 = some st3 ∧ h.UseCount st3 = some (k + 1 - j) ∧
      st3.destroyed = st.destroyed ∧
      destroys h (k - j) st3 = some st4 ∧ h.UseCount st4 = some 1 ∧
      st4.destroyed = st.destroyed ∧
      h.destroy st4 = some st5 ∧ st5 = Destroy o (st4.setObj o (some { count_ := 0 })) ∧
      st5.objs o = none ∧ st5.destroyed = st.destroyed ++ [o] := by
  have h1 := fromRaw_live o 0 st ho hc (by omega)
  obtain ⟨st2, c1, c2, c3⟩ := copies_live o ho k (0 + 1) (st.setObj o (some { count_ := 0 + 1 }))
    (setObj_objs_self _ _ _) (by omega)
  obtain ⟨st3, d1, d2, d3⟩ := destroys_live o ho j (0 + 1 + k) st2 c2 (by omega)
  obtain ⟨st4, e1, e2, e3⟩ := destroys_live o ho (k - j) (0 + 1 + k - j) st3 d2 (by omega)
  have e2' : st4.objs o = some { count_ := 1 } := by
    rw [e2]; congr 2; omega
  refine ⟨{ ptr_ := o }, _, st2, st3, st4, _, h1, rfl, ?_, rfl, c1, ?_, ?_, d1, ?_, ?_, e1, ?_,
    ?_, destroy_last o ho st4 e2', rfl, ?_, ?_⟩
  · exact UseCount_live o 1 ho _ (setObj_objs_self _ _ _)
  · rw [UseCount_live o _ ho _ c2]; congr 1; omega
  · rw [c3]; rfl
  · rw [UseCount_live o _ ho _ d2]; congr 1; omega
  · rw [d3, c3]; rfl
  · exact UseCount_live o 1 ho _ e2'
  · rw [e3, d3, c3]; rfl
  · simp [Destroy]
  · simp [Destroy, Store.setObj, e3, d3, c3]

/-- The spec's instance of C16: object `100` with counter 0, `k = 2` copies, `j = 2`. -/
theorem c16_witness :
    ∃ h st1 st2 st3 st4 st5,
      IntrusivePtr.fromRaw 100 (oneObject 0) = some (h, st1) ∧ h.Get = 100 ∧
      h.UseCount st1 = some 1 ∧ st1.destroyed = (oneObject 0).destroyed ∧
      copies h 2 st1 = some st2 ∧ h.UseCount st2 = some (2 + 1) ∧
      st2.destroyed = (oneObject 0).destroyed ∧
      destroys h 2 st2 = some st3 ∧ h.UseCount st3 = some (2 + 1 - 2) ∧
      st3.destroyed = (oneObject 0).destroyed ∧
      destroys h (2 - 2) st3 = some st4 ∧ h.UseCount st4 = some 1 ∧
      st4.destroyed = (oneObject 0).destroyed ∧
      h.destroy st4 = some st5 ∧ st5 = Destroy 100 (st4.setObj 100 (some { count_ := 0 })) ∧
      st5.objs 100 = none ∧ st5.destroyed = (oneObject 0).destroyed ++ [100] :=
  c16_intrusive_counting (oneObject 0) 100 2 2 (by decide) rfl (by norm_num) (by decide)

/-- C17 fails on the code at counter 0. For a live object with counter `c`,
`RefCounted::DecRef` calls `Destroy` when `c` is 1 and also when `c` is 0, where the
counter's `DecRef` clamps and returns 0; for `c > 1` it stores `c - 1` and makes no call. -/
theorem c17_decref_destroys_at_zero_too (st : Store) (o c : Nat)
    (hc : st.objs o = some { count_ := c }) :
    ∃ st1, RefCounted.DecRef o st = some st1 ∧
      (c ≤ 1 → st1.objs o = none ∧ st1.destroyed = st.destroyed ++ [o]) ∧
      (1 < c → st1.objs o = some { count_ := c - 1 } ∧ st1.destroyed = st.destroyed) := by
  rw [DecRef_live o c st hc]
  by_cases h : c ≤ 1
  · refine ⟨_, if_pos h, fun _ => ?_, fun h1 => ?_⟩
    · simp [Destroy, Store.setObj]
    · omega
  · refine ⟨_, if_neg h, fun h1 => ?_, fun _ => ?_⟩
    · omega
    · simp [Store.setObj]

/-- The failing input of C17: `DecRef` on the object `100` whose counter is 0 destroys it. -/
theorem c17_witness :
    ∃ st1, RefCounted.DecRef 100 (oneObject 0) = some st1 ∧
      (0 ≤ 1 → st1.objs 100 = none ∧ st1.destroyed = (oneObject 0).destroyed ++ [100]) ∧
      (1 < 0 → st1.objs 100 = some { count_ := 0 - 1 } ∧
        st1.destroyed = (oneObject 0).destroyed) :=
  c17_decref_destroys_at_zero_too (oneObject 0) 100 0 rfl

/-- C18. `SimpleCounter` on a 64-bit `size_t`: `IncRef` stores and returns `c + 1` modulo
`2 ^ 64`; `DecRef` stores and returns `c - 1` when `c > 0` and changes nothing and returns 0
when `c = 0`; `RefCount` returns the count. -/
theorem c18_simple_counter (c : SimpleCounter) :
    c.IncRef = ((c.count_ + 1) % 2 ^ 64, { count_ := (c.count_ + 1) % 2 ^ 64 }) ∧
    (0 < c.count_ → c.DecRef = (c.count_ - 1, { count_ := c.count_ - 1 })) ∧
    (c.count_ = 0 → c.DecRef = (0, c)) ∧
    c.RefCount = c.count_ := by
  refine ⟨rfl, fun h => ?_, fun h => ?_, rfl⟩
  · have h0 : c.count_ ≠ 0 := by omega
    simp [SimpleCounter.DecRef, h0]
  · simp [SimpleCounter.DecRef, h]

/-- The statement of C18 at the counts `5` and `0`. -/
theorem c18_witness :
    SimpleCounter.DecRef { count_ := 5 } = (5 - 1, { count_ := 5 - 1 }) ∧
    SimpleCounter.DecRef { count_ := 0 } = (0, { count_ := 0 }) :=
  ⟨(c18_simple_counter { count_ := 5 }).2.1 (by decide),
   (c18_simple_counter { count_ := 0 }).2.2.1 rfl⟩

end Intrusive

namespace Shared

open SFT (Ptr Event BlockImpl ControlBlockBase Heap Res toSizeT)

/-! ## Shared ownership, first variant: the claims -/

theorem Lock_never_returns (w : WeakPtr) (b : Nat) (cb : ControlBlockBase) (hp : Heap)
    (hb : w.block_ = some b) (hcb : hp.blocks b = some cb) (hs : 0 < cb.strong_) :
    ∀ depth, WeakPtr.Lock depth w hp = none := by
  intro depth
  induction depth with
  | zero => rfl
  | succ d ih =>
    have hne : toSizeT cb.strong_ ≠ 0 := by
      rw [Ne, SFT.toSizeT_eq_zero_iff _ (le_of_lt hs)]; omega
    simp [WeakPtr.Lock, WeakPtr.Expired, WeakPtr.UseCount, hb, GetStrong, hcb, hne,
      SharedPtr.fromWeakWith, ExistsStrong, hs, ih]

/-- C19 fails on the code. For a group made by `MakeShared` (payload at `q`, block at the
free address `a`) and never observed, the destruction of its only `SharedPtr` succeeds and
runs the payload's destructor twice: once in `ControlBlockEmplaceImpl::ZeroStrong` and
once more in the destructor of the block, before the block is deallocated. -/
theorem c19_emplaced_payload_destroyed_twice (hp : Heap) (q : Ptr) (a : Nat)
    (hq : q ≠ 0) (ha : hp.blocks a = none) :
    ∃ h hp0 hp1, MakeShared q a hp = some (h, hp0) ∧ h.Get = q ∧
      h.UseCount hp0 = some 1 ∧ hp0.log = hp.log ∧
      h.destroy hp0 = some hp1 ∧ hp1.blocks a = none ∧
      hp1.log = hp.log ++
        [Event.destroyInPlace q, Event.destroyInPlace q, Event.deleteBlock a] := by
  refine ⟨{ ptr_ := q, block_ := some a },
    hp.setBlock a (some { strong_ := 1, weak_ := 0, impl := .emplace q }),
    ((((hp.setBlock a (some { strong_ := 1, weak_ := 0, impl := .emplace q })).emit
      (Event.destroyInPlace q)).emit (Event.destroyInPlace q)).setBlock a none).emit
      (Event.deleteBlock a), ?_, rfl, ?_, rfl, ?_, ?_, ?_⟩
  · simp [MakeShared, ha, hq]
  · simp [SharedPtr.UseCount, GetStrong, Heap.setBlock, toSizeT]
  · simp [SharedPtr.destroy, SharedPtr.Reset, GetStrong, ZeroStrong, ExistsWeak, ZeroWeak,
      deleteBlock, Heap.setBlock, Heap.emit]
  · simp [Heap.setBlock, Heap.emit]
  · simp [Heap.setBlock, Heap.emit]

/-- The failing input of C19: `MakeShared` on the empty heap with payload at `100` and
block at `1`. -/
theorem c19_witness :
    ∃ h hp0 hp1, MakeShared 100 1 Heap.empty = some (h, hp0) ∧ h.Get = 100 ∧
      h.UseCount hp0 = some 1 ∧ hp0.log = Heap.empty.log ∧
      h.destroy hp0 = some hp1 ∧ hp1.blocks 1 = none ∧
      hp1.log = Heap.empty.log ++
        [Event.destroyInPlace 100, Event.destroyInPlace 100, Event.deleteBlock 1] :=
  c19_emplaced_payload_destroyed_twice Heap.empty 100 1 (by decide) rfl

/-- C20 fails on the code. For a `WeakPtr` whose live block has a positive strong count,
neither `Lock()` nor the promoting constructor returns within any number of nested calls:
each of the two calls the other on the same arguments. -/
theorem c20_promotion_never_returns (w : WeakPtr) (b : Nat) (cb : ControlBlockBase)
    (hp : Heap) (hb : w.block_ = some b) (hcb : hp.blocks b = some cb)
    (hs : 0 < cb.strong_) (depth : Nat) :
    WeakPtr.Lock depth w hp = none ∧ SharedPtr.fromWeak depth w hp = none := by
  have h := Lock_never_returns w b cb hp hb hcb hs
  refine ⟨h depth, ?_⟩
  simp [SharedPtr.fromWeak, SharedPtr.fromWeakWith, hb, ExistsStrong, hcb, hs, h depth]

/-- The failing input of C20: one owner and one observer of block `1`, with a bound of
one million nested calls. -/
theorem c20_witness :
    WeakPtr.Lock 1000000 { ptr_ := 100, block_ := some 1 } observedGroup = none ∧
    SharedPtr.fromWeak 1000000 { ptr_ := 100, block_ := some 1 } observedGroup = none :=
  c20_promotion_never_returns { ptr_ := 100, block_ := some 1 } 1
    { strong_ := 1, weak_ := 1, impl := .pointer 100 } observedGroup rfl rfl (by decide) 1000000

end Shared

namespace SFT

/-! ## The claims on the control block of shared-from-this/ -/

/-- The heap `wrappedSelfObserver` is the one that `SharedPtr<T> h; h.Reset(p);
p->weak_this_ = h;` reaches from the new self-observing payload at `100`. -/
theorem wrappedSelfObserver_reached :
    ∃ h hp1 w hp2, SharedPtr.ResetPtr SharedPtr.default 100 1 neverWrapped = some (h, hp1) ∧
      hp1.weak_this_ 100 = some WeakPtr.default ∧
      WeakPtr.assignShared WeakPtr.default h hp1 = some (w, hp2) ∧
      (hp2.setWeakThis 100 (some w)).blocks 1 = wrappedSelfObserver.blocks 1 ∧
      (hp2.setWeakThis 100 (some w)).weak_this_ 100 = wrappedSelfObserver.weak_this_ 100 ∧
      (hp2.setWeakThis 100 (some w)).log = wrappedSelfObserver.log := by
  refine ⟨_, _, _, _, rfl, rfl, rfl, rfl, rfl, rfl⟩

/-- C23. On a live block, `DecrementWeak` stores `weak_ - 1` and leaves `strong_`, the
data member of the derived class, every `weak_this_` and every other block unchanged; no
payload event is logged.  The block is deallocated, once, exactly when afterwards
`strong_ + weak_ = 0`. -/
theorem c23_decrement_weak (b : Nat) (hp : Heap) (cb : ControlBlockBase)
    (hcb : hp.blocks b = some cb) :
    ∃ hp1, DecrementWeak b hp = some hp1 ∧
      hp1.blocks b = (if cb.strong_ + (cb.weak_ - 1) = 0 then none
        else some { cb with weak_ := cb.weak_ - 1 }) ∧
      hp1.log = hp.log ++
        (if cb.strong_ + (cb.weak_ - 1) = 0 then [Event.deleteBlock b] else []) ∧
      hp1.weak_this_ = hp.weak_this_ ∧
      (∀ i, i ≠ b → hp1.blocks i = hp.blocks i) := by
  apply exists_of_match
  by_cases h : cb.strong_ + (cb.weak_ - 1) = 0
  · have h1 : cb.weak_ - 1 + cb.strong_ = 0 := by omega
    simp +contextual [DecrementWeak, hcb, h, h1, ZeroWeak, Heap.setBlock, Heap.emit]
  · have h1 : ¬ (cb.weak_ - 1 + cb.strong_ = 0) := by omega
    simp +contextual [DecrementWeak, hcb, h, h1, ZeroWeak, Heap.setBlock, Heap.emit]

/-- The statement of C23 on the expired group: the last observer goes, the block is
deallocated. -/
theorem c23_witness :
    ∃ hp1, DecrementWeak 1 expiredGroup = some hp1 ∧
      hp1.blocks 1 = none ∧
      hp1.log = expiredGroup.log ++ [Event.deleteBlock 1] ∧
      hp1.weak_this_ = expiredGroup.weak_this_ ∧
      (∀ i, i ≠ 1 → hp1.blocks i = expiredGroup.blocks i) :=
  c23_decrement_weak 1 expiredGroup ⟨0, 1, .pointer 0⟩ rfl

/-! ## The claims on `Reset(T*)`, `WeakPtr` and the back-link -/

theorem ResetPtr_eq_reconstruction (h : SharedPtr) (p a : Nat) (hp : Heap) (hne : h.Get ≠ p) :
    h.ResetPtr p a hp = resetByReconstruction h p a false hp := by
  have h1 : h.ptr_ ≠ p := hne
  unfold SharedPtr.ResetPtr resetByReconstruction SharedPtr.destroy
  cases hr : h.Reset hp with
  | none => simp [h1]
  | some r =>
    obtain ⟨self1, hp1⟩ := r
    cases hb : hp1.blocks a with
    | some x => simp [h1, SharedPtr.fromRaw, hb]
    | none =>
      by_cases h0 : self1.ptr_ = 0 <;>
        simp [h1, SharedPtr.fromRaw, hb, h0, Put, setBlock_setBlock]

theorem reconstruction_links (h : SharedPtr) (p a : Nat) (hp : Heap) (hb : h.block_ = none)
    (hfree : hp.blocks a = none) :
    ∃ hpC, resetByReconstruction h p a true (newPayload p true hp)
        = some ({ ptr_ := p, block_ := some a }, hpC) ∧
      hpC.blocks a = some { strong_ := 1, weak_ := 1, impl := BlockImpl.pointer p } ∧
      hpC.weak_this_ p = some { ptr_ := p, block_ := some a } := by
  apply exists_of_match_pair
  simp [resetByReconstruction, SharedPtr.destroy, SharedPtr.Reset, hb, SharedPtr.fromRaw,
    newPayload, Heap.setWeakThis, hfree, intendedLink, WeakPtr.fromShared, IncrementWeak,
    WeakPtr.assign, WeakPtr.Reset, WeakPtr.default, WeakPtr.destroy, DecrementWeak,
    Heap.setBlock]

theorem SharedFromThisConst_wrapped (p a : Nat) (hp : Heap) (cb : ControlBlockBase)
    (hp_ne : p ≠ 0) (hwt : hp.weak_this_ p = some { ptr_ := p, block_ := some a })
    (hcb : hp.blocks a = some cb) (hs : 1 ≤ cb.strong_) (hw : 0 ≤ cb.weak_) :
    SharedFromThisConst p hp =
      Res.ok { ptr_ := p, block_ := some a }
        (hp.setBlock a (some { cb with strong_ := cb.strong_ + 1 })) := by
  have hpos : 0 < cb.strong_ := by omega
  have h3 : ¬ (cb.strong_ + 1 + 1 = 1) := by omega
  have hlock := Lock_live { ptr_ := p, block_ := some a } a hp cb rfl hcb hpos hw
  have hd := DecrementStrong_many a
    ((hp.setBlock a (some { cb with strong_ := cb.strong_ + 1 })).setBlock a
      (some { cb with strong_ := cb.strong_ + 1 + 1 })) _ (setBlock_same_val _ _ _) h3
  simp only [setBlock_setBlock] at hd
  simp only [SharedFromThisConst, hwt, hlock, SharedPtr.toBool, hp_ne, ne_eq,
    not_false_eq_true, decide_True, ↓reduceIte]
  simp [SharedPtr.copy, IncrementStrong, SharedPtr.destroy, SharedPtr.Reset, hp_ne,
    GetStrong, h3, hd, setBlock_setBlock]

/-- C24 fails on the code. `Reset(T* p)` with `p` different from the held pointer always
equals the destruction of the handle followed by the construction of a handle from `p`
for a payload type that is not self-observing, and the template overload does the same
for a non-null `p`.  It never stores the `weak_this_` link: for a self-observing payload
the result has weak count 0 and an empty link, and `SharedFromThis() const` throws, where
the reconstruction that the spec describes gives weak count 1 and a link, and
`SharedFromThis() const` returns.  A handle with a null pointer on a block is not released
either. -/
theorem c24_reset_ptr_never_links (h : SharedPtr) (p a : Nat) (hp : Heap) (hne : h.Get ≠ p) :
    h.ResetPtr p a hp = resetByReconstruction h p a false hp ∧
    (p ≠ 0 → h.ResetPtrU p a hp = h.ResetPtr p a hp) ∧
    (h.Get = 0 → h.ResetPtr p a hp = SharedPtr.fromRaw p a false hp) ∧
    (h.block_ = none → p ≠ 0 → hp.blocks a = none →
      (∃ hpR, h.ResetPtr p a (newPayload p true hp)
          = some ({ ptr_ := p, block_ := some a }, hpR) ∧
        SharedPtr.UseCount { ptr_ := p, block_ := some a } hpR = some 1 ∧
        GetWeak a hpR = some 0 ∧ hpR.weak_this_ p = some WeakPtr.default ∧
        (SharedFromThisConst p hpR).threw = true) ∧
      (∃ hpC, resetByReconstruction h p a true (newPayload p true hp)
          = some ({ ptr_ := p, block_ := some a }, hpC) ∧
        SharedPtr.UseCount { ptr_ := p, block_ := some a } hpC = some 1 ∧
        GetWeak a hpC = some 1 ∧
        hpC.weak_this_ p = some { ptr_ := p, block_ := some a } ∧
        (SharedFromThisConst p hpC).threw = false)) := by
  have h1 : h.ptr_ ≠ p := hne
  refine ⟨ResetPtr_eq_reconstruction h p a hp hne, fun hp0 => ?_, fun h0 => ?_,
    fun hb hp0 hfree => ⟨?_, ?_⟩⟩
  · simp [SharedPtr.ResetPtrU, SharedPtr.ResetPtr, h1, hp0]
  · have h0' : h.ptr_ = 0 := h0
    have hr : h.Reset hp = some (h, hp) := by
      unfold SharedPtr.Reset
      cases h.block_ <;> simp [h0']
    rw [ResetPtr_eq_reconstruction h p a hp hne]
    cases hf : SharedPtr.fromRaw p a false hp with
    | none => simp [resetByReconstruction, SharedPtr.destroy, hr, hf]
    | some r => simp [resetByReconstruction, SharedPtr.destroy, hr, hf]
  · have hr : h.Reset (newPayload p true hp) = some (h, newPayload p true hp) := by
      simp [SharedPtr.Reset, hb]
    have hfree1 : (newPayload p true hp).blocks a = none := hfree
    refine ⟨(newPayload p true hp).setBlock a
      (some { strong_ := 1, weak_ := 0, impl := .pointer p }), ?_, ?_, ?_, ?_, ?_⟩
    · rw [ResetPtr_eq_reconstruction h p a _ hne]
      simp [resetByReconstruction, SharedPtr.destroy, hr, SharedPtr.fromRaw, hfree1]
    · simp [SharedPtr.UseCount, GetStrong, toSizeT]
    · simp [GetWeak]
    · simp [newPayload]
    · have hwt : ((newPayload p true hp).setBlock a
          (some { strong_ := 1, weak_ := 0, impl := .pointer p })).weak_this_ p
          = some WeakPtr.default := by simp [newPayload]
      simp [SharedFromThisConst, hwt, Lock_empty, WeakPtr.default, SharedPtr.toBool,
        SharedPtr.default, SharedPtr.destroy, SharedPtr.Reset, Res.threw]
  · have hr : h.Reset (newPayload p true hp) = some (h, newPayload p true hp) := by
      simp [SharedPtr.Reset, hb]
    obtain ⟨hpC, e1, e3, e5⟩ := reconstruction_links h p a hp hb hfree
    refine ⟨hpC, e1, ?_, ?_, e5, ?_⟩
    · simp [SharedPtr.UseCount, GetStrong, e3, toSizeT]
    · simp [GetWeak, e3]
    · rw [SharedFromThisConst_wrapped p a hpC _ hp0 e5 e3 (by simp) (by simp)]
      rfl

/-- The failing input of C24: the empty handle is reset to the never-wrapped
self-observing payload at `100`, with the new block at `1`. -/
theorem c24_witness :
    (∃ hpR, SharedPtr.ResetPtr SharedPtr.default 100 1 (newPayload 100 true Heap.empty)
        = some ({ ptr_ := 100, block_ := some 1 }, hpR) ∧
      SharedPtr.UseCount { ptr_ := 100, block_ := some 1 } hpR = some 1 ∧
      GetWeak 1 hpR = some 0 ∧ hpR.weak_this_ 100 = some WeakPtr.default ∧
      (SharedFromThisConst 100 hpR).threw = true) ∧
    (∃ hpC, resetByReconstruction SharedPtr.default 100 1 true (newPayload 100 true Heap.empty)
        = some ({ ptr_ := 100, block_ := some 1 }, hpC) ∧
      SharedPtr.UseCount { ptr_ := 100, block_ := some 1 } hpC = some 1 ∧
      GetWeak 1 hpC = some 1 ∧
      hpC.weak_this_ 100 = some { ptr_ := 100, block_ := some 1 } ∧
      (SharedFromThisConst 100 hpC).threw = false) :=
  (c24_reset_ptr_never_links SharedPtr.default 100 1 Heap.empty (by decide)).2.2.2 rfl
    (by decide) rfl

/-- C25. For a live block `b` with counts `strong_` and `weak_`: a `WeakPtr` built from a
`SharedPtr` on `b`, or copied from a `WeakPtr` on `b`, observes `b` and the block then has
`weak_ + 1` and the same `strong_`; destroying or `Reset()`-ing a `WeakPtr` on `b` stores
`weak_ - 1` with the same `strong_`, or deallocates the block when both counts are then 0,
and `Reset()` leaves the handle without block; `UseCount()` is the strong count converted
to `size_t`, and 0 for a handle without block. -/
theorem c25_weak_never_changes_strong (b : Nat) (hp : Heap) (cb : ControlBlockBase)
    (sp : SharedPtr) (w : WeakPtr) (hcb : hp.blocks b = some cb)
    (hsp : sp.block_ = some b) (hw : w.block_ = some b) :
    WeakPtr.fromShared sp hp
      = some ({ ptr_ := sp.ptr_, block_ := some b },
          hp.setBlock b (some { cb with weak_ := cb.weak_ + 1 })) ∧
    w.copy hp
      = some ({ ptr_ := w.ptr_, block_ := some b },
          hp.setBlock b (some { cb with weak_ := cb.weak_ + 1 })) ∧
    (cb.weak_ - 1 + cb.strong_ ≠ 0 →
      w.destroy hp = some (hp.setBlock b (some { cb with weak_ := cb.weak_ - 1 })) ∧
      w.Reset hp = some ({ ptr_ := w.ptr_, block_ := none },
        hp.setBlock b (some { cb with weak_ := cb.weak_ - 1 }))) ∧
    (cb.weak_ - 1 + cb.strong_ = 0 →
      w.destroy hp = some ((hp.setBlock b none).emit (Event.deleteBlock b)) ∧
      w.Reset hp = some ({ ptr_ := w.ptr_, block_ := none },
        (hp.setBlock b none).emit (Event.deleteBlock b))) ∧
    w.UseCount hp = some (toSizeT cb.strong_) ∧
    (0 ≤ cb.strong_ → (w.UseCount hp).map Int.ofNat = some cb.strong_) ∧
    (∀ w0 : WeakPtr, w0.block_ = none →
      w0.UseCount hp = some 0 ∧ w0.destroy hp = some hp ∧ w0.Reset hp = some (w0, hp)) := by
  refine ⟨?_, ?_, fun h => ⟨?_, ?_⟩, fun h => ⟨?_, ?_⟩, ?_, fun h => ?_, fun w0 h0 => ?_⟩
  · simp [WeakPtr.fromShared, hsp, IncrementWeak, hcb]
  · simp [WeakPtr.copy, hw, IncrementWeak, hcb]
  · simp [WeakPtr.destroy, hw, DecrementWeak, hcb, h]
  · simp [WeakPtr.Reset, hw, DecrementWeak, hcb, h]
  · simp [WeakPtr.destroy, hw, DecrementWeak, hcb, h, ZeroWeak, setBlock_setBlock]
  · simp [WeakPtr.Reset, hw, DecrementWeak, hcb, h, ZeroWeak, setBlock_setBlock]
  · simp [WeakPtr.UseCount, hw, GetStrong, hcb]
  · simp [WeakPtr.UseCount, hw, GetStrong, hcb, toSizeT_of_nonneg _ h]
  · simp [WeakPtr.UseCount, WeakPtr.destroy, WeakPtr.Reset, h0]

/-- The statement of C25 on a group with one owner and two observers. -/
theorem c25_witness :
    WeakPtr.fromShared { ptr_ := 100, block_ := some 1 } twoObservers
      = some ({ ptr_ := 100, block_ := some 1 },
          twoObservers.setBlock 1 (some { strong_ := 1, weak_ := 2 + 1, impl := .pointer 100 })) ∧
    WeakPtr.destroy { ptr_ := 100, block_ := some 1 } twoObservers
      = some (twoObservers.setBlock 1
          (some { strong_ := 1, weak_ := 2 - 1, impl := .pointer 100 })) ∧
    WeakPtr.UseCount { ptr_ := 100, block_ := some 1 } twoObservers = some (toSizeT 1) :=
  ⟨(c25_weak_never_changes_strong 1 twoObservers ⟨1, 2, .pointer 100⟩
      { ptr_ := 100, block_ := some 1 } { ptr_ := 100, block_ := some 1 } rfl rfl rfl).1,
   ((c25_weak_never_changes_strong 1 twoObservers ⟨1, 2, .pointer 100⟩
      { ptr_ := 100, block_ := some 1 } { ptr_ := 100, block_ := some 1 } rfl rfl rfl).2.2.1
        (by decide)).1,
   (c25_weak_never_changes_strong 1 twoObservers ⟨1, 2, .pointer 100⟩
      { ptr_ := 100, block_ := some 1 } { ptr_ := 100, block_ := some 1 } rfl rfl rfl).2.2.2.2.1⟩

/-- C26 fails on the code. For a self-observing `T` the raw-pointer constructor and
`MakeShared` have no instance, because the statement that is to store the link is
ill-formed, and `WeakFromThis() const` has none either.  `Reset(T*)`, which can take such a
payload, stores no link: the handle has `UseCount() = 1`, the weak count is 0, not 1, the
link is empty, and `WeakFromThis()` returns a `WeakPtr` that is `Expired()` with
`UseCount() = 0` although the strong count is 1.  On a payload whose link observes a live
block, `WeakFromThis()` returns a `WeakPtr` on that block whose `UseCount()` is the strong
count, which it leaves unchanged; on a never-wrapped payload it returns a `WeakPtr` that is
`Expired()` and changes nothing. -/
theorem c26_no_back_link_is_stored (p a : Nat) (hp0 : Heap) :
    SharedPtr.fromRaw p a true hp0 = none ∧
    MakeShared p a true hp0 = none ∧
    WeakFromThisConst p hp0 = none ∧
    (p ≠ 0 → hp0.blocks a = none →
      ∃ hp1, SharedPtr.ResetPtr SharedPtr.default p a (newPayload p true hp0)
          = some ({ ptr_ := p, block_ := some a }, hp1) ∧
        SharedPtr.UseCount { ptr_ := p, block_ := some a } hp1 = some 1 ∧
        GetStrong a hp1 = some 1 ∧ GetWeak a hp1 = some 0 ∧
        hp1.weak_this_ p = some WeakPtr.default ∧
        ∃ w, WeakFromThis p hp1 = some (w, hp1) ∧ w.UseCount hp1 = some 0 ∧
          w.Expired hp1 = some true) ∧
    (∀ (hp : Heap) (wt : WeakPtr) (b : Nat) (cb : ControlBlockBase),
      hp.weak_this_ p = some wt → wt.block_ = some b → hp.blocks b = some cb →
      ∃ w hp2, WeakFromThis p hp = some (w, hp2) ∧ w.block_ = some b ∧
        w.UseCount hp2 = some (toSizeT cb.strong_) ∧
        GetStrong b hp2 = some cb.strong_ ∧ GetWeak b hp2 = some (cb.weak_ + 1) ∧
        hp2.log = hp.log) ∧
    (∃ w, WeakFromThis p (newPayload p true hp0) = some (w, newPayload p true hp0) ∧
      w.Expired (newPayload p true hp0) = some true) := by
  refine ⟨fromRaw_self_observing p a hp0, MakeShared_self_observing p a hp0, rfl,
    fun hp_ne hfree => ?_, ?_, ?_⟩
  · have hr := ResetPtr_new_self_observing p a hp0 hfree
    simp only [hp_ne, ↓reduceIte] at hr
    have hwt : ((newPayload p true hp0).setBlock a
        (some { strong_ := 1, weak_ := 0, impl := BlockImpl.pointer p })).weak_this_ p
        = some WeakPtr.default := by simp [newPayload]
    refine ⟨_, hr, ?_, ?_, ?_, hwt, WeakPtr.default, ?_, ?_, ?_⟩
    · simp [SharedPtr.UseCount, GetStrong, toSizeT]
    · simp [GetStrong]
    · simp [GetWeak]
    · simp [WeakFromThis, hwt, WeakPtr.copy, WeakPtr.default]
    · simp [WeakPtr.UseCount, WeakPtr.default]
    · simp [WeakPtr.Expired, WeakPtr.UseCount, WeakPtr.default]
  · intro hp wt b cb hwt hb hcb
    refine ⟨{ ptr_ := wt.ptr_, block_ := some b },
      hp.setBlock b (some { cb with weak_ := cb.weak_ + 1 }), ?_, rfl, ?_, ?_, ?_, rfl⟩
    · simp [WeakFromThis, hwt, WeakPtr.copy, hb, IncrementWeak, hcb]
    · simp [WeakPtr.UseCount, GetStrong]
    · simp [GetStrong]
    · simp [GetWeak]
  · refine ⟨WeakPtr.default, ?_, ?_⟩
    · simp [WeakFromThis, newPayload, WeakPtr.copy, WeakPtr.default]
    · simp [WeakPtr.Expired, WeakPtr.UseCount, WeakPtr.default]

/-- The failing input of C26: the new self-observing payload at `100` is taken by
`SharedPtr<T> h; h.Reset(p);` with the block at `1`, and `WeakFromThis()` is called. -/
theorem c26_witness :
    ∃ hp1, SharedPtr.ResetPtr SharedPtr.default 100 1 (newPayload 100 true Heap.empty)
        = some ({ ptr_ := 100, block_ := some 1 }, hp1) ∧
      SharedPtr.UseCount { ptr_ := 100, block_ := some 1 } hp1 = some 1 ∧
      GetStrong 1 hp1 = some 1 ∧ GetWeak 1 hp1 = some 0 ∧
      hp1.weak_this_ 100 = some WeakPtr.default ∧
      ∃ w, WeakFromThis 100 hp1 = some (w, hp1) ∧ w.UseCount hp1 = some 0 ∧
        w.Expired hp1 = some true :=
  (c26_no_back_link_is_stored 100 1 Heap.empty).2.2.2.1 (by decide) rfl

/-- C29 fails on the code. A `WeakPtr` built from a `SharedPtr` `sp` on a live group and
then emptied by `Reset()` keeps its pointer; the assignment `w = sp` compares the
pointers, finds them equal and does nothing: afterwards `w.UseCount()` is 0 while
`sp.UseCount()` is not, `w.Expired()` is true and `w.Lock()` returns the empty handle.
When the pointers differ, the assignment makes the handle observe the group of `sp`. -/
theorem c29_assign_after_reset_is_skipped (sp : SharedPtr) (b : Nat) (hp : Heap)
    (cb : ControlBlockBase) (hsp : sp.block_ = some b) (hcb : hp.blocks b = some cb)
    (hs : 0 < cb.strong_) (hw : 0 ≤ cb.weak_) :
    (∃ w hp1 w1 hp2, WeakPtr.fromShared sp hp = some (w, hp1) ∧
      w.Reset hp1 = some (w1, hp2) ∧ hp2.blocks b = some cb ∧
      w1.assignShared sp hp2 = some (w1, hp2) ∧
      w1.UseCount hp2 = some 0 ∧ sp.UseCount hp2 = some (toSizeT cb.strong_) ∧
      toSizeT cb.strong_ ≠ 0 ∧
      w1.Expired hp2 = some true ∧
      w1.Lock hp2 = Res.ok SharedPtr.default hp2) ∧
    (∀ w0 : WeakPtr, w0.block_ = none → w0.ptr_ ≠ sp.ptr_ →
      ∃ w1 hp1, w0.assignShared sp hp = some (w1, hp1) ∧
        w1.UseCount hp1 = sp.UseCount hp1 ∧ w1.Expired hp1 = some false ∧
        ((w1.Lock hp1).val?).map SharedPtr.Get = some sp.Get) := by
  have hne : toSizeT cb.strong_ ≠ 0 := by
    rw [Ne, toSizeT_eq_zero_iff _ (le_of_lt hs)]; omega
  constructor
  · have h1 : ¬ (cb.weak_ + cb.strong_ = 0) := by omega
    refine ⟨{ ptr_ := sp.ptr_, block_ := some b },
      hp.setBlock b (some { cb with weak_ := cb.weak_ + 1 }),
      { ptr_ := sp.ptr_, block_ := none },
      (hp.setBlock b (some { cb with weak_ := cb.weak_ + 1 })).setBlock b
        (some { cb with weak_ := cb.weak_ + 1 - 1 }), ?_, ?_, ?_, ?_, ?_, ?_, hne, ?_, ?_⟩
    · simp [WeakPtr.fromShared, hsp, IncrementWeak, hcb]
    · simp [WeakPtr.Reset, DecrementWeak, h1]
    · simp
    · simp [WeakPtr.assignShared]
    · simp [WeakPtr.UseCount]
    · simp [SharedPtr.UseCount, hsp, GetStrong]
    · simp [WeakPtr.Expired, WeakPtr.UseCount]
    · exact Lock_empty _ _ rfl
  · intro w0 h0 hp0
    have hcb1 : (hp.setBlock b (some { cb with weak_ := cb.weak_ + 1 })).blocks b
        = some { cb with weak_ := cb.weak_ + 1 } := by simp
    refine ⟨{ ptr_ := sp.ptr_, block_ := some b },
      hp.setBlock b (some { cb with weak_ := cb.weak_ + 1 }), ?_, ?_, ?_, ?_⟩
    · simp [WeakPtr.assignShared, hp0, WeakPtr.Reset, h0, hsp, IncrementWeak, hcb]
    · simp [WeakPtr.UseCount, SharedPtr.UseCount, hsp]
    · simp [WeakPtr.Expired, WeakPtr.UseCount, GetStrong, hne]
    · rw [Lock_live { ptr_ := sp.ptr_, block_ := some b } b _ _ rfl hcb1 hs (by simp; omega)]
      simp [Res.val?, SharedPtr.Get]

/-- The failing input of C29: the group of `oneOwner`, `w = sp; w.Reset(); w = sp;`. -/
theorem c29_witness :
    ∃ w hp1 w1 hp2, WeakPtr.fromShared { ptr_ := 100, block_ := some 1 } oneOwner
        = some (w, hp1) ∧
      w.Reset hp1 = some (w1, hp2) ∧ hp2.blocks 1 = some ⟨1, 0, .pointer 100⟩ ∧
      w1.assignShared { ptr_ := 100, block_ := some 1 } hp2 = some (w1, hp2) ∧
      w1.UseCount hp2 = some 0 ∧
      SharedPtr.UseCount { ptr_ := 100, block_ := some 1 } hp2 = some (toSizeT 1) ∧
      toSizeT 1 ≠ 0 ∧
      w1.Expired hp2 = some true ∧
      w1.Lock hp2 = Res.ok SharedPtr.default hp2 :=
  (c29_assign_after_reset_is_skipped { ptr_ := 100, block_ := some 1 } 1 oneOwner
    ⟨1, 0, .pointer 100⟩ rfl rfl (by decide) (by decide)).1

end SFT

namespace Shared

open SFT (Ptr Event BlockImpl ControlBlockBase Heap Res toSizeT)

/-! ## Shared ownership, first variant: the block under an observer -/

/-- C21 fails on the code. When the only `SharedPtr` of a group with at least one observer
is destroyed, `Reset()` calls `ZeroStrong()` and then `DecrementStrong()`, which deletes
the control block as soon as `strong_` is 0: the block is deallocated while the `WeakPtr`
still points at it, and `UseCount()`, `Expired()` and the destructor of that `WeakPtr`
then access a deallocated block. -/
theorem c21_block_freed_under_observer (h : SharedPtr) (w : WeakPtr) (b : Nat) (hp : Heap)
    (cb : ControlBlockBase) (hh : h.block_ = some b) (hwb : w.block_ = some b)
    (hcb : hp.blocks b = some cb) (hs : cb.strong_ = 1) (hw : 0 < cb.weak_) :
    ∃ hp1, h.destroy hp = some hp1 ∧ hp1.blocks b = none ∧
      hp1.log = hp.log ++
        (match cb.impl with
          | .pointer p => if p = 0 then [] else [Event.deletePayload p]
          | .emplace q => [Event.destroyInPlace q, Event.destroyInPlace q]) ++
        [Event.deleteBlock b] ∧
      w.UseCount hp1 = none ∧ w.Expired hp1 = none ∧ w.destroy hp1 = none := by
  apply SFT.exists_of_match
  obtain ⟨s, wk, impl⟩ := cb
  simp only at hs hw
  subst hs
  have hw0 : wk ≠ 0 := by omega
  cases impl with
  | pointer p =>
    by_cases hp0 : p = 0
    · subst hp0
      simp +contextual [SharedPtr.destroy, SharedPtr.Reset, hh, GetStrong, hcb, ZeroStrong,
        ExistsWeak, hw, DecrementStrong, deleteBlock, Heap.setBlock, Heap.emit,
        WeakPtr.UseCount, WeakPtr.Expired, WeakPtr.destroy, WeakPtr.Reset, hwb, DecrementWeak]
    · simp +contextual [SharedPtr.destroy, SharedPtr.Reset, hh, GetStrong, hcb, ZeroStrong,
        ExistsWeak, hw, DecrementStrong, deleteBlock, Heap.setBlock, Heap.emit, hp0,
        WeakPtr.UseCount, WeakPtr.Expired, WeakPtr.destroy, WeakPtr.Reset, hwb, DecrementWeak]
  | emplace q =>
    simp +contextual [SharedPtr.destroy, SharedPtr.Reset, hh, GetStrong, hcb, ZeroStrong,
      ExistsWeak, hw, DecrementStrong, deleteBlock, Heap.setBlock, Heap.emit,
      WeakPtr.UseCount, WeakPtr.Expired, WeakPtr.destroy, WeakPtr.Reset, hwb, DecrementWeak]

/-- The failing input of C21: one owner and one observer of block `1`. -/
theorem c21_witness :
    ∃ hp1, SharedPtr.destroy { ptr_ := 100, block_ := some 1 } observedGroup = some hp1 ∧
      hp1.blocks 1 = none ∧
      hp1.log = observedGroup.log ++ [Event.deletePayload 100] ++ [Event.deleteBlock 1] ∧
      WeakPtr.UseCount { ptr_ := 100, block_ := some 1 } hp1 = none ∧
      WeakPtr.Expired { ptr_ := 100, block_ := some 1 } hp1 = none ∧
      WeakPtr.destroy { ptr_ := 100, block_ := some 1 } hp1 = none :=
  c21_block_freed_under_observer { ptr_ := 100, block_ := some 1 }
    { ptr_ := 100, block_ := some 1 } 1 observedGroup ⟨1, 1, .pointer 100⟩ rfl rfl rfl rfl
    (by decide)

end Shared

namespace Intrusive

/-! ## Intrusive counting: copy, move and the handle count -/

theorem setObj_objs_ne (st : Store) (o i : Ptr) (c : Option SimpleCounter) (h : i ≠ o) :
    (st.setObj o c).objs i = st.objs i := by
  simp [Store.setObj, h]

theorem destroy_live (q d : Nat) (st : Store) (hq : q ≠ 0)
    (hd : st.objs q = some { count_ := d }) :
    ∃ st1, IntrusivePtr.destroy { ptr_ := q } st = some st1 ∧
      (∀ i, i ≠ q → st1.objs i = st.objs i) ∧
      (1 < d → st1.objs q = some { count_ := d - 1 } ∧ st1.destroyed = st.destroyed) ∧
      (d ≤ 1 → st1.objs q = none ∧ st1.destroyed = st.destroyed ++ [q]) := by
  by_cases h : d ≤ 1
  · refine ⟨Destroy q (st.setObj q (some { count_ := 0 })), ?_, ?_, ?_, ?_⟩
    · simp [IntrusivePtr.destroy, hq, DecRef_live q d st hd, h]
    · intro i hi
      simp [Destroy, Store.setObj, hi]
    · intro h1; omega
    · intro _
      simp [Destroy, Store.setObj]
  · refine ⟨st.setObj q (some { count_ := d - 1 }), ?_, ?_, ?_, ?_⟩
    · simp [IntrusivePtr.destroy, hq, DecRef_live q d st hd, h]
    · intro i hi
      simp [Store.setObj, hi]
    · intro _
      simp [Store.setObj]
    · intro h1; omega

/-- C27. For a live object `o` with counter `c` (and `c + 1` in the range of `size_t`):
copy construction from a handle on `o` stores `c + 1`; copy assignment to a handle already
on `o` changes nothing; copy assignment to an empty handle stores `c + 1`; copy assignment
to a handle on another live object `q` stores `c + 1` in `o` and decrements the counter of
`q` once, destroying `q` when that counter was not above 1.  Move construction touches no
counter and empties the source; move assignment to a handle on another object or to an
empty handle leaves the counter of `o` at `c`, empties the source and decrements the
counter of the object the destination held; move assignment between handles on the same
object changes nothing. -/
theorem c27_copy_and_move (st : Store) (o c : Nat) (ho : o ≠ 0)
    (hc : st.objs o = some { count_ := c }) (hb : c + 1 < 2 ^ 64) :
    IntrusivePtr.copy { ptr_ := o } st
      = some ({ ptr_ := o }, st.setObj o (some { count_ := c + 1 })) ∧
    IntrusivePtr.copyAssign { ptr_ := o } { ptr_ := o } st = some ({ ptr_ := o }, st) ∧
    IntrusivePtr.copyAssign { ptr_ := 0 } { ptr_ := o } st
      = some ({ ptr_ := o }, st.setObj o (some { count_ := c + 1 })) ∧
    (∀ q d, q ≠ 0 → q ≠ o → st.objs q = some { count_ := d } →
      ∃ st1, IntrusivePtr.copyAssign { ptr_ := q } { ptr_ := o } st
          = some ({ ptr_ := o }, st1) ∧
        st1.objs o = some { count_ := c + 1 } ∧
        (1 < d → st1.objs q = some { count_ := d - 1 } ∧ st1.destroyed = st.destroyed) ∧
        (d ≤ 1 → st1.objs q = none ∧ st1.destroyed = st.destroyed ++ [q])) ∧
    IntrusivePtr.move { ptr_ := o } = ({ ptr_ := o }, { ptr_ := 0 }) ∧
    IntrusivePtr.moveAssign { ptr_ := o } { ptr_ := o } st
      = some ({ ptr_ := o }, { ptr_ := o }, st) ∧
    IntrusivePtr.moveAssign { ptr_ := 0 } { ptr_ := o } st
      = some ({ ptr_ := o }, { ptr_ := 0 }, st) ∧
    (∀ q d, q ≠ 0 → q ≠ o → st.objs q = some { count_ := d } →
      ∃ st1, IntrusivePtr.moveAssign { ptr_ := q } { ptr_ := o } st
          = some ({ ptr_ := o }, { ptr_ := 0 }, st1) ∧
        st1.objs o = some { count_ := c } ∧
        (1 < d → st1.objs q = some { count_ := d - 1 } ∧ st1.destroyed = st.destroyed) ∧
        (d ≤ 1 → st1.objs q = none ∧ st1.destroyed = st.destroyed ++ [q])) := by
  have hcopy := copy_live o c st ho hc hb
  have ho' : ¬ (0 = o) := fun h => ho h.symm
  refine ⟨hcopy, ?_, ?_, ?_, rfl, ?_, ?_, ?_⟩
  · simp [IntrusivePtr.copyAssign]
  · simp [IntrusivePtr.copyAssign, ho', hcopy, IntrusivePtr.Swap, IntrusivePtr.destroy]
  · intro q d hq hqo hd
    have hd1 : (st.setObj o (some { count_ := c + 1 })).objs q = some { count_ := d } := by
      rw [setObj_objs_ne _ _ _ _ hqo]; exact hd
    obtain ⟨st1, e1, e2, e3, e4⟩ := destroy_live q d _ hq hd1
    refine ⟨st1, ?_, ?_, e3, e4⟩
    · simp [IntrusivePtr.copyAssign, hqo, hcopy, IntrusivePtr.Swap, e1]
    · rw [e2 o (fun h => hqo h.symm)]
      exact setObj_objs_self _ _ _
  · simp [IntrusivePtr.moveAssign]
  · simp [IntrusivePtr.moveAssign, ho', IntrusivePtr.Release, IntrusivePtr.ResetPtr,
      IntrusivePtr.Reset]
  · intro q d hq hqo hd
    obtain ⟨st1, e1, e2, e3, e4⟩ := destroy_live q d st hq hd
    have e1' : RefCounted.DecRef q st = some st1 := by
      simpa [IntrusivePtr.destroy, hq] using e1
    refine ⟨st1, ?_, ?_, e3, e4⟩
    · simp [IntrusivePtr.moveAssign, hqo, IntrusivePtr.Release, IntrusivePtr.ResetPtr,
        IntrusivePtr.Reset, hq, e1']
    · rw [e2 o (fun h => hqo h.symm)]
      exact hc

/-- The statement of C27 for the object `100` with counter 1 and a destination on the
object `200` with counter 2. -/
theorem c27_witness :
    ∃ st1, IntrusivePtr.copyAssign { ptr_ := 200 } { ptr_ := 100 } (twoObjects 1 2)
        = some ({ ptr_ := 100 }, st1) ∧
      st1.objs 100 = some { count_ := 1 + 1 } ∧
      (1 < 2 → st1.objs 200 = some { count_ := 2 - 1 } ∧
        st1.destroyed = (twoObjects 1 2).destroyed) ∧
      (2 ≤ 1 → st1.objs 200 = none ∧ st1.destroyed = (twoObjects 1 2).destroyed ++ [200]) :=
  (c27_copy_and_move (twoObjects 1 2) 100 1 (by decide) rfl (by norm_num)).2.2.2.1 200 2
    (by decide) (by decide) rfl

theorem handlesOn_cons (h : IntrusivePtr) (hs : List IntrusivePtr) (o : Ptr) :
    handlesOn (h :: hs) o = handlesOn hs o + if h.ptr_ = o then 1 else 0 := by
  by_cases e : h.ptr_ = o <;> simp [handlesOn, List.countP_cons, e]

/-- C28 fails on the code. `Reset(T* q)` on a handle that does not point at `q` releases
the old object and stores `q` without calling `IncRef`: the counter of `q` is unchanged,
`UseCount()` of the handle is that counter (0 for an object no other handle points at),
one more handle points at `q` than its counter says, and the invariant is broken.  When
the counter of `q` is at most 1, the destruction of the handle destroys `q`, also while
another handle points at it. -/
theorem c28_reset_ptr_breaks_count (st : Store) (hs : List IntrusivePtr) (h : IntrusivePtr)
    (q : Nat) (c : SimpleCounter) (hinv : Counted st (h :: hs)) (hq : q ≠ 0)
    (hne : h.Get ≠ q) (hc : st.objs q = some c) :
    ∃ st1, h.ResetPtr q st = some ({ ptr_ := q }, st1) ∧
      st1.objs q = some c ∧
      IntrusivePtr.UseCount { ptr_ := q } st1 = some c.count_ ∧
      handlesOn ({ ptr_ := q } :: hs) q = c.count_ + 1 ∧
      ¬ Counted st1 ({ ptr_ := q } :: hs) ∧
      (c.count_ ≤ 1 → ∃ st2, IntrusivePtr.destroy { ptr_ := q } st1 = some st2 ∧
        st2.objs q = none ∧ st2.destroyed = st1.destroyed ++ [q] ∧
        handlesOn hs q = c.count_) := by
  have hne' : h.ptr_ ≠ q := hne
  have hcount : c.count_ = handlesOn hs q := by
    have := hinv.2 q c hc
    rw [handlesOn_cons] at this
    simpa [hne'] using this
  have hon : handlesOn ({ ptr_ := q } :: hs) q = c.count_ + 1 := by
    rw [handlesOn_cons, hcount]; simp
  have key : ∃ st1, h.ResetPtr q st = some ({ ptr_ := q }, st1) ∧ st1.objs q = some c := by
    by_cases h0 : h.ptr_ = 0
    · have hq' : ¬ (0 = q) := fun e => hq e.symm
      exact ⟨st, by simp [IntrusivePtr.ResetPtr, IntrusivePtr.Reset, h0, hq'], hc⟩
    · have hlive := hinv.1 h (List.mem_cons_self _ _) h0
      cases hobj : st.objs h.ptr_ with
      | none => exact absurd hobj hlive
      | some ch =>
        obtain ⟨d⟩ := ch
        obtain ⟨st1, e1, e2, -, -⟩ := destroy_live h.ptr_ d st h0 hobj
        have e1' : RefCounted.DecRef h.ptr_ st = some st1 := by
          simpa [IntrusivePtr.destroy, h0] using e1
        refine ⟨st1, ?_, ?_⟩
        · simp [IntrusivePtr.ResetPtr, hne', IntrusivePtr.Reset, h0, e1']
        · rw [e2 q (fun e => hne' e.symm)]; exact hc
  obtain ⟨st1, k1, k2⟩ := key
  refine ⟨st1, k1, k2, ?_, hon, ?_, ?_⟩
  · simp [IntrusivePtr.UseCount, hq, RefCounted.RefCount, k2, SimpleCounter.RefCount]
  · intro hbad
    have := hbad.2 q c k2
    omega
  · intro hle
    obtain ⟨d⟩ := c
    obtain ⟨st2, e1, -, -, e4⟩ := destroy_live q d st1 hq k2
    exact ⟨st2, e1, (e4 hle).1, (e4 hle).2, hcount.symm⟩

theorem Counted_oneObject_one :
    Counted (oneObject 1) [{ ptr_ := 0 }, { ptr_ := 100 }] := by
  constructor
  · intro h hm h0
    simp at hm
    rcases hm with rfl | rfl
    · exact absurd rfl h0
    · simp [oneObject]
  · intro o c hoc
    by_cases ho : o = 100
    · subst ho
      simp [oneObject] at hoc
      subst hoc
      simp [handlesOn]
    · simp [oneObject, ho] at hoc

/-- The failing input of C28: `g` is the only handle on the object `100` (counter 1), and
the empty handle `h` is reset to `100`; afterwards two handles point at the object whose
counter is 1, and the destruction of `h` destroys it under `g`. -/
theorem c28_witness :
    ∃ st1, IntrusivePtr.ResetPtr { ptr_ := 0 } 100 (oneObject 1) = some ({ ptr_ := 100 }, st1) ∧
      st1.objs 100 = some { count_ := 1 } ∧
      IntrusivePtr.UseCount { ptr_ := 100 } st1 = some 1 ∧
      handlesOn [{ ptr_ := 100 }, { ptr_ := 100 }] 100 = 1 + 1 ∧
      ¬ Counted st1 [{ ptr_ := 100 }, { ptr_ := 100 }] ∧
      (1 ≤ 1 → ∃ st2, IntrusivePtr.destroy { ptr_ := 100 } st1 = some st2 ∧
        st2.objs 100 = none ∧ st2.destroyed = st1.destroyed ++ [100] ∧
        handlesOn [{ ptr_ := 100 }] 100 = 1) :=
  c28_reset_ptr_breaks_count (oneObject 1) [{ ptr_ := 100 }] { ptr_ := 0 } 100
    { count_ := 1 } Counted_oneObject_one (by decide) (by decide) rfl

end Intrusive
